import Mathlib

/-! console-jhelper: the visible-width engine and the text layout primitives.

A shallow embedding of `src/utils/colors.js` (`stripAnsi`, `visibleLength`) and
`src/utils/layout.js` (`pad`, `wrap`, `wrapLine`, `truncate`).

A JavaScript string is modelled as the list of its UTF-16 code units, so that
`.length`, `substring`, `split` and the (non-unicode) regular expression of
`stripAnsi` all count the same units as the source does.  Numbers that the
source uses as widths are integers (`Int`); strings are unbounded.
-/

namespace ConsoleJHelper

/-! ## Strings -/

/-- A JavaScript string, as the list of its UTF-16 code units. -/
abbrev Str := List Nat

/-- UTF-16 encoding of one Unicode scalar value. -/
def utf16Char (c : Char) : List Nat :=
  if c.toNat < 65536 then [c.toNat]
  else [55296 + (c.toNat - 65536) / 1024, 56320 + (c.toNat - 65536) % 1024]

/-- The JavaScript string denoted by a string literal. -/
def js (s : String) : Str := s.toList.flatMap utf16Char

/-- Code unit of `\x1b`. -/
def ESC : Nat := 27
/-- Code unit of `[`. -/
def LBRACKET : Nat := 91
/-- Code unit of `m`. -/
def LOWER_M : Nat := 109
/-- Code unit of the space character. -/
def SPACE : Nat := 32
/-- Code unit of `\n`. -/
def NEWLINE : Nat := 10

/-- The method `String.prototype.repeat` for a non-negative count. -/
def strRepeat (s : Str) : Nat → Str
  | 0 => []
  | n + 1 => s ++ strRepeat s n

/-! ## colors.js -/

/-- The character class `[0-9;]` of the regular expression in `stripAnsi`. -/
def isParam (c : Nat) : Bool := (48 ≤ c && c ≤ 57) || c == 59

/-- Match of `/\x1b\[[0-9;]*m/` anchored at the head of the input: the length of
the match, if there is one.  The star is greedy; since `m` is not in the class
`[0-9;]`, backtracking to a shorter run can never succeed, so the match exists
exactly when the maximal run of class characters is followed by `m`. -/
def matchAt : Str → Option Nat
  | a :: b :: rest =>
    if a = ESC ∧ b = LBRACKET then
      match rest.dropWhile isParam with
      | c :: _ => if c = LOWER_M then some ((rest.takeWhile isParam).length + 3) else none
      | [] => none
    else none
  | _ => none

/-- The scanning loop of `str.replace(/\x1b\[[0-9;]*m/g, '')`: `skip` counts the
code units of the current match that are still to be consumed.  At a position
where the pattern matches, the match is dropped and scanning resumes right
after it; elsewhere the code unit is copied and scanning advances by one. -/
def replaceFrom : Nat → Str → Str
  | _, [] => []
  | skip + 1, _ :: cs => replaceFrom skip cs
  | 0, c :: cs =>
    match matchAt (c :: cs) with
    | some n => replaceFrom (n - 1) cs
    | none => c :: replaceFrom 0 cs

/-- The function `stripAnsi(str)`: `str.replace(/\x1b\[[0-9;]*m/g, '')`. -/
def stripAnsi (str : Str) : Str := replaceFrom 0 str

/-- The function `visibleLength(str)`: `stripAnsi(str).length`. -/
def visibleLength (str : Str) : Nat := (stripAnsi str).length

/-! ## layout.js -/

/-- The method `str.split(sep)` for a one-unit separator: the segments between the
occurrences of `sep` (always at least one segment). -/
def split (sep : Nat) : Str → List Str
  | [] => [[]]
  | c :: cs =>
    if c = sep then [] :: split sep cs
    else
      match split sep cs with
      | w :: ws => (c :: w) :: ws
      | [] => [[c]]

/-- The method `arr.join(sep)`. -/
def join (sep : Str) : List Str → Str
  | [] => []
  | [x] => x
  | x :: y :: rest => x ++ sep ++ join sep (y :: rest)

/-- The function `pad(str, width, align, char)`.  The repeat counts are never negative, so
`repeat` cannot throw.  Callers that leave `align` and `char` out pass
`js "left"` and `js " "`. -/
def pad (str : Str) (width : Int) (align : Str) (char : Str) : Str :=
  let visible : Int := visibleLength str
  let padding : Int := max 0 (width - visible)
  if align = js "center" then
    let leftPad : Int := padding / 2
    let rightPad : Int := padding - leftPad
    strRepeat char leftPad.toNat ++ str ++ strRepeat char rightPad.toNat
  else if align = js "right" then
    strRepeat char padding.toNat ++ str
  else
    str ++ strRepeat char padding.toNat

/-- The `for (const word of words)` loop of `wrapLine`, on the state
`(lines, currentLine)`.  A string is truthy exactly when it is non-empty. -/
def wrapLoop (width : Int) : List Str → Str → List Str → List Str × Str
  | lines, currentLine, [] => (lines, currentLine)
  | lines, currentLine, word :: rest =>
    let testLine := if currentLine ≠ [] then currentLine ++ [SPACE] ++ word else word
    let testLength : Int := visibleLength testLine
    if testLength ≤ width then
      wrapLoop width lines testLine rest
    else
      wrapLoop width (if currentLine ≠ [] then lines ++ [currentLine] else lines) word rest

/-- The list `lines` at the end of `wrapLine`, before it is joined. -/
def wrapLineLines (line : Str) (width : Int) : List Str :=
  let words := split SPACE line
  let st := wrapLoop width [] [] words
  if st.2 ≠ [] then st.1 ++ [st.2] else st.1

/-- The function `wrapLine(line, width)`. -/
def wrapLine (line : Str) (width : Int) : Str :=
  join [NEWLINE] (wrapLineLines line width)

/-- The function `wrap(text, width, preserveNewlines)`. -/
def wrap (text : Str) (width : Int) (preserveNewlines : Bool) : Str :=
  if preserveNewlines then
    join [NEWLINE] ((split NEWLINE text).map (fun line => wrapLine line width))
  else
    wrapLine (text.map (fun c => if c = NEWLINE then SPACE else c)) width

/-- The call `s.substring(0, end)`: a negative `end` counts as 0 and one beyond the
length as the length. -/
def substring0 (s : Str) (e : Int) : Str := s.take e.toNat

/-- The function `truncate(text, width, ellipsis)`. -/
def truncate (text : Str) (width : Int) (ellipsis : Str) : Str :=
  let visible : Int := visibleLength text
  if visible ≤ width then text
  else
    let clean := stripAnsi text
    let truncated := substring0 clean (width - (ellipsis.length : Int))
    truncated ++ ellipsis

/-- The method `String.prototype.repeat` for any integer count: a negative count
throws a `RangeError` (no result). -/
def jsRepeat (s : Str) (count : Int) : Option Str :=
  if count < 0 then none else some (strRepeat s count.toNat)

/-- The expression `Array(n).fill(x)` for an integer `n`: a negative length throws
a `RangeError` (no result). -/
def arrayFill (n : Int) (x : Str) : Option (List Str) :=
  if n < 0 then none else some (List.replicate n.toNat x)

/-- The `margin` argument of `addMargin`: a number, or an object whose fields
`top`, `right`, `bottom`, `left` are numbers or missing. -/
inductive Margin where
  | uniform (n : Int)
  | sides (top right bottom left : Option Int)

/-- The function `addMargin(text, margin)`; `x || 0` turns a missing field (and 0)
into 0. -/
def addMargin (text : Str) (margin : Margin) : Option Str :=
  let lines := split NEWLINE text
  let top : Int := match margin with
    | .uniform n => n
    | .sides t _ _ _ => t.getD 0
  let right : Int := match margin with
    | .uniform n => n
    | .sides _ r _ _ => r.getD 0
  let bottom : Int := match margin with
    | .uniform n => n
    | .sides _ _ b _ => b.getD 0
  let left : Int := match margin with
    | .uniform n => n
    | .sides _ _ _ l => l.getD 0
  (jsRepeat [SPACE] left).bind fun leftPad =>
  (jsRepeat [SPACE] right).bind fun rightPad =>
  let paddedLines := lines.map (fun line => leftPad ++ line ++ rightPad)
  (arrayFill top []).bind fun topLines =>
  (arrayFill bottom []).bind fun bottomLines =>
  some (join [NEWLINE] (topLines ++ paddedLines ++ bottomLines))

/-- The function `addPadding(text, padding)`. -/
def addPadding (text : Str) (padding : Margin) : Option Str :=
  addMargin text padding

/-! ## colors.js: colour codes -/

/-- Decimal digits of a natural number, most significant first (`fuel` bounds
the number of digits). -/
def decimalAux : Nat → Nat → Str → Str
  | 0, _, acc => acc
  | fuel + 1, n, acc =>
    if n < 10 then (48 + n) :: acc
    else decimalAux fuel (n / 10) ((48 + n % 10) :: acc)

/-- The decimal numeral of a natural number. -/
def decimal (n : Nat) : Str := decimalAux (n + 1) n []

/-- The text a template literal gives a number that is an integer (`some i`) or
`NaN` (`none`). -/
def numToString : Option Int → Str
  | none => js "NaN"
  | some i => if i < 0 then js "-" ++ decimal i.natAbs else decimal i.natAbs

/-- The function `rgb(r, g, b)`. -/
def rgb (r g b : Option Int) : Str :=
  js "\x1b[38;2;" ++ numToString r ++ js ";" ++ numToString g ++ js ";" ++ numToString b
    ++ js "m"

/-- The function `bgRgb(r, g, b)`. -/
def bgRgb (r g b : Option Int) : Str :=
  js "\x1b[48;2;" ++ numToString r ++ js ";" ++ numToString g ++ js ";" ++ numToString b
    ++ js "m"

/-- White space and line terminators, which `parseInt` skips at the start. -/
def isStrWhiteSpace (c : Nat) : Bool :=
  c == 9 || c == 10 || c == 11 || c == 12 || c == 13 || c == 32 || c == 160 || c == 5760 ||
  (8192 ≤ c && c ≤ 8202) || c == 8232 || c == 8233 || c == 8239 || c == 8287 || c == 12288 ||
  c == 65279

/-- Value of a hexadecimal digit `0-9`, `a-f`, `A-F`. -/
def hexDigitValue (c : Nat) : Option Nat :=
  if 48 ≤ c ∧ c ≤ 57 then some (c - 48)
  else if 97 ≤ c ∧ c ≤ 102 then some (c - 87)
  else if 65 ≤ c ∧ c ≤ 70 then some (c - 55)
  else none

/-- Values of the longest prefix made of hexadecimal digits. -/
def hexDigitsPrefix : Str → List Nat
  | [] => []
  | c :: cs =>
    match hexDigitValue c with
    | some d => d :: hexDigitsPrefix cs
    | none => []

/-- The call `parseInt(s, 16)`: leading white space is skipped, then an optional
sign, then an optional `0x` or `0X`, then the longest run of hexadecimal digits
is read; without any digit the result is `NaN` (`none`). -/
def parseInt16 (s : Str) : Option Int :=
  let s1 := s.dropWhile isStrWhiteSpace
  let negative : Bool := s1.head? == some 45
  let s2 := if s1.head? = some 45 ∨ s1.head? = some 43 then s1.tail else s1
  let s3 := if s2.take 2 = [48, 120] ∨ s2.take 2 = [48, 88] then s2.drop 2 else s2
  let digits := hexDigitsPrefix s3
  if digits = [] then none
  else
    let value : Int := digits.foldl (fun acc d => 16 * acc + (d : Int)) 0
    some (if negative then -value else value)

/-- The call `s.substring(a, b)` for `0 <= a <= b`. -/
def substring (s : Str) (a b : Nat) : Str := (s.take b).drop a

/-- The function `hex(hex)`; `replace('#', '')` removes the first `#`. -/
def hex (h : Str) : Str :=
  let clean := h.erase 35
  let r := parseInt16 (substring clean 0 2)
  let g := parseInt16 (substring clean 2 4)
  let b := parseInt16 (substring clean 4 6)
  rgb r g b

/-- The function `bgHex(hex)`. -/
def bgHex (h : Str) : Str :=
  let clean := h.erase 35
  let r := parseInt16 (substring clean 0 2)
  let g := parseInt16 (substring clean 2 4)
  let b := parseInt16 (substring clean 4 6)
  bgRgb r g b

/-- The constant `ANSI.reset`. -/
def ANSI.reset : Str := js "\x1b[0m"
/-- The constant `ANSI.bold`. -/
def ANSI.bold : Str := js "\x1b[1m"
/-- The constant `ANSI.dim`. -/
def ANSI.dim : Str := js "\x1b[2m"
/-- The constant `ANSI.italic`. -/
def ANSI.italic : Str := js "\x1b[3m"
/-- The constant `ANSI.underline`. -/
def ANSI.underline : Str := js "\x1b[4m"
/-- The constant `ANSI.blink`. -/
def ANSI.blink : Str := js "\x1b[5m"
/-- The constant `ANSI.inverse`. -/
def ANSI.inverse : Str := js "\x1b[7m"
/-- The constant `ANSI.hidden`. -/
def ANSI.hidden : Str := js "\x1b[8m"
/-- The constant `ANSI.strikethrough`. -/
def ANSI.strikethrough : Str := js "\x1b[9m"

/-- The own properties of the object `ANSI.fg`. -/
def ANSI.fg : List (Str × Str) :=
  [(js "black", js "\x1b[30m"), (js "red", js "\x1b[31m"), (js "green", js "\x1b[32m"),
   (js "yellow", js "\x1b[33m"), (js "blue", js "\x1b[34m"), (js "magenta", js "\x1b[35m"),
   (js "cyan", js "\x1b[36m"), (js "white", js "\x1b[37m"), (js "gray", js "\x1b[90m"),
   (js "brightRed", js "\x1b[91m"), (js "brightGreen", js "\x1b[92m"),
   (js "brightYellow", js "\x1b[93m"), (js "brightBlue", js "\x1b[94m"),
   (js "brightMagenta", js "\x1b[95m"), (js "brightCyan", js "\x1b[96m"),
   (js "brightWhite", js "\x1b[97m")]

/-- The own properties of the object `ANSI.bg`. -/
def ANSI.bg : List (Str × Str) :=
  [(js "black", js "\x1b[40m"), (js "red", js "\x1b[41m"), (js "green", js "\x1b[42m"),
   (js "yellow", js "\x1b[43m"), (js "blue", js "\x1b[44m"), (js "magenta", js "\x1b[45m"),
   (js "cyan", js "\x1b[46m"), (js "white", js "\x1b[47m"), (js "gray", js "\x1b[100m"),
   (js "brightRed", js "\x1b[101m"), (js "brightGreen", js "\x1b[102m"),
   (js "brightYellow", js "\x1b[103m"), (js "brightBlue", js "\x1b[104m"),
   (js "brightMagenta", js "\x1b[105m"), (js "brightCyan", js "\x1b[106m"),
   (js "brightWhite", js "\x1b[107m")]

/-! ## Property lookup on object literals -/

/-- The property names that every object literal inherits from
`Object.prototype`; the value of each is an object or a function, hence truthy. -/
def objectPrototypeKeys : List Str :=
  [js "constructor", js "__defineGetter__", js "__defineSetter__", js "hasOwnProperty",
   js "__lookupGetter__", js "__lookupSetter__", js "isPrototypeOf",
   js "propertyIsEnumerable", js "toString", js "valueOf", js "__proto__",
   js "toLocaleString"]

/-- The text that string concatenation gives the inherited value `obj[key]`:
`[object Object]` for the prototype object itself, and the source text of a
native function, as Node.js prints it, for the inherited methods. -/
def inheritedText (key : Str) : Str :=
  if key = js "__proto__" then js "[object Object]"
  else if key = js "constructor" then js "function Object() \x7b [native code] \x7d"
  else js "function " ++ key ++ js "() \x7b [native code] \x7d"

/-- What `if (table[key]) result += table[key]` appends, for an object literal
`table` whose own values are non-empty strings: the own value, or the text of an
inherited value, or nothing when the lookup is `undefined`. -/
def appendLookup (table : List (Str × Str)) (key : Str) : Str :=
  match table.lookup key with
  | some value => value
  | none => if key ∈ objectPrototypeKeys then inheritedText key else []

/-! ## Text.js -/

/-- A value of the options `color`, `bgColor`, `borderColor`, `headerColor`:
`null` or `undefined`, a string, or an object `{r, g, b}`. -/
inductive ColorSpec where
  | absent
  | str (s : Str)
  | obj (r g b : Int)
deriving DecidableEq

/-- Truthiness of a colour value. -/
def ColorSpec.truthy : ColorSpec → Bool
  | .absent => false
  | .str s => s != []
  | .obj _ _ _ => true

/-- The block `if (color) ...` of `build`, for the foreground (`hexFn = hex`,
`table = ANSI.fg`) and the background (`hexFn = bgHex`, `table = ANSI.bg`): what
is appended to `result`.  For an object, `color.startsWith` is not a function
and the call throws a `TypeError` (no result). -/
def colorCode (hexFn : Str → Str) (table : List (Str × Str)) : ColorSpec → Option Str
  | .absent => some []
  | .obj _ _ _ => none
  | .str s =>
    if s = [] then some []
    else if s.head? = some 35 then some (hexFn s)
    else some (appendLookup table s)

/-- The options of `Text`, after destructuring (the defaults are the empty text,
no colours and every attribute `false`). -/
structure TextOptions where
  text : Str
  color : ColorSpec
  bgColor : ColorSpec
  bold : Bool
  dim : Bool
  italic : Bool
  underline : Bool
  strikethrough : Bool
  inverse : Bool
  blink : Bool

/-- The function `build` of `Text`, which `toString()` returns. -/
def Text.build (opts : TextOptions) : Option Str :=
  let result : Str := []
  let result := if opts.bold then result ++ ANSI.bold else result
  let result := if opts.dim then result ++ ANSI.dim else result
  let result := if opts.italic then result ++ ANSI.italic else result
  let result := if opts.underline then result ++ ANSI.underline else result
  let result := if opts.strikethrough then result ++ ANSI.strikethrough else result
  let result := if opts.inverse then result ++ ANSI.inverse else result
  let result := if opts.blink then result ++ ANSI.blink else result
  (colorCode hex ANSI.fg opts.color).bind fun fg =>
  let result := result ++ fg
  (colorCode bgHex ANSI.bg opts.bgColor).bind fun bg =>
  let result := result ++ bg
  let result := result ++ opts.text
  let result := result ++ ANSI.reset
  some result

/-- The call `Text({ text, color }).toString()`, every other option at its default. -/
def textWithColor (text : Str) (color : ColorSpec) : Option Str :=
  Text.build (TextOptions.mk text color .absent false false false false false false false)

/-! ## Box.js -/

/-- Map a function that may throw over an array, in order; the first throw ends
the whole computation. -/
def optMap {α β : Type} (f : α → Option β) : List α → Option (List β)
  | [] => some []
  | x :: xs => (f x).bind fun y => (optMap f xs).bind fun ys => some (y :: ys)

/-- Map a function of element and index that may throw over an array, the
first index being `i`. -/
def optMapIdx {α β : Type} (f : α → Nat → Option β) (i : Nat) : List α → Option (List β)
  | [] => some []
  | x :: xs => (f x i).bind fun y => (optMapIdx f (i + 1) xs).bind fun ys => some (y :: ys)

/-- The glyphs of one border style of `BORDERS`. -/
structure Border where
  topLeft : Str
  topRight : Str
  bottomLeft : Str
  bottomRight : Str
  horizontal : Str
  vertical : Str
  topJoin : Str
  bottomJoin : Str
  leftJoin : Str
  rightJoin : Str
  cross : Str

/-- The entry `BORDERS.single`. -/
def BORDERS.single : Border :=
  Border.mk (js "┌") (js "┐") (js "└") (js "┘") (js "─") (js "│") (js "┬") (js "┴") (js "├")
    (js "┤") (js "┼")

/-- The own properties of the object `BORDERS`. -/
def BORDERS : List (Str × Border) :=
  [(js "single", BORDERS.single),
   (js "double", Border.mk (js "╔") (js "╗") (js "╚") (js "╝") (js "═") (js "║") (js "╦")
      (js "╩") (js "╠") (js "╣") (js "╬")),
   (js "round", Border.mk (js "╭") (js "╮") (js "╰") (js "╯") (js "─") (js "│") (js "┬")
      (js "┴") (js "├") (js "┤") (js "┼")),
   (js "bold", Border.mk (js "┏") (js "┓") (js "┗") (js "┛") (js "━") (js "┃") (js "┳")
      (js "┻") (js "┣") (js "┫") (js "╋")),
   (js "classic", Border.mk (js "+") (js "+") (js "+") (js "+") (js "-") (js "|") (js "+")
      (js "+") (js "+") (js "+") (js "+"))]

/-- The expression `table[style] || fallback` for a table of border styles: the
own entry; or the fallback when the lookup is `undefined`; or, for a property
name inherited from `Object.prototype`, the inherited value, which is truthy
and has no glyph property at all (`none`). -/
def borderFor {β : Type} (table : List (Str × β)) (fallback : β) (style : Str) : Option β :=
  match table.lookup style with
  | some b => some b
  | none => if style ∈ objectPrototypeKeys then none else some fallback

/-- The option `padding` of `Box`: a number, or an object with the four sides. -/
inductive Padding where
  | uniform (n : Int)
  | sides (top right bottom left : Int)

/-- The field `paddingValue.top`. -/
def Padding.top : Padding → Int
  | .uniform n => n
  | .sides t _ _ _ => t

/-- The field `paddingValue.right`. -/
def Padding.right : Padding → Int
  | .uniform n => n
  | .sides _ r _ _ => r

/-- The field `paddingValue.bottom`. -/
def Padding.bottom : Padding → Int
  | .uniform n => n
  | .sides _ _ b _ => b

/-- The field `paddingValue.left`. -/
def Padding.left : Padding → Int
  | .uniform n => n
  | .sides _ _ _ l => l

/-- The options of `Box`, after destructuring.  The defaults are: empty content
and title, `titleAlign` `left`, no width, no height, padding 1, border style
`single`, no border colour, `align` `left`, `valign` `top`.  The fields
`width` and `height` are `null` (`none`) or a number. -/
structure BoxOptions where
  content : Str
  title : Str
  titleAlign : Str
  width : Option Int
  height : Option Int
  padding : Padding
  borderStyle : Str
  borderColor : ColorSpec
  align : Str
  valign : Str

/-- The function `getMaxWidth(text)`; `split` never returns an empty array and
widths are not negative, so the maximum may start from 0. -/
def getMaxWidth (text : Str) : Int :=
  ((split NEWLINE text).map (fun line => (visibleLength line : Int))).foldl max 0

/-- The call `lines.slice(0, end)`: a negative `end` counts from the end of the
array. -/
def slice0 (lines : List Str) (e : Int) : List Str :=
  if e < 0 then lines.take ((lines.length : Int) + e).toNat else lines.take e.toNat

/-- The function `fitToHeight(lines, targetHeight, valign)` of `Box`. -/
def fitToHeight (lines : List Str) (targetHeight : Int) (valign : Str) : List Str :=
  if (lines.length : Int) = targetHeight then lines
  else if (lines.length : Int) < targetHeight then
    let emptyLines : Int := targetHeight - (lines.length : Int)
    let emptyLine : Str := []
    if valign = js "center" then
      let topEmpty : Int := emptyLines / 2
      let bottomEmpty : Int := emptyLines - topEmpty
      List.replicate topEmpty.toNat emptyLine ++ lines ++ List.replicate bottomEmpty.toNat emptyLine
    else if valign = js "bottom" then
      List.replicate emptyLines.toNat emptyLine ++ lines
    else
      lines ++ List.replicate emptyLines.toNat emptyLine
  else slice0 lines targetHeight

/-- The function `colorize` of `Box` and `Table`, on a string: with a truthy
border colour `Text({ text, color: borderColor }).toString()`, else the text. -/
def colorize (borderColor : ColorSpec) (text : Str) : Option Str :=
  if borderColor.truthy then textWithColor text borderColor else some text

/-- The top border of `Box`, with the title spliced in when there is one. -/
def Box.topBorder (border : Border) (borderColor : ColorSpec) (title titleAlign : Str)
    (boxWidth : Int) : Option Str :=
  if title ≠ [] then
    let titleText := [SPACE] ++ title ++ [SPACE]
    let titleLen : Int := visibleLength titleText
    let remainingWidth : Int := boxWidth - titleLen
    if titleAlign = js "center" then
      let leftWidth : Int := remainingWidth / 2
      let rightWidth : Int := remainingWidth - leftWidth
      (jsRepeat border.horizontal leftWidth).bind fun l =>
      (colorize borderColor (border.topLeft ++ l)).bind fun a =>
      (jsRepeat border.horizontal rightWidth).bind fun r =>
      (colorize borderColor (r ++ border.topRight)).bind fun b =>
      some (a ++ titleText ++ b)
    else if titleAlign = js "right" then
      (jsRepeat border.horizontal remainingWidth).bind fun l =>
      (colorize borderColor (border.topLeft ++ l)).bind fun a =>
      (colorize borderColor border.topRight).bind fun b =>
      some (a ++ titleText ++ b)
    else
      (colorize borderColor border.topLeft).bind fun a =>
      (jsRepeat border.horizontal remainingWidth).bind fun r =>
      (colorize borderColor (r ++ border.topRight)).bind fun b =>
      some (a ++ titleText ++ b)
  else
    (jsRepeat border.horizontal boxWidth).bind fun h =>
    colorize borderColor (border.topLeft ++ h ++ border.topRight)

/-- The function `build` of `Box`, which `toString()` returns.  A throw
(`RangeError` of `repeat` on a negative count, `TypeError` of
`border.horizontal.repeat` on a border without glyphs or of `Text` on a colour
object) gives no result. -/
def Box.build (o : BoxOptions) : Option Str :=
  (borderFor BORDERS BORDERS.single o.borderStyle).bind fun border =>
  let lines := split NEWLINE o.content
  let auto : Int := max (getMaxWidth o.content) ((visibleLength o.title : Int) + 2)
  let contentWidth : Int :=
    match o.width with
    | some w => if w ≠ 0 then w else auto
    | none => auto
  let innerWidth := contentWidth
  let paddingValue := o.padding
  let topPadding : List Str := List.replicate paddingValue.top.toNat []
  (optMap (fun line =>
      (jsRepeat [SPACE] paddingValue.left).bind fun leftPad =>
      (jsRepeat [SPACE] paddingValue.right).bind fun rightPad =>
      let contentLine :=
        pad line (innerWidth - paddingValue.left - paddingValue.right) o.align (js " ")
      some (leftPad ++ contentLine ++ rightPad)) lines).bind fun contentLines =>
  let bottomPadding : List Str := List.replicate paddingValue.bottom.toNat []
  let paddedLines := topPadding ++ contentLines ++ bottomPadding
  let finalLines :=
    match o.height with
    | some h => if h ≠ 0 then fitToHeight paddedLines (h - 2) o.valign else paddedLines
    | none => paddedLines
  let boxWidth := innerWidth
  (Box.topBorder border o.borderColor o.title o.titleAlign boxWidth).bind fun top =>
  (optMap (fun line =>
      let paddedLine := pad line boxWidth (js "left") (js " ")
      (colorize o.borderColor border.vertical).bind fun l =>
      (colorize o.borderColor border.vertical).bind fun r =>
      some (l ++ paddedLine ++ r)) finalLines).bind fun rows =>
  (jsRepeat border.horizontal boxWidth).bind fun h =>
  (colorize o.borderColor (border.bottomLeft ++ h ++ border.bottomRight)).bind fun bottom =>
  some (join [NEWLINE] ([top] ++ rows ++ [bottom]))

/-- The call `Box({ content, padding })`, every other option at its default. -/
def boxWithPadding (content : Str) (padding : Padding) : Option Str :=
  Box.build (BoxOptions.mk content [] (js "left") none none padding (js "single") .absent
    (js "left") (js "top"))

/-! ## Table.js -/

/-- The glyphs of one border style of `TABLE_BORDERS`. -/
structure TableBorder where
  topLeft : Str
  topRight : Str
  topJoin : Str
  bottomLeft : Str
  bottomRight : Str
  bottomJoin : Str
  leftJoin : Str
  rightJoin : Str
  middleJoin : Str
  horizontal : Str
  vertical : Str

/-- The entry `TABLE_BORDERS.single`. -/
def TABLE_BORDERS.single : TableBorder :=
  TableBorder.mk (js "┌") (js "┐") (js "┬") (js "└") (js "┘") (js "┴") (js "├") (js "┤")
    (js "┼") (js "─") (js "│")

/-- The own properties of the object `TABLE_BORDERS`. -/
def TABLE_BORDERS : List (Str × TableBorder) :=
  [(js "single", TABLE_BORDERS.single),
   (js "double", TableBorder.mk (js "╔") (js "╗") (js "╦") (js "╚") (js "╝") (js "╩") (js "╠")
      (js "╣") (js "╬") (js "═") (js "║")),
   (js "round", TableBorder.mk (js "╭") (js "╮") (js "┬") (js "╰") (js "╯") (js "┴") (js "├")
      (js "┤") (js "┼") (js "─") (js "│"))]

/-- The option `align` of `Table`: one alignment, or an array of alignments. -/
inductive AlignSpec where
  | single (a : Str)
  | perColumn (as : List Str)

/-- The expression `Array.isArray(align) ? (align[i] || 'left') : align`; a
missing or empty entry of the array is falsy. -/
def cellAlign (align : AlignSpec) (i : Nat) : Str :=
  match align with
  | .single a => a
  | .perColumn as => if as.getD i [] = [] then js "left" else as.getD i []

/-- The options of `Table`, after destructuring; cells and headers are strings.
The defaults are: no headers, no rows, no `columnWidths`, padding 1, border
style `single`, header colour `cyan`, no border colour, `align` `left`,
`showHeaders` `true`. -/
structure TableOptions where
  headers : List Str
  rows : List (List Str)
  columnWidths : Option (List Int)
  padding : Int
  borderStyle : Str
  headerColor : ColorSpec
  borderColor : ColorSpec
  align : AlignSpec
  showHeaders : Bool

/-- One pass `cells.forEach((cell, i) => widths[i] = Math.max(widths[i], width))`.
The array `widths` is at least as long as `cells` wherever this is called. -/
def updateWidths : List Int → List Str → List Int
  | w :: ws, c :: cs => max w (visibleLength c : Int) :: updateWidths ws cs
  | ws, [] => ws
  | [], _ :: _ => []

/-- The function `calculateColumnWidths` of `Table`. -/
def calculateColumnWidths (o : TableOptions) : List Int :=
  match o.columnWidths with
  | some ws => ws
  | none =>
    let numColumns : Nat := (o.rows.map (fun r => r.length)).foldl max o.headers.length
    let widths : List Int := List.replicate numColumns 0
    let widths := if o.showHeaders then updateWidths widths o.headers else widths
    o.rows.foldl updateWidths widths

/-- The value `colorize(glyph)` as string concatenation uses it, for a glyph
that may be `undefined` (`none`): with a border colour the text of `Text`
defaults to the empty string, without one `undefined` is printed as such. -/
def colorizeGlyph (borderColor : ColorSpec) (glyph : Option Str) : Option Str :=
  match glyph with
  | some g => colorize borderColor g
  | none => if borderColor.truthy then textWithColor [] borderColor else some (js "undefined")

/-- The value `colorize(glyph)` as `join` uses it for its separator: `join`
takes `,` for an `undefined` separator. -/
def colorizeSeparator (borderColor : ColorSpec) (glyph : Option Str) : Option Str :=
  match glyph with
  | some g => colorize borderColor g
  | none => if borderColor.truthy then textWithColor [] borderColor else some (js ",")

/-- A horizontal line of `Table`:
`colorize(left) + widths.map(w => colorize(border.horizontal.repeat(w + padding * 2)))
.join(colorize(mid)) + colorize(right)`.  On a border without glyphs (`none`)
`border.horizontal.repeat` throws. -/
def Table.rule (border : Option TableBorder) (borderColor : ColorSpec) (padding : Int)
    (widths : List Int) (left mid right : TableBorder → Str) : Option Str :=
  (colorizeGlyph borderColor (border.map left)).bind fun l =>
  (optMap (fun w =>
      (border.bind fun b => jsRepeat b.horizontal (w + padding * 2)).bind fun h =>
      colorize borderColor h) widths).bind fun segments =>
  (colorizeSeparator borderColor (border.map mid)).bind fun m =>
  (colorizeGlyph borderColor (border.map right)).bind fun r =>
  some (l ++ join m segments ++ r)

/-- A row of cells of `Table`:
`colorize(border.vertical) + cells.join(colorize(border.vertical)) + colorize(border.vertical)`. -/
def Table.row (border : Option TableBorder) (borderColor : ColorSpec) (cells : List Str) :
    Option Str :=
  (colorizeGlyph borderColor (border.map fun b => b.vertical)).bind fun l =>
  (colorizeSeparator borderColor (border.map fun b => b.vertical)).bind fun m =>
  (colorizeGlyph borderColor (border.map fun b => b.vertical)).bind fun r =>
  some (l ++ join m cells ++ r)

/-- A padded cell: `' '.repeat(padding) + pad(String(cell), widths[i], cellAlign)
+ ' '.repeat(padding)`.  A missing `widths[i]` makes the padding of `pad` `NaN`,
which repeats nothing, as the width 0 does. -/
def Table.cell (o : TableOptions) (widths : List Int) (cell : Str) (i : Nat) : Option Str :=
  let content := pad cell (widths.getD i 0) (cellAlign o.align i) (js " ")
  (jsRepeat [SPACE] o.padding).bind fun l =>
  (jsRepeat [SPACE] o.padding).bind fun r =>
  some (l ++ content ++ r)

/-- The lines that `rows.forEach` pushes: each data row, and a separator after
every row but the last. -/
def Table.dataLines (o : TableOptions) (border : Option TableBorder) (widths : List Int) :
    List (List Str) → Option (List Str)
  | [] => some []
  | row :: rest =>
    (optMapIdx (Table.cell o widths) 0 row).bind fun cells =>
    (Table.row border o.borderColor cells).bind fun dataRow =>
    (if rest ≠ [] then
        (Table.rule border o.borderColor o.padding widths (fun b => b.leftJoin)
          (fun b => b.middleJoin) (fun b => b.rightJoin)).bind fun rowSep => some [rowSep]
      else some []).bind fun sep =>
    (Table.dataLines o border widths rest).bind fun more =>
    some ([dataRow] ++ sep ++ more)

/-- The function `build` of `Table`, which `toString()` returns; a throw gives
no result. -/
def Table.build (o : TableOptions) : Option Str :=
  let border := borderFor TABLE_BORDERS TABLE_BORDERS.single o.borderStyle
  let widths := calculateColumnWidths o
  (Table.rule border o.borderColor o.padding widths (fun b => b.topLeft) (fun b => b.topJoin)
    (fun b => b.topRight)).bind fun topBorder =>
  (if o.showHeaders ∧ o.headers.length > 0 then
      (optMapIdx (fun header i =>
          (Table.cell o widths header i).bind fun paddedContent =>
          if o.headerColor.truthy then
            Text.build (TextOptions.mk paddedContent o.headerColor .absent true false false
              false false false false)
          else some paddedContent) 0 o.headers).bind fun headerCells =>
      (Table.row border o.borderColor headerCells).bind fun headerRow =>
      (Table.rule border o.borderColor o.padding widths (fun b => b.leftJoin)
        (fun b => b.middleJoin) (fun b => b.rightJoin)).bind fun headerSep =>
      some [headerRow, headerSep]
    else some []).bind fun headerLines =>
  (Table.dataLines o border widths o.rows).bind fun dataLines =>
  (Table.rule border o.borderColor o.padding widths (fun b => b.bottomLeft)
    (fun b => b.bottomJoin) (fun b => b.bottomRight)).bind fun bottomBorder =>
  some (join [NEWLINE] ([topBorder] ++ headerLines ++ dataLines ++ [bottomBorder]))

/-- The call `Table({ headers, rows })`, every other option at its default. -/
def tableOf (headers : List Str) (rows : List (List Str)) : Option Str :=
  Table.build (TableOptions.mk headers rows none 1 (js "single") (.str (js "cyan")) .absent
    (.single (js "left")) true)

/-! ## terminal.js -/

/-- The terminal as the components use it: whether the input is a TTY, whether
it is in raw mode, and the strings passed to `output.write`, in order. -/
structure Terminal where
  isTTY : Bool
  isRaw : Bool
  out : List Str
deriving DecidableEq

/-- The function `write(text)`. -/
def write (t : Terminal) (text : Str) : Terminal := Terminal.mk t.isTTY t.isRaw (t.out ++ [text])

/-- The function `writeLine(text)`: `output.write(text + '\n')`. -/
def writeLine (t : Terminal) (text : Str) : Terminal := write t (text ++ [NEWLINE])

/-- The function `clearLine()`. -/
def clearLine (t : Terminal) : Terminal := write t (js "\x1b[2K\r")

/-- The function `hideCursor()`. -/
def hideCursor (t : Terminal) : Terminal := write t (js "\x1b[?25l")

/-- The function `showCursor()`. -/
def showCursor (t : Terminal) : Terminal := write t (js "\x1b[?25h")

/-- The function `cursorUp(lines)` for an integer. -/
def cursorUp (t : Terminal) (lines : Int) : Terminal :=
  write t (js "\x1b[" ++ numToString (some lines) ++ js "A")

/-- The function `setRawMode()`: the terminal after the call, and the raw flag
that the returned cleanup function restores (`none` when the cleanup does
nothing). -/
def setRawMode (t : Terminal) : Terminal × Option Bool :=
  if !t.isTTY then (t, none)
  else (Terminal.mk t.isTTY true t.out, some t.isRaw)

/-! ## Spinner.js -/

/-- One entry of `SPINNERS`. -/
structure SpinnerSet where
  frames : List Str
  interval : Nat
deriving DecidableEq

/-- The entry `SPINNERS.dots`. -/
def SPINNERS.dots : SpinnerSet :=
  SpinnerSet.mk [js "⠋", js "⠙", js "⠹", js "⠸", js "⠼", js "⠴", js "⠦", js "⠧", js "⠇", js "⠏"] 80

/-- The own properties of the object `SPINNERS`. -/
def SPINNERS : List (Str × SpinnerSet) :=
  [(js "dots", SPINNERS.dots),
   (js "line", SpinnerSet.mk [js "-", js "\\", js "|", js "/"] 100),
   (js "circle", SpinnerSet.mk [js "◐", js "◓", js "◑", js "◒"] 120),
   (js "square", SpinnerSet.mk [js "◰", js "◳", js "◲", js "◱"] 120),
   (js "arrow", SpinnerSet.mk [js "←", js "↖", js "↑", js "↗", js "→", js "↘", js "↓", js "↙"] 100),
   (js "bounce", SpinnerSet.mk [js "⠁", js "⠂", js "⠄", js "⠂"] 120),
   (js "box", SpinnerSet.mk [js "▖", js "▘", js "▝", js "▗"] 100),
   (js "star", SpinnerSet.mk [js "✶", js "✸", js "✹", js "✺", js "✹", js "✷"] 100),
   (js "toggle", SpinnerSet.mk [js "⊶", js "⊷"] 250),
   (js "grow", SpinnerSet.mk [js "▁", js "▃", js "▄", js "▅", js "▆", js "▇", js "█", js "▇",
      js "▆", js "▅", js "▄", js "▃"] 100),
   (js "pulse", SpinnerSet.mk [js "●", js "◉", js "◎", js "◉"] 150),
   (js "wave", SpinnerSet.mk [js "▁", js "▂", js "▃", js "▄", js "▅", js "▆", js "▇", js "█",
      js "▇", js "▆", js "▅", js "▄", js "▃", js "▂"] 80)]

/-- A spinner instance: the constants `spinner` (`none` for an inherited value,
which has no `frames`), `text`, `color`, `textColor` fixed at construction, the
field `options.text`, the variables `currentFrame` and `isSpinning`, whether the
interval of `intervalId` is live, and the terminal. -/
structure Spinner where
  spinner : Option SpinnerSet
  text : Str
  color : ColorSpec
  textColor : ColorSpec
  optionsText : Option Str
  currentFrame : Nat
  timer : Bool
  isSpinning : Bool
  term : Terminal
deriving DecidableEq

/-- The call `Spinner({ type, text, color, textColor })` on a terminal; a missing
`text` (`none`) is destructured to the empty string.  The defaults of the other
options are `dots`, `cyan` and no text colour. -/
def Spinner.create (type : Str) (text : Option Str) (color textColor : ColorSpec)
    (term : Terminal) : Spinner :=
  Spinner.mk (borderFor SPINNERS SPINNERS.dots type) (text.getD []) color textColor text 0 false
    false term

/-- The value of `textPart` in `renderFrame`. -/
def Spinner.textPart (s : Spinner) : Option Str :=
  if s.text ≠ [] then
    (if s.textColor.truthy then textWithColor ([SPACE] ++ s.text) s.textColor
      else some ([SPACE] ++ s.text))
  else some []

/-- The function `renderFrame` of `Spinner`.  A frame index beyond the frames
reads `undefined`, for which `Text` takes its default empty text; every entry of
`SPINNERS` has frames, so the modulus is never taken by 0. -/
def Spinner.renderFrame (s : Spinner) : Option Spinner :=
  let term := clearLine s.term
  s.spinner.bind fun spinner =>
  let frame := spinner.frames.getD s.currentFrame []
  (textWithColor frame s.color).bind fun frameText =>
  s.textPart.bind fun textPart =>
  let term := write term (frameText ++ textPart)
  some (Spinner.mk s.spinner s.text s.color s.textColor s.optionsText
    ((s.currentFrame + 1) % spinner.frames.length) s.timer s.isSpinning term)

/-- The method `start(newText)`; `none` is a missing argument. -/
def Spinner.start (s : Spinner) (newText : Option Str) : Option Spinner :=
  if s.isSpinning then some s
  else
    let optionsText := match newText with
      | some t => some t
      | none => s.optionsText
    (Spinner.renderFrame (Spinner.mk s.spinner s.text s.color s.textColor optionsText
      s.currentFrame s.timer true (hideCursor s.term))).bind fun r =>
    some (Spinner.mk r.spinner r.text r.color r.textColor r.optionsText r.currentFrame true
      r.isSpinning r.term)

/-- One firing of the interval timer: `renderFrame` runs while the interval is
live. -/
def Spinner.tick (s : Spinner) : Option Spinner :=
  if s.timer then s.renderFrame else some s

/-- The expression `a || b` for two optional strings: `a` when it is a non-empty
string, else `b`. -/
def orText (a b : Option Str) : Option Str :=
  match a with
  | some t => if t ≠ [] then some t else b
  | none => b

/-- The text of an optional string inside a template literal: `undefined` for a
missing one. -/
def templateText : Option Str → Str
  | some t => t
  | none => js "undefined"

/-- The method `stop(finalText, symbol)`. -/
def Spinner.stop (s : Spinner) (finalText symbol : Option Str) : Option Spinner :=
  if !s.isSpinning then some s
  else
    let term := clearLine s.term
    (match finalText with
      | some ft =>
        let symbolText := (orText symbol (some (js "✓"))).getD []
        (textWithColor symbolText (.str (js "green"))).bind fun symbolColored =>
        some (write term (symbolColored ++ [SPACE] ++ ft ++ [NEWLINE]))
      | none => some term).bind fun term =>
    some (Spinner.mk s.spinner s.text s.color s.textColor s.optionsText s.currentFrame false
      false (showCursor term))

/-- The method `setText(newText)`. -/
def Spinner.setText (s : Spinner) (newText : Str) : Spinner :=
  Spinner.mk s.spinner s.text s.color s.textColor (some newText) s.currentFrame s.timer
    s.isSpinning s.term

/-- The method `succeed(text)`. -/
def Spinner.succeed (s : Spinner) (text : Option Str) : Option Spinner :=
  s.stop (orText text s.optionsText) (some (js "✓"))

/-- The common body of `fail(text)` and `warn(text)`, for their symbol and colour. -/
def Spinner.finish (s : Spinner) (text : Option Str) (symbolText color : Str) :
    Option Spinner :=
  let term := clearLine s.term
  let finalText := orText text s.optionsText
  (textWithColor symbolText (.str color)).bind fun symbolColored =>
  let term := write term (symbolColored ++ [SPACE] ++ templateText finalText ++ [NEWLINE])
  some (Spinner.mk s.spinner s.text s.color s.textColor s.optionsText s.currentFrame false
    false (showCursor term))

/-- The method `fail(text)`. -/
def Spinner.fail (s : Spinner) (text : Option Str) : Option Spinner :=
  s.finish text (js "✗") (js "red")

/-- The method `warn(text)`. -/
def Spinner.warn (s : Spinner) (text : Option Str) : Option Spinner :=
  s.finish text (js "⚠") (js "yellow")

/-! ## Select.js -/

/-- One entry of `choices`: a string, or an object `{label, value, disabled}`
(`disabled` is `false` when it is missing). -/
inductive Choice where
  | str (s : Str)
  | obj (label : Str) (value : Str) (disabled : Bool)

/-- The expression `typeof choice === 'object' ? choice.label : choice`. -/
def Choice.label : Choice → Str
  | .str s => s
  | .obj l _ _ => l

/-- The expression `typeof c === 'object' ? c.value : c`. -/
def Choice.value : Choice → Str
  | .str s => s
  | .obj _ v _ => v

/-- The expression `typeof choice === 'object' && choice.disabled`. -/
def Choice.disabled : Choice → Bool
  | .str _ => false
  | .obj _ _ d => d

/-- The options of `Select`, after destructuring.  The defaults are: message
`Select an option:`, no choices, no default value, pointer `❯`, margin 1, message
and selected colour `cyan`, no unselected colour. -/
structure SelectOptions where
  message : Str
  choices : List Choice
  defaultValue : Option Str
  pointer : Str
  margin : Int
  messageColor : ColorSpec
  selectedColor : ColorSpec
  unselectedColor : ColorSpec

/-- The menu once `Select` has set it up and listens for keys: the selected
index and the raw flag that `restoreMode` will restore. -/
structure SelectMenu where
  selectedIndex : Nat
  restoreMode : Option Bool

/-- The message of the `TypeError` that `Text` throws on a colour object. -/
def textTypeError : Str := js "color.startsWith is not a function"

/-- The line that `renderMenu` writes for one choice; `none` when `Text` throws. -/
def Select.line (o : SelectOptions) (selectedIndex : Nat) (choice : Choice) (index : Nat) :
    Option Str :=
  let label := choice.label
  let disabled := choice.disabled
  let isSelected : Bool := index == selectedIndex
  (if isSelected then
      (Text.build (TextOptions.mk o.pointer o.selectedColor .absent true false false false
        false false false)).bind fun pointerText => some (pointerText ++ [SPACE])
    else some (js "  ")).bind fun line =>
  if disabled then
    (Text.build (TextOptions.mk label (.str (js "gray")) .absent false true false false
      false false false)).bind fun a =>
    (Text.build (TextOptions.mk (js " (disabled)") (.str (js "gray")) .absent false true true
      false false false false)).bind fun b =>
    some (line ++ a ++ b)
  else if isSelected then
    (Text.build (TextOptions.mk label o.selectedColor .absent true false false false
      false false false)).bind fun a => some (line ++ a)
  else if o.unselectedColor.truthy then
    (textWithColor label o.unselectedColor).bind fun a => some (line ++ a)
  else some (line ++ label)

/-- The loop `choices.forEach` of `renderMenu`, from the choice at `index` on:
each round clears the line and writes the line of the choice; a throw ends it. -/
def Select.renderLoop (o : SelectOptions) (selectedIndex : Nat) :
    List Choice → Nat → Terminal → Except Str Unit × Terminal
  | [], _, t => (.ok (), t)
  | choice :: rest, index, t =>
    let t := clearLine t
    match Select.line o selectedIndex choice index with
    | none => (.error textTypeError, t)
    | some line => Select.renderLoop o selectedIndex rest (index + 1) (writeLine t line)

/-- The function `renderMenu` of `Select`. -/
def Select.renderMenu (o : SelectOptions) (selectedIndex : Nat) (t : Terminal) :
    Except Str Unit × Terminal :=
  match Select.renderLoop o selectedIndex o.choices 0 t with
  | (.ok _, t) => (.ok (), cursorUp t ((o.choices.length : Int) - (selectedIndex : Int)))
  | (.error e, t) => (.error e, t)

/-- The index of the first choice whose value is `d`, as `findIndex` looks for
it from the index `i`. -/
def Select.findIndex (d : Str) : List Choice → Nat → Option Nat
  | [], _ => none
  | c :: cs, i => if c.value = d then some i else Select.findIndex d cs (i + 1)

/-- The statements of `Select(options)` that run before the promise is made: the
check of `choices` (a throw is the error with its message) and the search of the
index of `defaultValue`, which is the result. -/
def Select.init (o : SelectOptions) : Except Str Nat :=
  if o.choices.length = 0 then
    .error (js "Select requires at least one choice")
  else
    .ok (match o.defaultValue with
      | some d => (Select.findIndex d o.choices 0).getD 0
      | none => 0)

/-- The function `Select(options)` up to the point where it waits for keys: the
statements before the promise, then the body of the promise up to the first
`renderMenu()`. A throw is the error with its message and the terminal as it
was when the throw happened. -/
def Select.open (o : SelectOptions) (t : Terminal) : Except Str SelectMenu × Terminal :=
  match Select.init o with
  | .error e => (.error e, t)
  | .ok selectedIndex =>
    let raw := setRawMode t
    let restoreMode := raw.2
    let t := raw.1
    match (if o.message ≠ [] then
        (match textWithColor o.message o.messageColor with
          | some messageText => (Except.ok (), writeLine t messageText)
          | none => (Except.error textTypeError, t))
      else (Except.ok (), t)) with
    | (.error e, t) => (.error e, t)
    | (.ok _, t) =>
      let t := if o.margin > 0 then writeLine t [] else t
      let t := hideCursor t
      match Select.renderMenu o selectedIndex t with
      | (.error e, t) => (.error e, t)
      | (.ok _, t) => (.ok (SelectMenu.mk selectedIndex restoreMode), t)

/-! ## Numbers -/

/-- A value of the type Number: `NaN`, an infinity (`negative` tells which), or a
finite double, given by the rational number it stands for. The sign of zero is
not kept: zero is `+0`. -/
inductive Num where
  | nan
  | inf (negative : Bool)
  | fin (q : ℚ)
deriving DecidableEq

/-- The integer nearest to `q`, the even one of the two when `q` is half-way. -/
def roundHalfEven (q : ℚ) : Int :=
  if q - ⌊q⌋ < 1 / 2 then ⌊q⌋
  else if 1 / 2 < q - ⌊q⌋ then ⌊q⌋ + 1
  else if ⌊q⌋ % 2 = 0 then ⌊q⌋ else ⌊q⌋ + 1

/-- The distance of neighbouring doubles around `q`: `2 ^ (e - 52)` for the binary
exponent `e` of `q`, which is at least `-1022` (below it the doubles are
subnormal and keep the distance `2 ^ (-1074)`). -/
def ulp (q : ℚ) : ℚ := (2 : ℚ) ^ (max (Int.log 2 |q|) (-1022) - 52)

/-- The double a real result is rounded to (to nearest, ties to even): the
multiple of `ulp q` nearest to `q`, or an infinity when that multiple is beyond
the largest double. -/
def rnd (q : ℚ) : Num :=
  if (2 : ℚ) ^ (1024 : Nat) ≤ |(roundHalfEven (q / ulp q) : ℚ) * ulp q| then .inf (decide (q < 0))
  else .fin ((roundHalfEven (q / ulp q) : ℚ) * ulp q)

/-- The operator `-x`. -/
def Num.neg : Num → Num
  | .nan => .nan
  | .inf a => .inf (!a)
  | .fin q => .fin (-q)

/-- The operator `x + y`. -/
def Num.add : Num → Num → Num
  | .nan, _ => .nan
  | _, .nan => .nan
  | .inf a, .inf b => if a = b then .inf a else .nan
  | .inf a, .fin _ => .inf a
  | .fin _, .inf b => .inf b
  | .fin p, .fin q => rnd (p + q)

/-- The operator `x - y`. -/
def Num.sub (x y : Num) : Num := Num.add x (Num.neg y)

/-- The operator `x * y`. -/
def Num.mul : Num → Num → Num
  | .nan, _ => .nan
  | _, .nan => .nan
  | .inf a, .inf b => .inf (a != b)
  | .inf a, .fin q => if q = 0 then .nan else .inf (a != decide (q < 0))
  | .fin p, .inf b => if p = 0 then .nan else .inf (decide (p < 0) != b)
  | .fin p, .fin q => rnd (p * q)

/-- The operator `x / y`. -/
def Num.div : Num → Num → Num
  | .nan, _ => .nan
  | _, .nan => .nan
  | .inf _, .inf _ => .nan
  | .inf a, .fin q => .inf (a != decide (q < 0))
  | .fin _, .inf _ => .fin 0
  | .fin p, .fin q =>
    if q = 0 then (if p = 0 then .nan else .inf (decide (p < 0))) else rnd (p / q)

/-- The function `Math.max` of two numbers. -/
def Math.max : Num → Num → Num
  | .nan, _ => .nan
  | _, .nan => .nan
  | .inf true, y => y
  | x, .inf true => x
  | .inf false, _ => .inf false
  | _, .inf false => .inf false
  | .fin p, .fin q => .fin (Max.max p q)

/-- The function `Math.min` of two numbers. -/
def Math.min : Num → Num → Num
  | .nan, _ => .nan
  | _, .nan => .nan
  | .inf false, y => y
  | x, .inf false => x
  | .inf true, _ => .inf true
  | _, .inf true => .inf true
  | .fin p, .fin q => .fin (Min.min p q)

/-- The function `Math.round`: the nearest integer, the larger one of the two
when the number is half-way. -/
def Math.round : Num → Num
  | .nan => .nan
  | .inf a => .inf a
  | .fin q => .fin (⌊q + 1 / 2⌋ : Int)

/-- The method `String.prototype.repeat` for a number as count: `NaN` counts as
0, a fraction is cut off, a negative or infinite count throws a `RangeError`. -/
def repeatNum (s : Str) : Num → Option Str
  | .nan => jsRepeat s 0
  | .inf _ => none
  | .fin q => jsRepeat s (if 0 ≤ q then ⌊q⌋ else ⌈q⌉)

/-- The text a template literal gives a number. The digits of a number that is
not an integer below `10 ^ 21` are those of `fmt`. -/
def Num.toStr (fmt : ℚ → Str) : Num → Str
  | .nan => js "NaN"
  | .inf false => js "Infinity"
  | .inf true => js "-Infinity"
  | .fin q => if q.den = 1 ∧ |q| < 10 ^ 21 then numToString (some q.num) else fmt q

/-! ## ProgressBar.js -/

/-- The options of `ProgressBar`, defaults filled in. -/
structure ProgressBarOptions where
  total : Num
  width : Num
  complete : Str
  incomplete : Str
  showPercentage : Bool
  showValue : Bool
  completeColor : ColorSpec
  incompleteColor : ColorSpec

/-- The state of a progress bar: its options, the variable `current`, and the
terminal. -/
structure ProgressBar where
  options : ProgressBarOptions
  current : Num
  term : Terminal

/-- The call `ProgressBar(options)`: `current` starts at 0. -/
def ProgressBar.create (options : ProgressBarOptions) (term : Terminal) : ProgressBar :=
  ProgressBar.mk options (.fin 0) term

/-- The constant `percentage` of `render`. -/
def ProgressBar.percentage (p : ProgressBar) : Num :=
  Math.min (.fin 100) (Math.max (.fin 0) (Num.mul (Num.div p.current p.options.total) (.fin 100)))

/-- The constant `filled` of `render`. -/
def ProgressBar.filled (p : ProgressBar) : Num :=
  Math.round (Num.div (Num.mul p.options.width p.percentage) (.fin 100))

/-- The constant `empty` of `render`. -/
def ProgressBar.empty (p : ProgressBar) : Num :=
  Num.sub p.options.width p.filled

/-- The string `output` that `render` writes; no result when `repeat` or `Text`
throws. The digits of numbers that are not integers are those of `fmt`. -/
def ProgressBar.output (fmt : ℚ → Str) (p : ProgressBar) : Option Str :=
  (repeatNum p.options.complete p.filled).bind fun completeText =>
  (textWithColor completeText p.options.completeColor).bind fun completeBar =>
  (repeatNum p.options.incomplete p.empty).bind fun incompleteText =>
  (textWithColor incompleteText p.options.incompleteColor).bind fun incompleteBar =>
  let output := js "[" ++ completeBar ++ incompleteBar ++ js "]"
  let output :=
    if p.options.showPercentage then
      output ++ js " " ++ (Math.round p.percentage).toStr fmt ++ js "%"
    else output
  let output :=
    if p.options.showValue then
      output ++ js " (" ++ p.current.toStr fmt ++ js "/" ++ p.options.total.toStr fmt ++ js ")"
    else output
  some output

/-- The function `render` of `ProgressBar`. -/
def ProgressBar.render (fmt : ℚ → Str) (p : ProgressBar) : Option ProgressBar :=
  (p.output fmt).bind fun output =>
  some (ProgressBar.mk p.options p.current (write (clearLine p.term) output))

/-- The method `start()`. -/
def ProgressBar.start (fmt : ℚ → Str) (p : ProgressBar) : Option ProgressBar :=
  ProgressBar.render fmt (ProgressBar.mk p.options p.current (hideCursor p.term))

/-- The method `update(value)`. -/
def ProgressBar.update (fmt : ℚ → Str) (p : ProgressBar) (value : Num) : Option ProgressBar :=
  ProgressBar.render fmt
    (ProgressBar.mk p.options (Math.min p.options.total (Math.max (.fin 0) value)) p.term)

/-- The method `increment(amount)`; `none` is a missing argument, which counts
as 1. -/
def ProgressBar.increment (fmt : ℚ → Str) (p : ProgressBar) (amount : Option Num) :
    Option ProgressBar :=
  ProgressBar.update fmt p (Num.add p.current (amount.getD (.fin 1)))

/-- The method `complete()`. -/
def ProgressBar.complete (fmt : ℚ → Str) (p : ProgressBar) : Option ProgressBar :=
  (ProgressBar.render fmt (ProgressBar.mk p.options p.options.total p.term)).bind fun r =>
  some (ProgressBar.mk r.options r.current (showCursor (write r.term [NEWLINE])))

/-- The method `stop()`. -/
def ProgressBar.stop (p : ProgressBar) : ProgressBar :=
  ProgressBar.mk p.options p.current (showCursor (write p.term [NEWLINE]))

/-- The method `getCurrent()`. -/
def ProgressBar.getCurrent (p : ProgressBar) : Num := p.current

/-- The method `getTotal()`. -/
def ProgressBar.getTotal (p : ProgressBar) : Num := p.options.total

/-- The method `getPercentage()`. -/
def ProgressBar.getPercentage (p : ProgressBar) : Num :=
  Num.mul (Num.div p.current p.options.total) (.fin 100)

/-! ## Vocabulary of the claims -/

/-- Every code unit of `ps` is a digit or `;`. -/
def IsParams (ps : Str) : Prop := ∀ x ∈ ps, isParam x = true

/-- The well-formed code `ESC [ ps m`. -/
def code (ps : Str) : Str := ESC :: LBRACKET :: ps ++ [LOWER_M]

/-- The string `p0 c1 p1 ... cn pn`, given `p0` and the pairs `(params of ci, pi)`. -/
def styled (p0 : Str) (segs : List (Str × Str)) : Str :=
  p0 ++ segs.flatMap (fun seg => code seg.1 ++ seg.2)

/-- Some position of the string starts a match of the pattern of `stripAnsi`. -/
def hasCode : Str → Bool
  | [] => false
  | c :: cs => (matchAt (c :: cs)).isSome || hasCode cs

/-- Every `ESC` of the string starts a match of the pattern of `stripAnsi`. -/
def escapesMatched : Str → Bool
  | [] => true
  | c :: cs => (c != ESC || (matchAt (c :: cs)).isSome) && escapesMatched cs

/-- The segments of a string between the code units that satisfy `p`. -/
def splitWhere (p : Nat → Bool) : Str → List Str
  | [] => [[]]
  | c :: cs =>
    if p c then [] :: splitWhere p cs
    else
      match splitWhere p cs with
      | w :: ws => (c :: w) :: ws
      | [] => [[c]]

/-- A space or a newline. -/
def isWordSep (c : Nat) : Bool := c == SPACE || c == NEWLINE

/-- The non-empty words of a text: its maximal runs of code units other than
space and newline, in order. -/
def wordsOf (text : Str) : List Str :=
  (splitWhere isWordSep text).filter (fun w => w ≠ [])

/-- The first word of a line: what precedes its first space. -/
def firstWord (line : Str) : Str := (split SPACE line).headD []

/-- The lines that `wrapLine` ends with when its loop is in the state
`currentLine` with an empty `lines` and still has `words` to go through. -/
def linesFrom (width : Int) (currentLine : Str) (words : List Str) : List Str :=
  let st := wrapLoop width [] currentLine words
  if st.2 ≠ [] then st.1 ++ [st.2] else st.1

/-- The line the loop of `wrapLine` tests when it reaches `word`. -/
def testLineOf (currentLine word : Str) : Str :=
  if currentLine ≠ [] then currentLine ++ [SPACE] ++ word else word

/-- A code unit that can neither start nor continue a match of the pattern. -/
def isBarrier (c : Nat) : Bool :=
  c != ESC && c != LBRACKET && c != LOWER_M && !isParam c

instance : DecidablePred IsParams := fun ps => List.decidableBAll _ ps

/-- Value of a hexadecimal digit, 0 for any other code unit. -/
def hexVal (c : Nat) : Nat := (hexDigitValue c).getD 0

/-- Base-16 value of the two digits of `h` at positions `i` and `i + 1`. -/
def pairValue (h : Str) (i : Nat) : Nat := 16 * hexVal (h.getD i 0) + hexVal (h.getD (i + 1) 0)

/-- A string of exactly six hexadecimal digits. -/
def isSixHex (h : Str) : Bool := h.length == 6 && h.all (fun c => (hexDigitValue c).isSome)

/-- The code units that are hexadecimal digits. -/
def hexDigitList : List Nat :=
  [48, 49, 50, 51, 52, 53, 54, 55, 56, 57, 65, 66, 67, 68, 69, 70, 97, 98, 99, 100, 101, 102]

/-- The attribute codes of the attributes that are set, in the order bold, dim,
italic, underline, strikethrough, inverse, blink. -/
def attrCodes (bold dim italic underline strikethrough inverse blink : Bool) : Str :=
  (if bold then ANSI.bold else []) ++ (if dim then ANSI.dim else []) ++
  (if italic then ANSI.italic else []) ++ (if underline then ANSI.underline else []) ++
  (if strikethrough then ANSI.strikethrough else []) ++ (if inverse then ANSI.inverse else []) ++
  (if blink then ANSI.blink else [])

/-- A colour that is absent, a name of the palette `table`, or `#` followed by
six hexadecimal digits. -/
def isStyleColor (table : List (Str × Str)) : ColorSpec → Bool
  | .absent => true
  | .str s => (table.lookup s).isSome || (s.head? == some 35 && isSixHex s.tail)
  | .obj _ _ _ => false

/-- The colour value for an optional palette entry `(name, code)`: the name, or
no colour. -/
def colorOfEntry : Option (Str × Str) → ColorSpec
  | none => .absent
  | some e => .str e.1

/-- The code of an optional palette entry `(name, code)`, or nothing. -/
def codeOfEntry : Option (Str × Str) → Str
  | none => []
  | some e => e.2

/-- A prefix that `stripAnsi` removes whatever follows it. -/
def Invisible (s : Str) : Prop := ∀ r, stripAnsi (s ++ r) = stripAnsi r

/-- The widths of the cells at index `i` of the given rows, for the rows that
have such a cell. -/
def widthsAt (rows : List (List Str)) (i : Nat) : List Int :=
  (rows.filterMap (fun r => r.get? i)).map (fun c => (visibleLength c : Int))

/-- The maximum of `visibleLength` over the cells at index `i` of the given rows,
0 if there is none. -/
def columnMax (rows : List (List Str)) (i : Nat) : Int := (widthsAt rows i).foldl max 0

/-- The length of the longest row, 0 if there is no row. -/
def longestRow (rows : List (List Str)) : Nat := (rows.map (fun r => r.length)).foldl max 0

/-- The header row of `Table`: the padded and styled header cells between
vertical glyphs. -/
def Table.headerRow (o : TableOptions) (border : Option TableBorder) (widths : List Int) :
    Option Str :=
  (optMapIdx (fun header i =>
      (Table.cell o widths header i).bind fun paddedContent =>
      if o.headerColor.truthy then
        Text.build (TextOptions.mk paddedContent o.headerColor .absent true false false
          false false false false)
      else some paddedContent) 0 o.headers).bind fun headerCells =>
  Table.row border o.borderColor headerCells

/-- The rendering of one data row of `Table`: its padded cells between vertical
glyphs. -/
def Table.dataRow (o : TableOptions) (border : Option TableBorder) (widths : List Int)
    (row : List Str) : Option Str :=
  (optMapIdx (Table.cell o widths) 0 row).bind fun cells =>
  Table.row border o.borderColor cells

/-- The separator line of `Table`, between header and rows and between rows. -/
def Table.separator (o : TableOptions) (border : Option TableBorder) (widths : List Int) :
    Option Str :=
  Table.rule border o.borderColor o.padding widths (fun b => b.leftJoin)
    (fun b => b.middleJoin) (fun b => b.rightJoin)

/-- The top border line of `Table`. -/
def Table.topLine (o : TableOptions) (border : Option TableBorder) (widths : List Int) :
    Option Str :=
  Table.rule border o.borderColor o.padding widths (fun b => b.topLeft) (fun b => b.topJoin)
    (fun b => b.topRight)

/-- The bottom border line of `Table`. -/
def Table.bottomLine (o : TableOptions) (border : Option TableBorder) (widths : List Int) :
    Option Str :=
  Table.rule border o.borderColor o.padding widths (fun b => b.bottomLeft)
    (fun b => b.bottomJoin) (fun b => b.bottomRight)

/-- The border glyphs that `Table` draws with. -/
def Table.border (o : TableOptions) : Option TableBorder :=
  borderFor TABLE_BORDERS TABLE_BORDERS.single o.borderStyle

/-- The header of `Table` is shown: `showHeaders && headers.length > 0`. -/
def Table.headerShown (o : TableOptions) : Bool := o.showHeaders && decide (o.headers.length > 0)

/-- The colour value is an object `{r, g, b}`. -/
def ColorSpec.isObject : ColorSpec → Bool
  | .obj _ _ _ => true
  | _ => false

/-- The spinner after `k` calls of `renderFrame`. -/
def Spinner.ticks : Nat → Spinner → Option Spinner
  | 0, s => some s
  | k + 1, s => (Spinner.ticks k s).bind Spinner.renderFrame

/-- A terminal with nothing written yet: a TTY that is not in raw mode. -/
def freshTerminal : Terminal := Terminal.mk true false []

/-- The call `Select({ choices })` with every other option at its default. -/
def selectOf (choices : List Choice) (t : Terminal) : Except Str SelectMenu × Terminal :=
  Select.open (SelectOptions.mk (js "Select an option:") choices none (js "❯") 1
    (.str (js "cyan")) (.str (js "cyan")) .absent) t

/-- The comparison `x <= y` of two numbers: false when either is `NaN`. -/
def Num.le : Num → Num → Bool
  | .nan, _ => false
  | _, .nan => false
  | .inf true, _ => true
  | _, .inf false => true
  | .inf false, _ => false
  | _, .inf true => false
  | .fin p, .fin q => decide (p ≤ q)

/-- The number of complete glyphs that the specification gives for the bar:
`round(width * clamp(current/total, 0, 1))` in exact arithmetic, a half-way value
rounded up as `Math.round` does. -/
def specFilled (current total : ℚ) (width : ℤ) : ℤ :=
  ⌊(width : ℚ) * Max.max 0 (Min.min 1 (current / total)) + 1 / 2⌋

/-- The same expression evaluated in double arithmetic. -/
def specFilledDouble (current total width : Num) : Num :=
  Math.round (Num.mul width (Math.min (.fin 1) (Math.max (.fin 0) (Num.div current total))))

/-- The options `{ total, width }` of a progress bar, every other option at its
default. -/
def progressOptions (total width : Num) : ProgressBarOptions :=
  ProgressBarOptions.mk total width (js "█") (js "░") true false (.str (js "green"))
    (.str (js "gray"))

/-- What `render` puts behind the closing bracket of the bar. -/
def ProgressBar.suffix (fmt : ℚ → Str) (p : ProgressBar) : Str :=
  (if p.options.showPercentage then js " " ++ (Math.round p.percentage).toStr fmt ++ js "%"
    else []) ++
  (if p.options.showValue then
    js " (" ++ p.current.toStr fmt ++ js "/" ++ p.options.total.toStr fmt ++ js ")"
    else [])

/-- One call of a method of a progress bar that moves `current`. -/
inductive ProgressCall where
  | update (value : Num)
  | increment (amount : Option Num)
  | complete

/-- The argument of the call is not `NaN`. -/
def ProgressCall.argIsNumber : ProgressCall → Bool
  | .update value => decide (value ≠ .nan)
  | .increment (some amount) => decide (amount ≠ .nan)
  | .increment none => true
  | .complete => true

/-- The bar after one call; no result when the call throws. -/
def ProgressBar.call (fmt : ℚ → Str) (p : ProgressBar) : ProgressCall → Option ProgressBar
  | .update value => p.update fmt value
  | .increment amount => p.increment fmt amount
  | .complete => p.complete fmt

/-- The bar after a sequence of calls; no result when one of them throws. -/
def ProgressBar.run (fmt : ℚ → Str) : ProgressBar → List ProgressCall → Option ProgressBar
  | p, [] => some p
  | p, c :: cs => (p.call fmt c).bind fun r => ProgressBar.run fmt r cs

/-- The options suit `render`, and `current` is a number between 0 and `total`. -/
def ProgressBar.Ready (p : ProgressBar) (t : ℚ) (w : ℤ) : Prop :=
  p.options.total = .fin t ∧ 0 ≤ t ∧ p.options.width = .fin (w : ℚ) ∧ 0 ≤ w ∧ w < 2 ^ 46 ∧
  p.options.completeColor.isObject = false ∧ p.options.incompleteColor.isObject = false ∧
  ∃ c : ℚ, p.current = .fin c ∧ 0 ≤ c ∧ c ≤ t

/-- The call `Box({ content, padding: 0, borderStyle })`, every other option at
its default. -/
def boxWithStyle (content borderStyle : Str) : Option Str :=
  Box.build (BoxOptions.mk content [] (js "left") none none (.uniform 0) borderStyle .absent
    (js "left") (js "top"))

/-- The call `Table({ headers, rows, borderStyle })`, every other option at its
default. -/
def tableWithStyle (headers : List Str) (rows : List (List Str)) (borderStyle : Str) :
    Option Str :=
  Table.build (TableOptions.mk headers rows none 1 borderStyle (.str (js "cyan")) .absent
    (.single (js "left")) true)

/-- The box options with another border style. -/
def BoxOptions.withStyle (o : BoxOptions) (borderStyle : Str) : BoxOptions :=
  BoxOptions.mk o.content o.title o.titleAlign o.width o.height o.padding borderStyle
    o.borderColor o.align o.valign

/-- The table options with another border style. -/
def TableOptions.withStyle (o : TableOptions) (borderStyle : Str) : TableOptions :=
  TableOptions.mk o.headers o.rows o.columnWidths o.padding borderStyle o.headerColor
    o.borderColor o.align o.showHeaders


/-- The corner, horizontal and vertical glyphs that `Box` draws with for a border
style: top-left, top-right, bottom-left, bottom-right, horizontal, vertical. -/
def borderGlyphs (table : List (Str × Border)) (style : Str) : Option (List Str) :=
  (borderFor table BORDERS.single style).map fun b =>
    [b.topLeft, b.topRight, b.bottomLeft, b.bottomRight, b.horizontal, b.vertical]

/-- The corner, horizontal and vertical glyphs that `Table` draws with for a
border style, in the same order. -/
def tableBorderGlyphs (table : List (Str × TableBorder)) (style : Str) : Option (List Str) :=
  (borderFor table TABLE_BORDERS.single style).map fun b =>
    [b.topLeft, b.topRight, b.bottomLeft, b.bottomRight, b.horizontal, b.vertical]

/-- The alignment that the claim gives the cells of column `i`: the shared
alignment, or the entry `i` of the array, or `left` when the array has no such
entry. -/
def specCellAlign (align : AlignSpec) (i : Nat) : Str :=
  match align with
  | .single a => a
  | .perColumn as =>
    match as.get? i with
    | some a => a
    | none => js "left"

/-- A cell padded to the width of its column with the alignment of the claim,
between `padding` spaces on either side. -/
def specCell (o : TableOptions) (widths : List Int) (cell : Str) (i : Nat) : Option Str :=
  (jsRepeat [SPACE] o.padding).bind fun l =>
  (jsRepeat [SPACE] o.padding).bind fun r =>
  some (l ++ pad cell (widths.getD i 0) (specCellAlign o.align i) (js " ") ++ r)

/-- The inner width of a box:
`width || Math.max(getMaxWidth(content), visibleLength(title) + 2)`. -/
def Box.innerWidth (o : BoxOptions) : Int :=
  match o.width with
  | some w =>
    if w ≠ 0 then w else max (getMaxWidth o.content) ((visibleLength o.title : Int) + 2)
  | none => max (getMaxWidth o.content) ((visibleLength o.title : Int) + 2)

/-- One content line of a box between its side padding, as `build` pushes it. -/
def Box.contentLine (o : BoxOptions) (line : Str) : Option Str :=
  (jsRepeat [SPACE] o.padding.left).bind fun leftPad =>
  (jsRepeat [SPACE] o.padding.right).bind fun rightPad =>
  some (leftPad
    ++ pad line (Box.innerWidth o - o.padding.left - o.padding.right) o.align (js " ")
    ++ rightPad)

/-- The array `paddedLines` of `build`: the empty lines of the top padding, the
content lines, the empty lines of the bottom padding. -/
def Box.paddedLines (o : BoxOptions) : Option (List Str) :=
  (optMap (Box.contentLine o) (split NEWLINE o.content)).bind fun contentLines =>
  some (List.replicate o.padding.top.toNat [] ++ contentLines
    ++ List.replicate o.padding.bottom.toNat [])

/-- The array `finalLines` of `build`. -/
def Box.finalLines (o : BoxOptions) (paddedLines : List Str) : List Str :=
  match o.height with
  | some h => if h ≠ 0 then fitToHeight paddedLines (h - 2) o.valign else paddedLines
  | none => paddedLines

/-- One line of a box between the vertical glyphs, as `build` pushes it. -/
def Box.frame (border : Border) (borderColor : ColorSpec) (boxWidth : Int) (line : Str) :
    Option Str :=
  (colorize borderColor border.vertical).bind fun l =>
  (colorize borderColor border.vertical).bind fun r =>
  some (l ++ pad line boxWidth (js "left") (js " ") ++ r)

/-- The bottom border of a box. -/
def Box.bottomBorder (border : Border) (borderColor : ColorSpec) (boxWidth : Int) :
    Option Str :=
  (jsRepeat border.horizontal boxWidth).bind fun h =>
  colorize borderColor (border.bottomLeft ++ h ++ border.bottomRight)

/-- The array `result` of `build`, which is joined with newlines: the top border,
the framed lines, the bottom border. -/
def Box.lines (o : BoxOptions) : Option (List Str) :=
  (borderFor BORDERS BORDERS.single o.borderStyle).bind fun border =>
  (Box.paddedLines o).bind fun paddedLines =>
  (Box.topBorder border o.borderColor o.title o.titleAlign (Box.innerWidth o)).bind fun top =>
  (optMap (Box.frame border o.borderColor (Box.innerWidth o))
    (Box.finalLines o paddedLines)).bind fun rows =>
  (Box.bottomBorder border o.borderColor (Box.innerWidth o)).bind fun bottom =>
  some ([top] ++ rows ++ [bottom])

/-- The `n` lines between the borders that the claim gives a box whose padded
content is `lines`: with fewer than `n` lines, the `e` missing blank lines come
below (for `top`, and for any value other than `center` and `bottom`), above for
`bottom`, and `floor(e/2)` above with the rest below for `center`; otherwise the
first `n` lines are kept. -/
def specFit (lines : List Str) (n : Nat) (valign : Str) : List Str :=
  if lines.length < n then
    if valign = js "center" then
      List.replicate ((n - lines.length) / 2) [] ++ lines
        ++ List.replicate ((n - lines.length) - (n - lines.length) / 2) []
    else if valign = js "bottom" then
      List.replicate (n - lines.length) [] ++ lines
    else
      lines ++ List.replicate (n - lines.length) []
  else lines.take n

/-- A string that `stripAnsi` reduces to `g` wherever it stands: whatever
precedes and follows it is stripped on its own. -/
def Separating (sep g : Str) : Prop :=
  ∀ X Y, stripAnsi (X ++ sep ++ Y) = stripAnsi X ++ g ++ stripAnsi Y

/-- A border glyph as the tables have them: one code unit that is neither part
of an escape sequence nor a newline. -/
def isGlyph (g : Str) : Bool :=
  g.length == 1 && g.all (fun c => isBarrier c && c != NEWLINE)

/-- Every glyph of a border of `Box` is one plain code unit. -/
def Border.plain (b : Border) : Bool :=
  isGlyph b.topLeft && isGlyph b.topRight && isGlyph b.bottomLeft && isGlyph b.bottomRight &&
  isGlyph b.horizontal && isGlyph b.vertical

/-- Every glyph of a border of `Table` is one plain code unit. -/
def TableBorder.plain (b : TableBorder) : Bool :=
  isGlyph b.topLeft && isGlyph b.topRight && isGlyph b.topJoin && isGlyph b.bottomLeft &&
  isGlyph b.bottomRight && isGlyph b.bottomJoin && isGlyph b.leftJoin && isGlyph b.rightJoin &&
  isGlyph b.middleJoin && isGlyph b.horizontal && isGlyph b.vertical

/-- The sum of the visible widths of the strings of a list. -/
def visSum (cells : List Str) : Int := (cells.map (fun c => (visibleLength c : Int))).sum

/-! ## Facts about the matcher and the scanner -/

theorem isParam_ne_m {x : Nat} (h : isParam x = true) : x ≠ LOWER_M := by
  intro hx
  subst hx
  revert h
  decide

theorem dropWhile_params (ps r : Str) (h : IsParams ps) :
    (ps ++ LOWER_M :: r).dropWhile isParam = LOWER_M :: r := by
  induction ps with
  | nil => simp [List.dropWhile, isParam, LOWER_M]
  | cons x xs ih =>
    have hx : isParam x = true := h x (List.mem_cons_self _ _)
    have hxs : IsParams xs := fun y hy => h y (List.mem_cons_of_mem _ hy)
    simp [List.dropWhile, hx, ih hxs]

theorem takeWhile_params (ps r : Str) (h : IsParams ps) :
    (ps ++ LOWER_M :: r).takeWhile isParam = ps := by
  induction ps with
  | nil => simp [List.takeWhile, isParam, LOWER_M]
  | cons x xs ih =>
    have hx : isParam x = true := h x (List.mem_cons_self _ _)
    have hxs : IsParams xs := fun y hy => h y (List.mem_cons_of_mem _ hy)
    simp [List.takeWhile, hx, ih hxs]

/-- A well-formed code at the head is matched, in full. -/
theorem matchAt_code (ps r : Str) (h : IsParams ps) :
    matchAt (ESC :: LBRACKET :: (ps ++ LOWER_M :: r)) = some (ps.length + 3) := by
  simp [matchAt, dropWhile_params ps r h, takeWhile_params ps r h]

/-- A match at the head is a well-formed code. -/
theorem matchAt_some {s : Str} {n : Nat} (h : matchAt s = some n) :
    ∃ ps r, IsParams ps ∧ s = ESC :: LBRACKET :: (ps ++ LOWER_M :: r) ∧ n = ps.length + 3 := by
  match s, h with
  | a :: b :: rest, h =>
    simp only [matchAt] at h
    split at h
    · rename_i hab
      split at h
      · rename_i c tl hdw
        split at h
        · rename_i hc
          refine ⟨rest.takeWhile isParam, tl, ?_, ?_, ?_⟩
          · intro x hx
            exact (List.mem_takeWhile_imp hx)
          · have := List.takeWhile_append_dropWhile isParam rest
            rw [hdw, hc] at this
            rw [this, hab.1, hab.2]
          · simpa using h.symm
        · exact absurd h (by simp)
      · exact absurd h (by simp)
    · exact absurd h (by simp)

theorem matchAt_of_ne_esc {c : Nat} (cs : Str) (h : c ≠ ESC) : matchAt (c :: cs) = none := by
  cases cs with
  | nil => rfl
  | cons b rest => simp [matchAt, h]

theorem stripAnsi_nil : stripAnsi [] = [] := rfl

theorem replaceFrom_eq (k : Nat) (s : Str) : replaceFrom k s = stripAnsi (s.drop k) := by
  induction s generalizing k with
  | nil => simp [replaceFrom, stripAnsi]
  | cons c cs ih =>
    cases k with
    | zero => simp [stripAnsi]
    | succ k => simp [replaceFrom, ih]

/-- Where the pattern does not match, the code unit is kept. -/
theorem stripAnsi_keep {c : Nat} {cs : Str} (h : matchAt (c :: cs) = none) :
    stripAnsi (c :: cs) = c :: stripAnsi cs := by
  simp [stripAnsi, replaceFrom, h]

/-- A well-formed code at the head is removed. -/
theorem stripAnsi_code (ps r : Str) (h : IsParams ps) :
    stripAnsi (ESC :: LBRACKET :: (ps ++ LOWER_M :: r)) = stripAnsi r := by
  have hm := matchAt_code ps r h
  have : stripAnsi (ESC :: LBRACKET :: (ps ++ LOWER_M :: r))
      = replaceFrom (ps.length + 3 - 1) (LBRACKET :: (ps ++ LOWER_M :: r)) := by
    simp [stripAnsi, replaceFrom, hm]
  rw [this, replaceFrom_eq]
  congr 1
  have : ps.length + 3 - 1 = (ps.length + 1) + 1 := by omega
  rw [this, List.drop_succ_cons]
  have h2 : ps.length + 1 = (ps ++ [LOWER_M]).length := by simp
  have h3 : ps ++ LOWER_M :: r = (ps ++ [LOWER_M]) ++ r := by simp
  rw [h3, h2, List.drop_left]

/-- Induction along the scan of `stripAnsi`: either a code is removed at the
head, or the head is kept. -/
theorem stripAnsi_induction (P : Str → Prop) (nil : P [])
    (onCode : ∀ ps r, IsParams ps → P r → P (ESC :: LBRACKET :: (ps ++ LOWER_M :: r)))
    (onKeep : ∀ c cs, matchAt (c :: cs) = none → P cs → P (c :: cs)) :
    ∀ s, P s := by
  have key : ∀ n (s : Str), s.length ≤ n → P s := by
    intro n
    induction n with
    | zero =>
      intro s hs
      cases s with
      | nil => exact nil
      | cons c cs => simp at hs
    | succ n ih =>
      intro s hs
      cases s with
      | nil => exact nil
      | cons c cs =>
        cases hm : matchAt (c :: cs) with
        | none => exact onKeep c cs hm (ih cs (by simp at hs; omega))
        | some k =>
          obtain ⟨ps, r, hps, hs2, _⟩ := matchAt_some hm
          rw [hs2]
          refine onCode ps r hps (ih r ?_)
          rw [hs2] at hs
          simp at hs
          omega
  exact fun s => key s.length s (Nat.le_refl _)

theorem stripAnsi_length_le (s : Str) : (stripAnsi s).length ≤ s.length := by
  induction s using stripAnsi_induction with
  | nil => simp [stripAnsi_nil]
  | onCode ps r hps ih => rw [stripAnsi_code ps r hps]; simp; omega
  | onKeep c cs hm ih => rw [stripAnsi_keep hm]; simp; omega

/-- A prefix without `ESC` is copied. -/
theorem stripAnsi_plain_append (p r : Str) (h : ESC ∉ p) :
    stripAnsi (p ++ r) = p ++ stripAnsi r := by
  induction p with
  | nil => rfl
  | cons c cs ih =>
    have hc : c ≠ ESC := fun e => h (e ▸ List.mem_cons_self _ _)
    have hcs : ESC ∉ cs := fun e => h (List.mem_cons_of_mem _ e)
    rw [List.cons_append, stripAnsi_keep (matchAt_of_ne_esc _ hc), ih hcs, List.cons_append]

theorem stripAnsi_plain (p : Str) (h : ESC ∉ p) : stripAnsi p = p := by
  have := stripAnsi_plain_append p [] h
  simpa [stripAnsi_nil] using this

theorem code_append (ps r : Str) : code ps ++ r = ESC :: LBRACKET :: (ps ++ LOWER_M :: r) := by
  simp [code]

theorem matchAt_append_barrier {x c : Nat} {xs : Str} (b : Str) (hc : isBarrier c = true)
    (h : matchAt (x :: xs) = none) : matchAt (x :: (xs ++ c :: b)) = none := by
  cases hm : matchAt (x :: (xs ++ c :: b)) with
  | none => rfl
  | some n =>
    exfalso
    obtain ⟨ps, r, hps, hs, _⟩ := matchAt_some hm
    simp only [List.cons.injEq] at hs
    obtain ⟨hx, hxs⟩ := hs
    have e : xs ++ c :: b = (LBRACKET :: (ps ++ [LOWER_M])) ++ r := by simp [hxs]
    simp only [isBarrier, Bool.and_eq_true, bne_iff_ne, ne_eq, Bool.not_eq_true'] at hc
    rcases List.append_eq_append_iff.1 e with ⟨a, h1, h2⟩ | ⟨a, h1, h2⟩
    · cases a with
      | nil =>
        rw [List.append_nil] at h1
        have := matchAt_code ps [] hps
        rw [hx, ← h1] at h
        simp [this] at h
      | cons d a =>
        simp only [List.cons_append, List.cons.injEq] at h2
        have hmem : c ∈ LBRACKET :: (ps ++ [LOWER_M]) := by
          rw [h1, h2.1]; simp
        simp only [List.mem_cons, List.mem_append, List.mem_singleton, List.not_mem_nil,
          or_false] at hmem
        rcases hmem with h3 | h3 | h3
        · exact hc.1.1.2 h3
        · have := hps c h3
          rw [hc.2] at this
          exact absurd this (by simp)
        · exact hc.1.2 h3
    · have := matchAt_code ps a hps
      rw [hx, h1] at h
      simp at h
      simp [this] at h

/-- A barrier code unit cuts the string in two independently stripped halves. -/
theorem stripAnsi_append_barrier (a b : Str) {c : Nat} (hc : isBarrier c = true) :
    stripAnsi (a ++ c :: b) = stripAnsi a ++ c :: stripAnsi b := by
  have hne : c ≠ ESC := by
    simp only [isBarrier, Bool.and_eq_true, bne_iff_ne, ne_eq] at hc
    exact hc.1.1.1
  induction a using stripAnsi_induction with
  | nil => simp [stripAnsi_nil, stripAnsi_keep (matchAt_of_ne_esc b hne)]
  | onCode ps r hps ih =>
    have : ESC :: LBRACKET :: (ps ++ LOWER_M :: r) ++ c :: b
        = ESC :: LBRACKET :: (ps ++ LOWER_M :: (r ++ c :: b)) := by simp
    rw [this, stripAnsi_code _ _ hps, stripAnsi_code _ _ hps, ih]
  | onKeep x xs hm ih =>
    rw [List.cons_append, stripAnsi_keep (matchAt_append_barrier b hc hm), stripAnsi_keep hm, ih,
      List.cons_append]

theorem visibleLength_append_barrier (a b : Str) {c : Nat} (hc : isBarrier c = true) :
    visibleLength (a ++ c :: b) = visibleLength a + 1 + visibleLength b := by
  simp [visibleLength, stripAnsi_append_barrier a b hc]
  omega

theorem length_strRepeat (c : Nat) (k : Nat) : (strRepeat [c] k).length = k := by
  induction k with
  | zero => rfl
  | succ k ih => simp [strRepeat, ih]

theorem esc_not_mem_spaces (k : Nat) : ESC ∉ strRepeat [SPACE] k := by
  induction k with
  | zero => simp [strRepeat]
  | succ k ih =>
    intro h
    have e : strRepeat [SPACE] (k + 1) = SPACE :: strRepeat [SPACE] k := rfl
    rw [e] at h
    rcases List.mem_cons.1 h with h1 | h1
    · exact absurd h1 (by decide)
    · exact ih h1

theorem stripAnsi_strRepeat_space (k : Nat) :
    stripAnsi (strRepeat [SPACE] k) = strRepeat [SPACE] k :=
  stripAnsi_plain _ (esc_not_mem_spaces k)

theorem stripAnsi_spaces_append (k : Nat) (s : Str) :
    stripAnsi (strRepeat [SPACE] k ++ s) = strRepeat [SPACE] k ++ stripAnsi s :=
  stripAnsi_plain_append _ _ (esc_not_mem_spaces k)

theorem stripAnsi_append_spaces (s : Str) (k : Nat) :
    stripAnsi (s ++ strRepeat [SPACE] k) = stripAnsi s ++ strRepeat [SPACE] k := by
  cases k with
  | zero => simp [strRepeat, stripAnsi_nil]
  | succ k =>
    have : strRepeat [SPACE] (k + 1) = SPACE :: strRepeat [SPACE] k := rfl
    rw [this, stripAnsi_append_barrier s _ (by decide), stripAnsi_strRepeat_space]

theorem js_space : js " " = [SPACE] := by decide

/-- What `escapesMatched` decides: each `ESC` is followed by `[`, parameters and `m`. -/
theorem escapesMatched_sound {s : Str} (h : escapesMatched s = true) :
    ∀ pre suf, s = pre ++ ESC :: suf →
      ∃ ps r, IsParams ps ∧ suf = LBRACKET :: (ps ++ LOWER_M :: r) := by
  induction s with
  | nil => intro pre suf e; simp at e
  | cons c cs ih =>
    intro pre suf e
    simp only [escapesMatched, Bool.and_eq_true, Bool.or_eq_true] at h
    cases pre with
    | nil =>
      simp only [List.nil_append, List.cons.injEq] at e
      obtain ⟨hc, hcs⟩ := e
      subst hc
      subst hcs
      rcases h.1 with h1 | h1
      · simp at h1
      · obtain ⟨n, hn⟩ := Option.isSome_iff_exists.1 h1
        obtain ⟨ps, r, hps, hs, _⟩ := matchAt_some hn
        exact ⟨ps, r, hps, by simpa using hs⟩
    | cons d pre =>
      simp only [List.cons_append, List.cons.injEq] at e
      exact ih h.2 pre suf e.2

/-- What `hasCode` decides: no substring is a well-formed code. -/
theorem hasCode_sound {s : Str} (h : hasCode s = false) :
    ∀ pre ps suf, IsParams ps → s ≠ pre ++ code ps ++ suf := by
  induction s with
  | nil => intro pre ps suf _ e; simp [code] at e
  | cons c cs ih =>
    intro pre ps suf hps e
    simp only [hasCode, Bool.or_eq_false_iff] at h
    cases pre with
    | nil =>
      rw [List.nil_append, code_append] at e
      have := matchAt_code ps suf hps
      rw [← e] at this
      rw [this] at h
      simp at h
    | cons d pre =>
      simp only [List.cons_append, List.cons.injEq] at e
      exact ih h.2 pre ps suf hps (by simpa using e.2)

theorem escapes_matched_strip (s : Str) :
    (∀ pre suf, s = pre ++ ESC :: suf →
      ∃ ps r, IsParams ps ∧ suf = LBRACKET :: (ps ++ LOWER_M :: r)) →
    ESC ∉ stripAnsi s := by
  induction s using stripAnsi_induction with
  | nil => intro _; simp [stripAnsi_nil]
  | onCode ps r hps ih =>
    intro h
    rw [stripAnsi_code ps r hps]
    apply ih
    intro pre suf e
    exact h (ESC :: LBRACKET :: (ps ++ LOWER_M :: pre)) suf (by simp [e])
  | onKeep c cs hm ih =>
    intro h
    rw [stripAnsi_keep hm]
    have hc : c ≠ ESC := by
      intro e
      obtain ⟨ps, r, hps, hcs⟩ := h [] cs (by simp [e])
      rw [e, hcs, matchAt_code ps r hps] at hm
      simp at hm
    have hcs : ESC ∉ stripAnsi cs := ih (fun pre suf e => h (c :: pre) suf (by simp [e]))
    intro hmem
    rcases List.mem_cons.1 hmem with h1 | h1
    · exact hc h1.symm
    · exact hcs h1

theorem stripAnsi_segs (segs : List (Str × Str))
    (hsegs : ∀ seg ∈ segs, IsParams seg.1 ∧ ESC ∉ seg.2) :
    stripAnsi (segs.flatMap (fun seg => code seg.1 ++ seg.2))
      = segs.flatMap (fun seg => seg.2) := by
  induction segs with
  | nil => rfl
  | cons seg rest ih =>
    have h1 := hsegs seg (List.mem_cons_self _ _)
    have h2 : ∀ x ∈ rest, IsParams x.1 ∧ ESC ∉ x.2 :=
      fun x hx => hsegs x (List.mem_cons_of_mem _ hx)
    simp only [List.flatMap_cons, List.append_assoc]
    rw [code_append, stripAnsi_code _ _ h1.1, stripAnsi_plain_append _ _ h1.2, ih h2]

/-! ## Facts about `split` and `join` -/

theorem split_eq_splitWhere (sep : Nat) (s : Str) :
    split sep s = splitWhere (fun c => c == sep) s := by
  induction s with
  | nil => rfl
  | cons c cs ih =>
    by_cases h : c = sep
    · simp [split, splitWhere, h, ih]
    · simp [split, splitWhere, h, ih]

theorem splitWhere_cons_exists (p : Nat → Bool) (s : Str) :
    ∃ w ws, splitWhere p s = w :: ws := by
  cases s with
  | nil => exact ⟨[], [], rfl⟩
  | cons c cs =>
    by_cases h : p c = true
    · exact ⟨[], splitWhere p cs, by simp [splitWhere, h]⟩
    · cases hs : splitWhere p cs with
      | nil => exact ⟨[c], [], by simp [splitWhere, h, hs]⟩
      | cons w ws => exact ⟨c :: w, ws, by simp [splitWhere, h, hs]⟩

theorem splitWhere_sep_cons {p : Nat → Bool} {c : Nat} (cs : Str) (h : p c = true) :
    splitWhere p (c :: cs) = [] :: splitWhere p cs := by
  simp [splitWhere, h]

theorem splitWhere_append_sep {p : Nat → Bool} (a b : Str) {c : Nat} (h : p c = true) :
    splitWhere p (a ++ c :: b) = splitWhere p a ++ splitWhere p b := by
  induction a with
  | nil => simp [splitWhere, h]
  | cons x xs ih =>
    by_cases hx : p x = true
    · simp [splitWhere, hx, ih]
    · obtain ⟨w, ws, hw⟩ := splitWhere_cons_exists p xs
      simp [splitWhere, hx, ih, hw]

theorem splitWhere_no_sep {p : Nat → Bool} (s : Str) (h : ∀ x ∈ s, p x = false) :
    splitWhere p s = [s] := by
  induction s with
  | nil => rfl
  | cons c cs ih =>
    have hc : p c = false := h c (List.mem_cons_self _ _)
    have hcs := ih (fun x hx => h x (List.mem_cons_of_mem _ hx))
    simp [splitWhere, hc, hcs]

theorem splitWhere_mem {p : Nat → Bool} {s w : Str} (hw : w ∈ splitWhere p s) :
    ∀ x ∈ w, p x = false ∧ x ∈ s := by
  induction s generalizing w with
  | nil =>
    simp [splitWhere] at hw
    subst hw
    intro x hx
    simp at hx
  | cons c cs ih =>
    by_cases hc : p c = true
    · rw [splitWhere_sep_cons cs hc] at hw
      rcases List.mem_cons.1 hw with h1 | h1
      · subst h1
        intro x hx
        simp at hx
      · intro x hx
        exact ⟨(ih h1 x hx).1, List.mem_cons_of_mem _ (ih h1 x hx).2⟩
    · obtain ⟨v, vs, hv⟩ := splitWhere_cons_exists p cs
      have e : splitWhere p (c :: cs) = (c :: v) :: vs := by simp [splitWhere, hc, hv]
      rw [e] at hw
      rcases List.mem_cons.1 hw with h1 | h1
      · subst h1
        intro x hx
        rcases List.mem_cons.1 hx with h2 | h2
        · subst h2
          exact ⟨by simpa using hc, List.mem_cons_self _ _⟩
        · have := ih (w := v) (by rw [hv]; exact List.mem_cons_self _ _) x h2
          exact ⟨this.1, List.mem_cons_of_mem _ this.2⟩
      · intro x hx
        have := ih (w := w) (by rw [hv]; exact List.mem_cons_of_mem _ h1) x hx
        exact ⟨this.1, List.mem_cons_of_mem _ this.2⟩

theorem split_append_sep (sep : Nat) (a b : Str) :
    split sep (a ++ sep :: b) = split sep a ++ split sep b := by
  simp only [split_eq_splitWhere]
  exact splitWhere_append_sep a b (by simp)

theorem split_no_sep {sep : Nat} (s : Str) (h : sep ∉ s) : split sep s = [s] := by
  rw [split_eq_splitWhere]
  apply splitWhere_no_sep
  intro x hx
  have : x ≠ sep := fun e => h (e ▸ hx)
  simpa using this

theorem split_mem {sep : Nat} {s w : Str} (hw : w ∈ split sep s) :
    sep ∉ w ∧ ∀ x ∈ w, x ∈ s := by
  rw [split_eq_splitWhere] at hw
  have := splitWhere_mem hw
  refine ⟨fun hmem => ?_, fun x hx => (this x hx).2⟩
  have := (this sep hmem).1
  simp at this

theorem split_ne_nil (sep : Nat) (s : Str) : split sep s ≠ [] := by
  rw [split_eq_splitWhere]
  obtain ⟨w, ws, h⟩ := splitWhere_cons_exists (fun c => c == sep) s
  simp [h]

theorem join_cons_cons (sep x y : Str) (rest : List Str) :
    join sep (x :: y :: rest) = x ++ sep ++ join sep (y :: rest) := rfl

/-- Splitting a joined list splits each of its items. -/
theorem split_join (sep : Nat) (xs : List Str) (h : xs ≠ []) :
    split sep (join [sep] xs) = xs.flatMap (split sep) := by
  induction xs with
  | nil => exact absurd rfl h
  | cons x rest ih =>
    cases rest with
    | nil => simp [join]
    | cons y rest =>
      rw [join_cons_cons, List.append_assoc, List.singleton_append, split_append_sep,
        ih (by simp)]
      simp [List.flatMap_cons]

/-- Joining the segments of a split gives the string back. -/
theorem join_split (sep : Nat) (s : Str) : join [sep] (split sep s) = s := by
  induction s with
  | nil => rfl
  | cons c cs ih =>
    by_cases h : c = sep
    · have hne := split_ne_nil sep cs
      cases hs : split sep cs with
      | nil => exact absurd hs hne
      | cons w ws =>
        rw [hs] at ih
        simp [split, h, hs, join, ih]
    · have hne := split_ne_nil sep cs
      cases hs : split sep cs with
      | nil => exact absurd hs hne
      | cons w ws =>
        rw [hs] at ih
        cases ws with
        | nil =>
          simp only [join] at ih
          simp [split, h, hs, join, ih]
        | cons v vs =>
          simp only [join] at ih
          simp [split, h, hs, join, ih]

/-- Splitting a joined list of separator-free items gives the items back. -/
theorem split_join_clean (sep : Nat) (xs : List Str) (h : xs ≠ [])
    (hclean : ∀ x ∈ xs, sep ∉ x) : split sep (join [sep] xs) = xs := by
  rw [split_join sep xs h]
  clear h
  induction xs with
  | nil => rfl
  | cons x rest ih =>
    rw [List.flatMap_cons, split_no_sep x (hclean x (List.mem_cons_self _ _)),
      ih (fun y hy => hclean y (List.mem_cons_of_mem _ hy))]
    rfl

/-! ## Facts about the loop of `wrapLine` -/

theorem wrapLoop_cons (width : Int) (lines : List Str) (cur x : Str) (rest : List Str) :
    wrapLoop width lines cur (x :: rest)
      = if (visibleLength (testLineOf cur x) : Int) ≤ width then
          wrapLoop width lines (testLineOf cur x) rest
        else wrapLoop width (if cur ≠ [] then lines ++ [cur] else lines) x rest := rfl

theorem wrapLoop_lines (width : Int) (lines : List Str) (cur : Str) (words : List Str) :
    wrapLoop width lines cur words
      = (lines ++ (wrapLoop width [] cur words).1, (wrapLoop width [] cur words).2) := by
  induction words generalizing lines cur with
  | nil => simp [wrapLoop]
  | cons x rest ih =>
    rw [wrapLoop_cons, wrapLoop_cons width []]
    by_cases h : (visibleLength (testLineOf cur x) : Int) ≤ width
    · rw [if_pos h, if_pos h]
      exact ih _ _
    · rw [if_neg h, if_neg h]
      by_cases hc : cur = []
      · simp only [hc, ne_eq, not_true_eq_false, if_false]
        exact ih _ _
      · simp only [hc, ne_eq, not_false_eq_true, if_true]
        rw [ih (lines ++ [cur]), ih ([] ++ [cur])]
        simp

theorem wrapLineLines_eq (line : Str) (width : Int) :
    wrapLineLines line width = linesFrom width [] (split SPACE line) := rfl

theorem linesFrom_nil (width : Int) (cur : Str) :
    linesFrom width cur [] = if cur ≠ [] then [cur] else [] := by
  simp [linesFrom, wrapLoop]

/-- The tested line fits: it becomes the current line. -/
theorem linesFrom_fit {width : Int} {cur x : Str} (rest : List Str)
    (h : (visibleLength (testLineOf cur x) : Int) ≤ width) :
    linesFrom width cur (x :: rest) = linesFrom width (testLineOf cur x) rest := by
  simp only [linesFrom, wrapLoop_cons, if_pos h]

/-- The tested line overflows: the current line is flushed and the word starts
the next one. -/
theorem linesFrom_overflow {width : Int} {cur x : Str} (rest : List Str)
    (h : ¬ (visibleLength (testLineOf cur x) : Int) ≤ width) :
    linesFrom width cur (x :: rest)
      = (if cur ≠ [] then [cur] else []) ++ linesFrom width x rest := by
  simp only [linesFrom, wrapLoop_cons, if_neg h]
  rw [wrapLoop_lines]
  by_cases hc : cur = []
  · simp [hc]
  · by_cases h2 : (wrapLoop width [] x rest).2 = []
    · simp [hc, h2]
    · simp [hc, h2]

theorem linesFrom_fits_or_word (width : Int) (cur : Str) (words : List Str)
    (hw : ∀ x ∈ words, SPACE ∉ x)
    (hc : (visibleLength cur : Int) ≤ width ∨ SPACE ∉ cur) :
    ∀ l ∈ linesFrom width cur words, (visibleLength l : Int) ≤ width ∨ SPACE ∉ l := by
  induction words generalizing cur with
  | nil =>
    intro l hl
    rw [linesFrom_nil] at hl
    by_cases h : cur = []
    · simp [h] at hl
    · simp [h] at hl
      rw [hl]; exact hc
  | cons x rest ih =>
    have hrest : ∀ y ∈ rest, SPACE ∉ y := fun y hy => hw y (List.mem_cons_of_mem _ hy)
    by_cases h : (visibleLength (testLineOf cur x) : Int) ≤ width
    · rw [linesFrom_fit rest h]
      exact ih _ hrest (Or.inl h)
    · rw [linesFrom_overflow rest h]
      intro l hl
      rcases List.mem_append.1 hl with h1 | h1
      · by_cases hcur : cur = []
        · simp [hcur] at h1
        · simp [hcur] at h1
          rw [h1]; exact hc
      · exact ih x hrest (Or.inr (hw x (List.mem_cons_self _ _))) l h1

theorem linesFrom_no_newline (width : Int) (cur : Str) (words : List Str)
    (hw : ∀ x ∈ words, NEWLINE ∉ x) (hc : NEWLINE ∉ cur) :
    ∀ l ∈ linesFrom width cur words, NEWLINE ∉ l := by
  induction words generalizing cur with
  | nil =>
    intro l hl
    rw [linesFrom_nil] at hl
    by_cases h : cur = []
    · simp [h] at hl
    · simp [h] at hl
      rw [hl]; exact hc
  | cons x rest ih =>
    have hrest : ∀ y ∈ rest, NEWLINE ∉ y := fun y hy => hw y (List.mem_cons_of_mem _ hy)
    have hx : NEWLINE ∉ x := hw x (List.mem_cons_self _ _)
    by_cases h : (visibleLength (testLineOf cur x) : Int) ≤ width
    · rw [linesFrom_fit rest h]
      apply ih _ hrest
      unfold testLineOf
      split
      · intro hmem
        simp only [List.mem_append, List.mem_singleton] at hmem
        rcases hmem with (h1 | h1) | h1
        · exact hc h1
        · exact absurd h1 (by decide)
        · exact hx h1
      · exact hx
    · rw [linesFrom_overflow rest h]
      intro l hl
      rcases List.mem_append.1 hl with h1 | h1
      · by_cases hcur : cur = []
        · simp [hcur] at h1
        · simp [hcur] at h1
          rw [h1]; exact hc
      · exact ih x hrest hx l h1

/-- The lines of `wrapLine(line, width)` for a line without newline: the list
`lines` of the loop, or one empty line when that list is empty. -/
theorem split_wrapLine (line : Str) (width : Int) (h : NEWLINE ∉ line) :
    split NEWLINE (wrapLine line width)
      = if wrapLineLines line width = [] then [[]] else wrapLineLines line width := by
  by_cases he : wrapLineLines line width = []
  · simp [wrapLine, he, join, split]
  · rw [if_neg he, wrapLine, split_join_clean NEWLINE _ he]
    rw [wrapLineLines_eq]
    apply linesFrom_no_newline
    · intro x hx hmem
      exact h ((split_mem hx).2 _ hmem)
    · simp

theorem wrapLine_fits_or_word (line : Str) (width : Int) (h : NEWLINE ∉ line) :
    ∀ l ∈ split NEWLINE (wrapLine line width),
      (visibleLength l : Int) ≤ width ∨ SPACE ∉ l := by
  intro l hl
  rw [split_wrapLine line width h] at hl
  by_cases he : wrapLineLines line width = []
  · simp [he] at hl
    rw [hl]
    exact Or.inr (by simp)
  · rw [if_neg he, wrapLineLines_eq] at hl
    exact linesFrom_fits_or_word width [] _ (fun x hx => (split_mem hx).1) (Or.inr (by simp)) l hl

/-- The output lines of `wrap` with preserved newlines: those of each wrapped
input line, in order. -/
theorem split_wrap_preserve (text : Str) (width : Int) :
    split NEWLINE (wrap text width true)
      = (split NEWLINE text).flatMap (fun line => split NEWLINE (wrapLine line width)) := by
  simp only [wrap, if_true]
  rw [split_join NEWLINE _ (by simpa using split_ne_nil NEWLINE text)]
  simp [List.flatMap_map]

theorem newline_not_mem_collapse (text : Str) :
    NEWLINE ∉ text.map (fun c => if c = NEWLINE then SPACE else c) := by
  intro h
  obtain ⟨c, _, hc⟩ := List.mem_map.1 h
  by_cases e : c = NEWLINE
  · simp [e] at hc
    exact absurd hc (by decide)
  · simp [e] at hc

theorem mem_join {sep : Str} {xs : List Str} {x : Nat} (h : x ∈ join sep xs) :
    x ∈ sep ∨ ∃ w ∈ xs, x ∈ w := by
  induction xs with
  | nil => simp [join] at h
  | cons a rest ih =>
    cases rest with
    | nil => exact Or.inr ⟨a, List.mem_cons_self _ _, by simpa [join] using h⟩
    | cons b rest =>
      rw [join_cons_cons] at h
      simp only [List.mem_append] at h
      rcases h with (h1 | h1) | h1
      · exact Or.inr ⟨a, List.mem_cons_self _ _, h1⟩
      · exact Or.inl h1
      · rcases ih h1 with h2 | ⟨w, hw, hxw⟩
        · exact Or.inl h2
        · exact Or.inr ⟨w, List.mem_cons_of_mem _ hw, hxw⟩

theorem testLineOf_of_ne_nil {cur : Str} (x : Str) (h : cur ≠ []) :
    testLineOf cur x = cur ++ [SPACE] ++ x := by
  simp [testLineOf, h]

theorem testLineOf_nil (x : Str) : testLineOf [] x = x := by
  simp [testLineOf]

/-- The first line that comes out of the loop starts with the current line;
what follows it on that line, if anything, starts with a space. -/
theorem linesFrom_head (width : Int) (cur : Str) (words : List Str) (h : cur ≠ []) :
    ∃ ext tl, linesFrom width cur words = (cur ++ ext) :: tl
      ∧ (ext = [] ∨ ∃ e, ext = SPACE :: e) := by
  induction words generalizing cur with
  | nil => exact ⟨[], [], by simp [linesFrom_nil, h], Or.inl rfl⟩
  | cons x rest ih =>
    by_cases hf : (visibleLength (testLineOf cur x) : Int) ≤ width
    · rw [linesFrom_fit rest hf, testLineOf_of_ne_nil x h]
      obtain ⟨ext, tl, h1, _⟩ := ih (cur ++ [SPACE] ++ x) (by simp)
      refine ⟨SPACE :: (x ++ ext), tl, ?_, Or.inr ⟨_, rfl⟩⟩
      rw [h1]
      simp
    · rw [linesFrom_overflow rest hf]
      exact ⟨[], linesFrom width x rest, by simp [h], Or.inl rfl⟩

theorem firstWord_extend {w ext : Str} (hw : SPACE ∉ w)
    (hext : ext = [] ∨ ∃ e, ext = SPACE :: e) : firstWord (w ++ ext) = w := by
  rcases hext with h | ⟨e, h⟩
  · simp [h, firstWord, split_no_sep w hw]
  · simp [h, firstWord, split_append_sep, split_no_sep w hw]

/-- Greediness of the loop: a line is flushed only when the next word, which
starts the following line, made the tested line overflow. -/
theorem linesFrom_greedy (width : Int) (cur : Str) (words : List Str)
    (hw : ∀ x ∈ words, x ≠ [] ∧ SPACE ∉ x) :
    List.Chain' (fun L M => width < (visibleLength (L ++ [SPACE] ++ firstWord M) : Int))
      (linesFrom width cur words) := by
  induction words generalizing cur with
  | nil =>
    rw [linesFrom_nil]
    by_cases h : cur = []
    · simp [h]
    · simp [h]
  | cons x rest ih =>
    have hrest : ∀ y ∈ rest, y ≠ [] ∧ SPACE ∉ y := fun y hy => hw y (List.mem_cons_of_mem _ hy)
    have hx := hw x (List.mem_cons_self _ _)
    by_cases hf : (visibleLength (testLineOf cur x) : Int) ≤ width
    · rw [linesFrom_fit rest hf]
      exact ih _ hrest
    · rw [linesFrom_overflow rest hf]
      by_cases h : cur = []
      · simpa [h] using ih x hrest
      · obtain ⟨ext, tl, h1, h2⟩ := linesFrom_head width x rest hx.1
        have hch := ih x hrest
        rw [h1] at hch
        simp only [h, ne_eq, not_false_eq_true, if_true, h1, List.singleton_append]
        refine List.chain'_cons.2 ⟨?_, hch⟩
        rw [firstWord_extend hx.2 h2, ← testLineOf_of_ne_nil x h]
        omega

theorem wrap_single_line (text : Str) (width : Int) (h : NEWLINE ∉ text) :
    wrap text width true = wrapLine text width := by
  simp [wrap, split_no_sep text h, join]

/-! ## Facts about the words of a text -/

theorem wordsOf_nil : wordsOf [] = [] := by decide

theorem wordsOf_append_sep (a b : Str) {c : Nat} (h : isWordSep c = true) :
    wordsOf (a ++ c :: b) = wordsOf a ++ wordsOf b := by
  simp [wordsOf, splitWhere_append_sep a b h]

theorem wordsOf_word {w : Str} (h : ∀ x ∈ w, isWordSep x = false) :
    wordsOf w = if w = [] then [] else [w] := by
  by_cases hw : w = []
  · simp [hw, wordsOf_nil]
  · simp [wordsOf, splitWhere_no_sep w h, hw]

theorem wordsOf_join {c : Nat} (h : isWordSep c = true) (xs : List Str) :
    wordsOf (join [c] xs) = xs.flatMap wordsOf := by
  induction xs with
  | nil => simp [join, wordsOf_nil]
  | cons x rest ih =>
    cases rest with
    | nil => simp [join]
    | cons y rest =>
      rw [join_cons_cons, List.append_assoc, List.singleton_append, wordsOf_append_sep _ _ h, ih]
      simp [List.flatMap_cons]

theorem wordsOf_testLineOf (cur x : Str) :
    wordsOf (testLineOf cur x) = wordsOf cur ++ wordsOf x := by
  by_cases h : cur = []
  · simp [h, testLineOf_nil, wordsOf_nil]
  · rw [testLineOf_of_ne_nil x h, List.append_assoc, List.singleton_append,
      wordsOf_append_sep _ _ (by decide)]

/-- The loop neither splits, drops nor reorders words. -/
theorem linesFrom_words (width : Int) (cur : Str) (words : List Str) :
    (linesFrom width cur words).flatMap wordsOf = wordsOf cur ++ words.flatMap wordsOf := by
  induction words generalizing cur with
  | nil =>
    rw [linesFrom_nil]
    by_cases h : cur = []
    · simp [h, wordsOf_nil]
    · simp [h]
  | cons x rest ih =>
    by_cases hf : (visibleLength (testLineOf cur x) : Int) ≤ width
    · rw [linesFrom_fit rest hf, ih, wordsOf_testLineOf]
      simp [List.flatMap_cons]
    · rw [linesFrom_overflow rest hf, List.flatMap_append, ih]
      by_cases h : cur = []
      · simp [h, wordsOf_nil, List.flatMap_cons]
      · simp [h, List.flatMap_cons]

theorem wordsOf_wrapLine (line : Str) (width : Int) :
    wordsOf (wrapLine line width) = wordsOf line := by
  have h1 : wordsOf (wrapLine line width) = (split SPACE line).flatMap wordsOf := by
    rw [wrapLine, wordsOf_join (by decide), wrapLineLines_eq, linesFrom_words, wordsOf_nil,
      List.nil_append]
  have h2 : wordsOf line = (split SPACE line).flatMap wordsOf := by
    conv_lhs => rw [← join_split SPACE line]
    exact wordsOf_join (by decide) _
  rw [h1, h2]

theorem wordsOf_eq_lines (text : Str) :
    wordsOf text = (split NEWLINE text).flatMap wordsOf := by
  conv_lhs => rw [← join_split NEWLINE text]
  exact wordsOf_join (by decide) _

/-- A word of the text is a non-empty segment between spaces of one of its lines. -/
theorem mem_wordsOf {text w : Str} (h : w ∈ wordsOf text) :
    ∃ line ∈ split NEWLINE text, w ∈ split SPACE line ∧ w ≠ [] := by
  rw [wordsOf_eq_lines] at h
  obtain ⟨line, hline, hw⟩ := List.mem_flatMap.1 h
  refine ⟨line, hline, ?_⟩
  have h2 : wordsOf line = (split SPACE line).flatMap wordsOf := by
    conv_lhs => rw [← join_split SPACE line]
    exact wordsOf_join (by decide) _
  rw [h2] at hw
  obtain ⟨x, hx, hwx⟩ := List.mem_flatMap.1 hw
  have hsep : ∀ u ∈ x, isWordSep u = false := by
    intro u hu
    have h3 : u ≠ SPACE := fun e => (split_mem hx).1 (e ▸ hu)
    have h4 : u ≠ NEWLINE := fun e => (split_mem hline).1 (e ▸ (split_mem hx).2 u hu)
    simp [isWordSep, h3, h4]
  rw [wordsOf_word hsep] at hwx
  by_cases hx0 : x = []
  · simp [hx0] at hwx
  · simp [hx0] at hwx
    rw [hwx]
    exact ⟨hx, hx0⟩

theorem visibleLength_le_testLineOf (cur x : Str) :
    visibleLength x ≤ visibleLength (testLineOf cur x) := by
  by_cases h : cur = []
  · simp [h, testLineOf_nil]
  · rw [testLineOf_of_ne_nil x h, List.append_assoc, List.singleton_append,
      visibleLength_append_barrier _ _ (by decide)]
    omega

/-- A word wider than the width, once current, is flushed alone. -/
theorem linesFrom_long_head (width : Int) (w : Str) (rest : List Str) (hne : w ≠ [])
    (hlong : width < (visibleLength w : Int)) :
    ∃ tl, linesFrom width w rest = w :: tl := by
  cases rest with
  | nil => exact ⟨[], by simp [linesFrom_nil, hne]⟩
  | cons y rest =>
    have hf : ¬ (visibleLength (testLineOf w y) : Int) ≤ width := by
      rw [testLineOf_of_ne_nil y hne, List.append_assoc, List.singleton_append,
        visibleLength_append_barrier _ _ (by decide)]
      push_cast
      omega
    exact ⟨linesFrom width y rest, by simp [linesFrom_overflow rest hf, hne]⟩

/-- A word wider than the width is a line of its own. -/
theorem linesFrom_long_word (width : Int) (cur : Str) (words : List Str) (w : Str)
    (hmem : w ∈ words) (hne : w ≠ []) (hlong : width < (visibleLength w : Int)) :
    w ∈ linesFrom width cur words := by
  induction words generalizing cur with
  | nil => simp at hmem
  | cons x rest ih =>
    by_cases hf : (visibleLength (testLineOf cur x) : Int) ≤ width
    · rw [linesFrom_fit rest hf]
      rcases List.mem_cons.1 hmem with h1 | h1
      · exfalso
        have := visibleLength_le_testLineOf cur x
        rw [h1] at hlong
        omega
      · exact ih _ h1
    · rw [linesFrom_overflow rest hf]
      apply List.mem_append_right
      rcases List.mem_cons.1 hmem with h1 | h1
      · obtain ⟨tl, htl⟩ := linesFrom_long_head width w rest hne hlong
        rw [← h1, htl]
        exact List.mem_cons_self _ _
      · exact ih _ h1

/-! ## Claims on `stripAnsi` and `visibleLength` -/

/-- C1, as stated, fails: on `ESC ESC [ 0 m [ 0 m` the single pass removes the
inner code and leaves `ESC [ 0 m`, of width 4, which a second pass removes. -/
theorem C1_counterexample :
    ¬ (visibleLength (stripAnsi (js "\x1b\x1b[0m[0m")) = visibleLength (js "\x1b\x1b[0m[0m")) := by
  decide

/-- C1, amended: stripping again never widens a string, and when every `ESC` of
`s` begins a well-formed code `ESC [ (digits or ;)* m`, a second strip changes
nothing, so `visibleLength(stripAnsi(s)) == visibleLength(s)`. -/
theorem C1_stripAnsi_width (s : Str) :
    visibleLength (stripAnsi s) ≤ visibleLength s ∧
    ((∀ pre suf, s = pre ++ ESC :: suf →
        ∃ ps r, IsParams ps ∧ suf = LBRACKET :: (ps ++ LOWER_M :: r)) →
      stripAnsi (stripAnsi s) = stripAnsi s ∧
      visibleLength (stripAnsi s) = visibleLength s) := by
  refine ⟨stripAnsi_length_le (stripAnsi s), fun h => ?_⟩
  have := stripAnsi_plain (stripAnsi s) (escapes_matched_strip s h)
  exact ⟨this, by simp [visibleLength, this]⟩

/-- C1, amended, at `ESC[31mhi ESC[0m`: both widths are 3. -/
theorem C1_stripAnsi_width_witness :
    stripAnsi (stripAnsi (js "\x1b[31mhi \x1b[0m")) = stripAnsi (js "\x1b[31mhi \x1b[0m") ∧
    visibleLength (stripAnsi (js "\x1b[31mhi \x1b[0m")) = visibleLength (js "\x1b[31mhi \x1b[0m") :=
  (C1_stripAnsi_width (js "\x1b[31mhi \x1b[0m")).2 (escapesMatched_sound (by decide))

/-- C2: on a string `p0 c1 p1 ... cn pn` whose plain segments hold no `ESC` and
whose codes are `ESC [ (digits or ;)* m`, `stripAnsi` returns `p0 p1 ... pn` and
`visibleLength` the sum of the lengths of the `pi`. -/
theorem C2_stripAnsi_styled (p0 : Str) (segs : List (Str × Str))
    (h0 : ESC ∉ p0) (hsegs : ∀ seg ∈ segs, IsParams seg.1 ∧ ESC ∉ seg.2) :
    stripAnsi (styled p0 segs) = p0 ++ segs.flatMap (fun seg => seg.2) ∧
    visibleLength (styled p0 segs) = p0.length + (segs.map (fun seg => seg.2.length)).sum := by
  have h : stripAnsi (styled p0 segs) = p0 ++ segs.flatMap (fun seg => seg.2) := by
    rw [styled, stripAnsi_plain_append _ _ h0, stripAnsi_segs segs hsegs]
  refine ⟨h, ?_⟩
  rw [visibleLength, h, List.length_append]
  congr 1
  clear h hsegs
  induction segs with
  | nil => rfl
  | cons seg rest ih => simp [List.flatMap_cons, ih]

/-- C2 at `a ESC[1;31m hi ESC[m ESC[0m !`: the result is `ahi!`, of width 4. -/
theorem C2_stripAnsi_styled_witness :
    stripAnsi (js "a\x1b[1;31mhi\x1b[m\x1b[0m!") = js "ahi!" ∧
    visibleLength (js "a\x1b[1;31mhi\x1b[m\x1b[0m!") = 4 :=
  C2_stripAnsi_styled (js "a") [(js "1;31", js "hi"), (js "", js ""), (js "0", js "!")]
    (by decide) (by decide)

/-- C3: a string with no substring `ESC [ (digits or ;)* m` is returned unchanged. -/
theorem C3_stripAnsi_no_code (s : Str)
    (h : ∀ pre ps suf, IsParams ps → s ≠ pre ++ code ps ++ suf) : stripAnsi s = s := by
  induction s using stripAnsi_induction with
  | nil => rfl
  | onCode ps r hps _ =>
    exact absurd (by rw [List.nil_append, code_append]) (h [] ps r hps)
  | onKeep c cs hm ih =>
    rw [stripAnsi_keep hm, ih]
    intro pre ps suf hps e
    exact h (c :: pre) ps suf hps (by simp [e])

/-- C3 at the partial sequences `ESC [ 3` followed by `x ESC m [ 1 ; m`: unchanged. -/
theorem C3_stripAnsi_no_code_witness :
    stripAnsi (js "\x1b[3x\x1bm[1;m\x1b[3") = js "\x1b[3x\x1bm[1;m\x1b[3" :=
  C3_stripAnsi_no_code (js "\x1b[3x\x1bm[1;m\x1b[3") (hasCode_sound (by decide))

/-! ## Claims on `pad` -/

/-- C4: with the default fill character (one space), for every string, every
integer width and every alignment (`left`, `center`, `right`, and any other
value, which behaves as `left`),
`visibleLength(pad(s, w, align)) == max(w, visibleLength(s))`. -/
theorem C4_pad_visibleLength (s : Str) (w : Int) (align : Str) :
    (visibleLength (pad s w align (js " ")) : Int) = max w (visibleLength s) := by
  simp only [pad, js_space]
  split
  · simp only [visibleLength, stripAnsi_spaces_append, List.append_assoc,
      stripAnsi_append_spaces, List.length_append, length_strRepeat]
    omega
  · split
    · simp only [visibleLength, stripAnsi_spaces_append, List.length_append, length_strRepeat]
      omega
    · simp only [visibleLength, stripAnsi_append_spaces, List.length_append, length_strRepeat]
      omega

/-- C5: with `k = max(0, w - visibleLength(s))`, `pad` appends `k` fills for
`left`, prepends `k` fills for `right`, and puts `floor(k/2)` fills before and
`k - floor(k/2)` after for `center`; when `visibleLength(s) >= w` the result is
`s` itself; and `pad("hi", 5, "center")` is `" hi  "`. -/
theorem C5_pad_layout (s : Str) (w : Int) (c : Str) :
    pad s w (js "left") c = s ++ strRepeat c (max 0 (w - visibleLength s)).toNat ∧
    pad s w (js "right") c = strRepeat c (max 0 (w - visibleLength s)).toNat ++ s ∧
    pad s w (js "center") c =
      strRepeat c ((max 0 (w - visibleLength s)).toNat / 2) ++ s ++
        strRepeat c ((max 0 (w - visibleLength s)).toNat
          - (max 0 (w - visibleLength s)).toNat / 2) ∧
    (w ≤ visibleLength s → ∀ align, pad s w align c = s) ∧
    pad (js "hi") 5 (js "center") (js " ") = js " hi  " := by
  refine ⟨?_, ?_, ?_, ?_, by decide⟩
  · have h1 : js "left" ≠ js "center" := by decide
    have h2 : js "left" ≠ js "right" := by decide
    simp [pad, h1, h2]
  · have h1 : js "right" ≠ js "center" := by decide
    simp [pad, h1]
  · simp only [pad, if_true]
    have e1 : (max 0 (w - (visibleLength s : Int)) / 2).toNat
        = (max 0 (w - (visibleLength s : Int))).toNat / 2 := by omega
    have e2 : (max 0 (w - (visibleLength s : Int))
          - max 0 (w - (visibleLength s : Int)) / 2).toNat
        = (max 0 (w - (visibleLength s : Int))).toNat
          - (max 0 (w - (visibleLength s : Int))).toNat / 2 := by omega
    rw [e1, e2]
  · intro h align
    have e : (max 0 (w - (visibleLength s : Int))) = 0 := by omega
    simp [pad, e, strRepeat]

/-- C5 at `s = "hello"`, `w = 3`, centred with fill `*`: nothing is cut. -/
theorem C5_pad_layout_witness :
    pad (js "hello") 3 (js "center") (js "*") = js "hello" :=
  (C5_pad_layout (js "hello") 3 (js "*")).2.2.2.1 (by decide) (js "center")

/-! ## Claims on `wrap` -/

/-- C6: for every text, integer width and value of `preserveNewlines`, every
line of `wrap(text, width, preserveNewlines)` (its result split on `\n`) either
has `visibleLength <= width` or holds no space. -/
theorem C6_wrap_line_fits_or_single_word (text : Str) (width : Int) (preserveNewlines : Bool) :
    ∀ line ∈ split NEWLINE (wrap text width preserveNewlines),
      (visibleLength line : Int) ≤ width ∨ SPACE ∉ line := by
  intro l hl
  cases preserveNewlines with
  | true =>
    rw [split_wrap_preserve] at hl
    obtain ⟨line, hline, hl2⟩ := List.mem_flatMap.1 hl
    exact wrapLine_fits_or_word line width (split_mem hline).1 l hl2
  | false =>
    simp only [wrap, Bool.false_eq_true, if_false] at hl
    exact wrapLine_fits_or_word _ width (newline_not_mem_collapse text) l hl

/-- C6 at `wrap("a bb ccc", 4)` and its line `a bb`. -/
theorem C6_wrap_line_fits_or_single_word_witness :
    (visibleLength (js "a bb") : Int) ≤ 4 ∨ SPACE ∉ js "a bb" :=
  C6_wrap_line_fits_or_single_word (js "a bb ccc") 4 true (js "a bb") (by decide)

/-- C7: `wrap` is greedy.  For a text of non-empty words (no space, no newline
inside) joined by single spaces and any width, whenever line `M` directly
follows line `L` in the output, `visibleLength(L + ' ' + firstWord(M)) > width`;
and `wrap("a bb ccc", 4)` is `"a bb\nccc"`. -/
theorem C7_wrap_greedy (words : List Str) (width : Int)
    (hw : ∀ x ∈ words, x ≠ [] ∧ SPACE ∉ x ∧ NEWLINE ∉ x) :
    (∀ pre L M suf,
      split NEWLINE (wrap (join [SPACE] words) width true) = pre ++ L :: M :: suf →
      width < (visibleLength (L ++ [SPACE] ++ firstWord M) : Int)) ∧
    wrap (js "a bb ccc") 4 true = js "a bb\nccc" := by
  refine ⟨?_, by decide⟩
  intro pre L M suf e
  have hnl : NEWLINE ∉ join [SPACE] words := by
    intro hmem
    rcases mem_join hmem with h | ⟨w, hw1, hw2⟩
    · exact absurd h (by decide)
    · exact (hw w hw1).2.2 hw2
  rw [wrap_single_line _ _ hnl, split_wrapLine _ _ hnl] at e
  by_cases he : wrapLineLines (join [SPACE] words) width = []
  · rw [if_pos he] at e
    have := congrArg List.length e
    simp at this
    omega
  · rw [if_neg he, wrapLineLines_eq] at e
    have hsplit : split SPACE (join [SPACE] words) = words ∨ words = [] := by
      by_cases h0 : words = []
      · exact Or.inr h0
      · exact Or.inl (split_join_clean SPACE words h0 (fun x hx => (hw x hx).2.1))
    rcases hsplit with h1 | h1
    · rw [h1] at e
      have hch := linesFrom_greedy width [] words (fun x hx => ⟨(hw x hx).1, (hw x hx).2.1⟩)
      rw [e] at hch
      exact (List.chain'_cons.1 hch.right_of_append).1
    · rw [h1] at e
      have := congrArg List.length e
      simp [join, split, linesFrom, wrapLoop] at this
      omega

/-- C7 at the words `a`, `bb`, `ccc` and width 4: `a bb ccc` overflows. -/
theorem C7_wrap_greedy_witness :
    (4 : Int) < (visibleLength (js "a bb" ++ [SPACE] ++ firstWord (js "ccc")) : Int) :=
  (C7_wrap_greedy [js "a", js "bb", js "ccc"] 4 (by decide)).1 [] (js "a bb") (js "ccc") []
    (by decide)

/-- C8: `wrap` neither splits, drops nor reorders a word: the non-empty words
of `wrap(text, width)` are those of `text`, in the same order; and every word of
`text` whose `visibleLength` exceeds `width` is a whole output line. -/
theorem C8_wrap_keeps_words (text : Str) (width : Int) :
    wordsOf (wrap text width true) = wordsOf text ∧
    ∀ w ∈ wordsOf text, width < (visibleLength w : Int) →
      w ∈ split NEWLINE (wrap text width true) := by
  constructor
  · have h1 : wordsOf (wrap text width true)
        = (split NEWLINE text).flatMap wordsOf := by
      simp only [wrap, if_true]
      rw [wordsOf_join (by decide), List.flatMap_map]
      simp [wordsOf_wrapLine]
    rw [h1, ← wordsOf_eq_lines]
  · intro w hw hlong
    obtain ⟨line, hline, hwl, hne⟩ := mem_wordsOf hw
    rw [split_wrap_preserve]
    refine List.mem_flatMap.2 ⟨line, hline, ?_⟩
    have hin : w ∈ wrapLineLines line width := by
      rw [wrapLineLines_eq]
      exact linesFrom_long_word width [] _ w hwl hne hlong
    rw [split_wrapLine line width (split_mem hline).1]
    have : wrapLineLines line width ≠ [] := List.ne_nil_of_mem hin
    rw [if_neg this]
    exact hin

/-- C8 at `wrap("ab  abcdef\nc", 3)`: the word `abcdef` is a line of the output. -/
theorem C8_wrap_keeps_words_witness :
    js "abcdef" ∈ split NEWLINE (wrap (js "ab  abcdef\nc") 3 true) :=
  (C8_wrap_keeps_words (js "ab  abcdef\nc") 3).2 (js "abcdef") (by decide) (by decide)

/-! ## Claims on `truncate` -/

/-- C9, as stated, fails for an ellipsis that holds an escape code: with
`text = "abcdefgh"`, `width = 5` and the ellipsis `ESC[0m.` (5 code units,
visible width 1) the code keeps `5 - 5 = 0` units of the text, not `5 - 1 = 4`. -/
theorem C9_counterexample :
    ¬ (visibleLength (js "abcdefgh") : Int) ≤ 5 ∧
    truncate (js "abcdefgh") 5 (js "\x1b[0m.")
      ≠ substring0 (stripAnsi (js "abcdefgh")) (5 - (visibleLength (js "\x1b[0m.") : Int))
          ++ js "\x1b[0m." := by
  decide

/-- C9, amended: if `visibleLength(text) <= width` then `truncate` returns
`text`; otherwise it returns the first `width - ellipsis.length` code units
(none when that is negative) of `stripAnsi(text)` followed by the ellipsis,
where `ellipsis.length` is the raw length; that is the first
`width - visibleLength(ellipsis)` units whenever the ellipsis holds no escape
code to strip. -/
theorem C9_truncate_result (text : Str) (width : Int) (ellipsis : Str) :
    ((visibleLength text : Int) ≤ width → truncate text width ellipsis = text) ∧
    (¬ (visibleLength text : Int) ≤ width →
      truncate text width ellipsis
        = (stripAnsi text).take (width - (ellipsis.length : Int)).toNat ++ ellipsis) ∧
    (¬ (visibleLength text : Int) ≤ width → visibleLength ellipsis = ellipsis.length →
      truncate text width ellipsis
        = (stripAnsi text).take (width - (visibleLength ellipsis : Int)).toNat ++ ellipsis) := by
  refine ⟨fun h => ?_, fun h => ?_, fun h hv => ?_⟩
  · simp [truncate, h]
  · simp [truncate, h, substring0]
  · simp [truncate, h, substring0, hv]

/-- C9, amended, at `truncate("hello world", 8, "...")`: `hello...`. -/
theorem C9_truncate_result_witness :
    truncate (js "hello world") 8 (js "...")
      = (stripAnsi (js "hello world")).take
          ((8 : Int) - (visibleLength (js "...") : Int)).toNat ++ js "..." :=
  (C9_truncate_result (js "hello world") 8 (js "...")).2.2 (by decide) (by decide)

/-- C10 fails on the code: `truncate("abcdef", 2, "...")` is `"..."`, of
visible width 3, wider than the width 2 it should fit in. -/
theorem C10_truncate_exceeds_width :
    truncate (js "abcdef") 2 (js "...") = js "..." ∧
    ¬ (visibleLength (truncate (js "abcdef") 2 (js "...")) : Int) ≤ 2 := by
  decide

/-- Where the width leaves room for the whole ellipsis, the result of `truncate`
does fit. -/
theorem truncate_fits_of_ellipsis_le (text : Str) (width : Int) (ellipsis : Str)
    (h : (ellipsis.length : Int) ≤ width) :
    (visibleLength (truncate text width ellipsis) : Int) ≤ width := by
  by_cases hv : (visibleLength text : Int) ≤ width
  · simp [truncate, hv]
  · have h1 := stripAnsi_length_le
      ((stripAnsi text).take (width - (ellipsis.length : Int)).toNat ++ ellipsis)
    have h2 : ((stripAnsi text).take (width - (ellipsis.length : Int)).toNat).length
        ≤ (width - (ellipsis.length : Int)).toNat := by
      rw [List.length_take]
      exact Nat.min_le_left _ _
    have h3 : truncate text width ellipsis
        = (stripAnsi text).take (width - (ellipsis.length : Int)).toNat ++ ellipsis := by
      simp [truncate, hv, substring0]
    rw [h3]
    rw [List.length_append] at h1
    unfold visibleLength
    omega

/-! ## Claims on `addMargin` and `addPadding` -/

theorem jsRepeat_natCast (s : Str) (n : Nat) : jsRepeat s (n : Int) = some (strRepeat s n) := by
  simp [jsRepeat]

theorem arrayFill_natCast (n : Nat) (x : Str) :
    arrayFill (n : Int) x = some (List.replicate n x) := by
  simp [arrayFill]

theorem newline_not_mem_spaces (k : Nat) : NEWLINE ∉ strRepeat [SPACE] k := by
  induction k with
  | zero => simp [strRepeat]
  | succ k ih =>
    intro h
    have e : strRepeat [SPACE] (k + 1) = SPACE :: strRepeat [SPACE] k := rfl
    rw [e] at h
    rcases List.mem_cons.1 h with h1 | h1
    · exact absurd h1 (by decide)
    · exact ih h1

/-- C11: for a margin `{top, right, bottom, left}` of non-negative integers,
`addMargin` and `addPadding` both return `top` empty lines, then each line of
the text between `left` and `right` spaces, then `bottom` empty lines, joined
by newlines; the result has `top + lines(text) + bottom` lines; and a number
`n` as margin gives what `{top: n, right: n, bottom: n, left: n}` gives. -/
theorem C11_addMargin_layout (text : Str) (top right bottom left : Nat) :
    addMargin text (.sides (some top) (some right) (some bottom) (some left))
      = some (join [NEWLINE] (List.replicate top [] ++
          (split NEWLINE text).map
            (fun line => strRepeat [SPACE] left ++ line ++ strRepeat [SPACE] right) ++
          List.replicate bottom [])) ∧
    addPadding text (.sides (some top) (some right) (some bottom) (some left))
      = addMargin text (.sides (some top) (some right) (some bottom) (some left)) ∧
    (split NEWLINE (join [NEWLINE] (List.replicate top [] ++
          (split NEWLINE text).map
            (fun line => strRepeat [SPACE] left ++ line ++ strRepeat [SPACE] right) ++
          List.replicate bottom []))).length = top + (split NEWLINE text).length + bottom ∧
    (∀ n : Int, addMargin text (.uniform n)
      = addMargin text (.sides (some n) (some n) (some n) (some n))) ∧
    (∀ n : Int, addPadding text (.uniform n)
      = addPadding text (.sides (some n) (some n) (some n) (some n))) := by
  refine ⟨?_, rfl, ?_, fun n => rfl, fun n => rfl⟩
  · simp [addMargin, jsRepeat_natCast, arrayFill_natCast]
  · rw [split_join_clean]
    · simp
      omega
    · obtain ⟨w, ws, hw⟩ := splitWhere_cons_exists (fun c => c == NEWLINE) text
      rw [split_eq_splitWhere, hw]
      simp
    · intro x hx
      simp only [List.mem_append, List.mem_replicate, List.mem_map] at hx
      rcases hx with (⟨_, h1⟩ | ⟨line, hline, h1⟩) | ⟨_, h1⟩
      · simp [h1]
      · rw [← h1]
        intro hmem
        simp only [List.mem_append] at hmem
        rcases hmem with (h2 | h2) | h2
        · exact newline_not_mem_spaces _ h2
        · exact (split_mem hline).1 h2
        · exact newline_not_mem_spaces _ h2
      · simp [h1]

/-! ## Facts about `hex`, `bgHex` and `parseInt` -/

theorem mem_hexDigitList {c : Nat} (h : (hexDigitValue c).isSome = true) : c ∈ hexDigitList := by
  unfold hexDigitValue at h
  by_cases h1 : 48 ≤ c ∧ c ≤ 57
  · obtain ⟨h2, h3⟩ := h1
    interval_cases c <;> decide
  · by_cases h2 : 97 ≤ c ∧ c ≤ 102
    · obtain ⟨h3, h4⟩ := h2
      interval_cases c <;> decide
    · by_cases h3 : 65 ≤ c ∧ c ≤ 70
      · obtain ⟨h4, h5⟩ := h3
        interval_cases c <;> decide
      · simp [h1, h2, h3] at h

set_option maxRecDepth 100000 in
theorem parseInt16_pair :
    ∀ a ∈ hexDigitList, ∀ b ∈ hexDigitList,
      parseInt16 [a, b] = some ((16 * hexVal a + hexVal b : Nat) : Int)
        ∧ 16 * hexVal a + hexVal b ≤ 255 := by
  decide

theorem sharp_not_mem_hex {h : Str} (hh : ∀ c ∈ h, (hexDigitValue c).isSome = true) :
    35 ∉ h := by
  intro hmem
  have := hh 35 hmem
  revert this
  decide

/-- A string of six hexadecimal digits, spelled out. -/
theorem isSixHex_cases {h : Str} (hh : isSixHex h = true) :
    ∃ a b c d e f, h = [a, b, c, d, e, f] ∧ a ∈ hexDigitList ∧ b ∈ hexDigitList
      ∧ c ∈ hexDigitList ∧ d ∈ hexDigitList ∧ e ∈ hexDigitList ∧ f ∈ hexDigitList := by
  simp only [isSixHex, Bool.and_eq_true, beq_iff_eq, List.all_eq_true] at hh
  obtain ⟨hlen, hall⟩ := hh
  match h, hlen, hall with
  | [a, b, c, d, e, f], _, hall =>
    exact ⟨a, b, c, d, e, f, rfl, mem_hexDigitList (hall a (by simp)),
      mem_hexDigitList (hall b (by simp)), mem_hexDigitList (hall c (by simp)),
      mem_hexDigitList (hall d (by simp)), mem_hexDigitList (hall e (by simp)),
      mem_hexDigitList (hall f (by simp))⟩

theorem isSixHex_all {h : Str} (hh : isSixHex h = true) :
    ∀ c ∈ h, (hexDigitValue c).isSome = true := by
  simp only [isSixHex, Bool.and_eq_true, beq_iff_eq, List.all_eq_true] at hh
  exact hh.2

theorem hex_sixHex {h : Str} (hh : isSixHex h = true) :
    hex h = rgb (some (pairValue h 0 : Nat)) (some (pairValue h 2 : Nat))
      (some (pairValue h 4 : Nat)) := by
  have hne := sharp_not_mem_hex (isSixHex_all hh)
  obtain ⟨a, b, c, d, e, f, rfl, ha, hb, hc, hd, he, hf⟩ := isSixHex_cases hh
  have e1 : hex [a, b, c, d, e, f]
      = rgb (parseInt16 [a, b]) (parseInt16 [c, d]) (parseInt16 [e, f]) := by
    simp only [hex, List.erase_of_not_mem hne]
    rfl
  rw [e1, (parseInt16_pair a ha b hb).1, (parseInt16_pair c hc d hd).1,
    (parseInt16_pair e he f hf).1]
  rfl

theorem bgHex_sixHex {h : Str} (hh : isSixHex h = true) :
    bgHex h = bgRgb (some (pairValue h 0 : Nat)) (some (pairValue h 2 : Nat))
      (some (pairValue h 4 : Nat)) := by
  have hne := sharp_not_mem_hex (isSixHex_all hh)
  obtain ⟨a, b, c, d, e, f, rfl, ha, hb, hc, hd, he, hf⟩ := isSixHex_cases hh
  have e1 : bgHex [a, b, c, d, e, f]
      = bgRgb (parseInt16 [a, b]) (parseInt16 [c, d]) (parseInt16 [e, f]) := by
    simp only [bgHex, List.erase_of_not_mem hne]
    rfl
  rw [e1, (parseInt16_pair a ha b hb).1, (parseInt16_pair c hc d hd).1,
    (parseInt16_pair e he f hf).1]
  rfl

theorem pairValue_le {h : Str} (hh : isSixHex h = true) :
    pairValue h 0 ≤ 255 ∧ pairValue h 2 ≤ 255 ∧ pairValue h 4 ≤ 255 := by
  obtain ⟨a, b, c, d, e, f, rfl, ha, hb, hc, hd, he, hf⟩ := isSixHex_cases hh
  exact ⟨(parseInt16_pair a ha b hb).2, (parseInt16_pair c hc d hd).2,
    (parseInt16_pair e he f hf).2⟩

/-! ## Claims on `hex` and `bgHex` -/

/-- C17: for a string `h` of exactly six hexadecimal digits, `hex('#' + h)`,
`hex(h)` and `rgb(R, G, B)` are equal, and so are `bgHex('#' + h)`, `bgHex(h)`
and `bgRgb(R, G, B)`, where `R`, `G`, `B` are the base-16 values of the first,
second and third digit pairs of `h`, each at most 255. -/
theorem C17_hex_six_digits (h : Str) (hh : isSixHex h = true) :
    hex (35 :: h) = hex h ∧
    hex h = rgb (some (pairValue h 0 : Nat)) (some (pairValue h 2 : Nat))
      (some (pairValue h 4 : Nat)) ∧
    bgHex (35 :: h) = bgHex h ∧
    bgHex h = bgRgb (some (pairValue h 0 : Nat)) (some (pairValue h 2 : Nat))
      (some (pairValue h 4 : Nat)) ∧
    pairValue h 0 ≤ 255 ∧ pairValue h 2 ≤ 255 ∧ pairValue h 4 ≤ 255 := by
  have hne := sharp_not_mem_hex (isSixHex_all hh)
  refine ⟨?_, hex_sixHex hh, ?_, bgHex_sixHex hh, pairValue_le hh⟩
  · simp only [hex, List.erase_cons_head, List.erase_of_not_mem hne]
  · simp only [bgHex, List.erase_cons_head, List.erase_of_not_mem hne]

/-- C17 at `h = "FF8000"`: both spellings give `ESC[38;2;255;128;0m`. -/
theorem C17_hex_six_digits_witness :
    hex (js "#FF8000") = hex (js "FF8000") ∧
    hex (js "FF8000") = js "\x1b[38;2;255;128;0m" :=
  ⟨(C17_hex_six_digits (js "FF8000") (by decide)).1,
   (C17_hex_six_digits (js "FF8000") (by decide)).2.1⟩

/-! ## Facts about escape codes in front of and behind a text -/

theorem matchAt_append_nonbody {x c : Nat} {xs : Str} (b : Str) (h1 : c ≠ LBRACKET)
    (h2 : isParam c = false) (h3 : c ≠ LOWER_M)
    (h : matchAt (x :: xs) = none) : matchAt (x :: (xs ++ c :: b)) = none := by
  cases hm : matchAt (x :: (xs ++ c :: b)) with
  | none => rfl
  | some n =>
    exfalso
    obtain ⟨ps, r, hps, hs, _⟩ := matchAt_some hm
    simp only [List.cons.injEq] at hs
    obtain ⟨hx, hxs⟩ := hs
    have e : xs ++ c :: b = (LBRACKET :: (ps ++ [LOWER_M])) ++ r := by simp [hxs]
    rcases List.append_eq_append_iff.1 e with ⟨a, h4, h5⟩ | ⟨a, h4, h5⟩
    · cases a with
      | nil =>
        rw [List.append_nil] at h4
        have := matchAt_code ps [] hps
        rw [hx, ← h4] at h
        simp [this] at h
      | cons d a =>
        simp only [List.cons_append, List.cons.injEq] at h5
        have hmem : c ∈ LBRACKET :: (ps ++ [LOWER_M]) := by
          rw [h4, h5.1]; simp
        simp only [List.mem_cons, List.mem_append, List.mem_singleton, List.not_mem_nil,
          or_false] at hmem
        rcases hmem with h6 | h6 | h6
        · exact h1 h6
        · have := hps c h6
          rw [h2] at this
          exact absurd this (by simp)
        · exact h3 h6
    · have := matchAt_code ps a hps
      rw [hx, h4] at h
      simp at h
      simp [this] at h

/-- An `ESC` ends every match attempt before it: the part before it and the
part from it on are stripped independently. -/
theorem stripAnsi_append_esc (a b : Str) :
    stripAnsi (a ++ ESC :: b) = stripAnsi a ++ stripAnsi (ESC :: b) := by
  induction a using stripAnsi_induction with
  | nil => simp [stripAnsi_nil]
  | onCode ps r hps ih =>
    have : ESC :: LBRACKET :: (ps ++ LOWER_M :: r) ++ ESC :: b
        = ESC :: LBRACKET :: (ps ++ LOWER_M :: (r ++ ESC :: b)) := by simp
    rw [this, stripAnsi_code _ _ hps, stripAnsi_code _ _ hps, ih]
  | onKeep x xs hm ih =>
    rw [List.cons_append,
      stripAnsi_keep (matchAt_append_nonbody b (by decide) (by decide) (by decide) hm),
      stripAnsi_keep hm, ih, List.cons_append]

theorem stripAnsi_eq_self_of_no_code (s : Str)
    (h : ∀ pre ps suf, IsParams ps → s ≠ pre ++ code ps ++ suf) : stripAnsi s = s := by
  induction s using stripAnsi_induction with
  | nil => rfl
  | onCode ps r hps _ =>
    exact absurd (by rw [List.nil_append, code_append]) (h [] ps r hps)
  | onKeep c cs hm ih =>
    rw [stripAnsi_keep hm, ih]
    intro pre ps suf hps e
    exact h (c :: pre) ps suf hps (by simp [e])

theorem invisible_nil : Invisible [] := fun _ => rfl

theorem invisible_append {s t : Str} (hs : Invisible s) (ht : Invisible t) :
    Invisible (s ++ t) := by
  intro r
  rw [List.append_assoc, hs, ht]

theorem invisible_ite (b : Bool) {s : Str} (hs : Invisible s) :
    Invisible (if b then s else []) := by
  cases b
  · exact invisible_nil
  · exact hs

theorem invisible_code (ps : Str) (h : IsParams ps) : Invisible (code ps) := by
  intro r
  rw [code_append, stripAnsi_code ps r h]

/-- A string that the pattern matches in full is invisible. -/
theorem invisible_of_matchAt {s : Str} (h : matchAt s = some s.length) : Invisible s := by
  obtain ⟨ps, r, hps, hs, hn⟩ := matchAt_some h
  have hr : r = [] := by
    have := congrArg List.length hs
    simp at this
    have h2 : r.length = 0 := by omega
    exact List.length_eq_zero.1 h2
  rw [hs, hr]
  have := invisible_code ps hps
  simpa [code] using this

theorem decimalAux_isParams (fuel n : Nat) (acc : Str) (h : IsParams acc) :
    IsParams (decimalAux fuel n acc) := by
  induction fuel generalizing n acc with
  | zero => exact h
  | succ fuel ih =>
    have hdigit : ∀ d, d < 10 → isParam (48 + d) = true := by
      intro d hd
      simp only [isParam, Bool.or_eq_true, Bool.and_eq_true, decide_eq_true_eq, beq_iff_eq]
      omega
    unfold decimalAux
    split
    · rename_i hlt
      intro x hx
      rcases List.mem_cons.1 hx with h1 | h1
      · rw [h1]; exact hdigit n hlt
      · exact h x h1
    · apply ih
      intro x hx
      rcases List.mem_cons.1 hx with h1 | h1
      · rw [h1]; exact hdigit _ (Nat.mod_lt _ (by omega))
      · exact h x h1

theorem decimal_isParams (n : Nat) : IsParams (decimal n) :=
  decimalAux_isParams _ _ _ (fun _ hx => absurd hx (List.not_mem_nil _))

theorem numToString_nat (n : Nat) : numToString (some (n : Int)) = decimal n := by
  simp [numToString]

theorem isParams_append {s t : Str} (hs : IsParams s) (ht : IsParams t) : IsParams (s ++ t) := by
  intro x hx
  rcases List.mem_append.1 hx with h | h
  · exact hs x h
  · exact ht x h

theorem rgb_nat_eq_code (r g b : Nat) :
    rgb (some (r : Int)) (some (g : Int)) (some (b : Int))
      = code (js "38;2;" ++ decimal r ++ js ";" ++ decimal g ++ js ";" ++ decimal b) := by
  have e1 : js "\x1b[38;2;" = ESC :: LBRACKET :: js "38;2;" := by decide
  have e2 : js "m" = [LOWER_M] := by decide
  simp [rgb, numToString_nat, e1, e2, code]

theorem bgRgb_nat_eq_code (r g b : Nat) :
    bgRgb (some (r : Int)) (some (g : Int)) (some (b : Int))
      = code (js "48;2;" ++ decimal r ++ js ";" ++ decimal g ++ js ";" ++ decimal b) := by
  have e1 : js "\x1b[48;2;" = ESC :: LBRACKET :: js "48;2;" := by decide
  have e2 : js "m" = [LOWER_M] := by decide
  simp [bgRgb, numToString_nat, e1, e2, code]

theorem invisible_rgb_nat (r g b : Nat) :
    Invisible (rgb (some (r : Int)) (some (g : Int)) (some (b : Int))) := by
  rw [rgb_nat_eq_code]
  apply invisible_code
  have h1 : IsParams (js "38;2;") := by decide
  have h2 : IsParams (js ";") := by decide
  exact isParams_append (isParams_append (isParams_append (isParams_append h1
    (decimal_isParams r)) h2) (decimal_isParams g)) (isParams_append h2 (decimal_isParams b))
    |> fun h => by simpa [List.append_assoc] using h

theorem invisible_bgRgb_nat (r g b : Nat) :
    Invisible (bgRgb (some (r : Int)) (some (g : Int)) (some (b : Int))) := by
  rw [bgRgb_nat_eq_code]
  apply invisible_code
  have h1 : IsParams (js "48;2;") := by decide
  have h2 : IsParams (js ";") := by decide
  exact isParams_append (isParams_append (isParams_append (isParams_append h1
    (decimal_isParams r)) h2) (decimal_isParams g)) (isParams_append h2 (decimal_isParams b))
    |> fun h => by simpa [List.append_assoc] using h

/-! ## Facts about `Text` -/

theorem lookup_mem {table : List (Str × Str)} {k v : Str} (h : table.lookup k = some v) :
    (k, v) ∈ table := by
  obtain ⟨l1, l2, e, _⟩ := List.lookup_eq_some_iff.1 h
  rw [e]
  simp

theorem fg_entry :
    ∀ e ∈ ANSI.fg, colorCode hex ANSI.fg (.str e.1) = some e.2 ∧ matchAt e.2 = some e.2.length := by
  decide

theorem bg_entry :
    ∀ e ∈ ANSI.bg,
      colorCode bgHex ANSI.bg (.str e.1) = some e.2 ∧ matchAt e.2 = some e.2.length := by
  decide

theorem colorCode_sharp (hexFn : Str → Str) (table : List (Str × Str)) (h : Str) :
    colorCode hexFn table (.str (35 :: h)) = some (hexFn (35 :: h)) := by
  simp [colorCode]

theorem str_eq_sharp_tail {s : Str} (h : (s.head? == some 35) = true) : s = 35 :: s.tail := by
  cases s with
  | nil => simp at h
  | cons c cs =>
    simp at h
    simp [h]

theorem hex_sharp_sixHex {h : Str} (hh : isSixHex h = true) :
    hex (35 :: h) = rgb (some (pairValue h 0 : Nat)) (some (pairValue h 2 : Nat))
      (some (pairValue h 4 : Nat)) := by
  rw [← hex_sixHex hh]
  simp only [hex, List.erase_cons_head, List.erase_of_not_mem (sharp_not_mem_hex (isSixHex_all hh))]

theorem bgHex_sharp_sixHex {h : Str} (hh : isSixHex h = true) :
    bgHex (35 :: h) = bgRgb (some (pairValue h 0 : Nat)) (some (pairValue h 2 : Nat))
      (some (pairValue h 4 : Nat)) := by
  rw [← bgHex_sixHex hh]
  simp only [bgHex, List.erase_cons_head,
    List.erase_of_not_mem (sharp_not_mem_hex (isSixHex_all hh))]

/-- A foreground colour that is absent, a palette name or `#` and six digits
adds an invisible prefix. -/
theorem colorCode_fg_invisible {c : ColorSpec} (h : isStyleColor ANSI.fg c = true) :
    ∃ cd, colorCode hex ANSI.fg c = some cd ∧ Invisible cd := by
  cases c with
  | absent => exact ⟨[], rfl, invisible_nil⟩
  | obj r g b => simp [isStyleColor] at h
  | str s =>
    simp only [isStyleColor, Bool.or_eq_true, Bool.and_eq_true] at h
    rcases h with h1 | ⟨h1, h2⟩
    · obtain ⟨v, hv⟩ := Option.isSome_iff_exists.1 h1
      have := fg_entry (s, v) (lookup_mem hv)
      exact ⟨v, this.1, invisible_of_matchAt this.2⟩
    · rw [str_eq_sharp_tail h1, colorCode_sharp, hex_sharp_sixHex h2]
      exact ⟨_, rfl, invisible_rgb_nat _ _ _⟩

/-- A background colour that is absent, a palette name or `#` and six digits
adds an invisible prefix. -/
theorem colorCode_bg_invisible {c : ColorSpec} (h : isStyleColor ANSI.bg c = true) :
    ∃ cd, colorCode bgHex ANSI.bg c = some cd ∧ Invisible cd := by
  cases c with
  | absent => exact ⟨[], rfl, invisible_nil⟩
  | obj r g b => simp [isStyleColor] at h
  | str s =>
    simp only [isStyleColor, Bool.or_eq_true, Bool.and_eq_true] at h
    rcases h with h1 | ⟨h1, h2⟩
    · obtain ⟨v, hv⟩ := Option.isSome_iff_exists.1 h1
      have := bg_entry (s, v) (lookup_mem hv)
      exact ⟨v, this.1, invisible_of_matchAt this.2⟩
    · rw [str_eq_sharp_tail h1, colorCode_sharp, bgHex_sharp_sixHex h2]
      exact ⟨_, rfl, invisible_bgRgb_nat _ _ _⟩

/-- The result of `build`, in one expression. -/
theorem Text_build_eq (text : Str) (color bgColor : ColorSpec)
    (bold dim italic underline strikethrough inverse blink : Bool) :
    Text.build (TextOptions.mk text color bgColor bold dim italic underline strikethrough
        inverse blink)
      = (colorCode hex ANSI.fg color).bind fun fg =>
        (colorCode bgHex ANSI.bg bgColor).bind fun bg =>
        some (attrCodes bold dim italic underline strikethrough inverse blink ++ fg ++ bg
          ++ text ++ ANSI.reset) := by
  cases bold <;> cases dim <;> cases italic <;> cases underline <;> cases strikethrough <;>
    cases inverse <;> cases blink <;> rfl

theorem invisible_attrCodes (bold dim italic underline strikethrough inverse blink : Bool) :
    Invisible (attrCodes bold dim italic underline strikethrough inverse blink) := by
  unfold attrCodes
  have hb : Invisible ANSI.bold := invisible_of_matchAt (by decide)
  have hd : Invisible ANSI.dim := invisible_of_matchAt (by decide)
  have hi : Invisible ANSI.italic := invisible_of_matchAt (by decide)
  have hu : Invisible ANSI.underline := invisible_of_matchAt (by decide)
  have hs : Invisible ANSI.strikethrough := invisible_of_matchAt (by decide)
  have hv : Invisible ANSI.inverse := invisible_of_matchAt (by decide)
  have hk : Invisible ANSI.blink := invisible_of_matchAt (by decide)
  exact invisible_append (invisible_append (invisible_append (invisible_append
    (invisible_append (invisible_append (invisible_ite _ hb) (invisible_ite _ hd))
    (invisible_ite _ hi)) (invisible_ite _ hu)) (invisible_ite _ hs)) (invisible_ite _ hv))
    (invisible_ite _ hk)

theorem stripAnsi_append_reset (text : Str) :
    stripAnsi (text ++ ANSI.reset) = stripAnsi text := by
  have e : ANSI.reset = ESC :: js "[0m" := by decide
  have e2 : stripAnsi (ESC :: js "[0m") = [] := by decide
  rw [e, stripAnsi_append_esc, e2, List.append_nil]

/-- Styling is invisible: with colours that are absent, palette names or `#`
and six digits, `build` succeeds and its result strips to what the text
strips to. -/
theorem stripAnsi_Text_build (text : Str) (color bgColor : ColorSpec)
    (bold dim italic underline strikethrough inverse blink : Bool)
    (hc : isStyleColor ANSI.fg color = true) (hb : isStyleColor ANSI.bg bgColor = true) :
    ∃ out, Text.build (TextOptions.mk text color bgColor bold dim italic underline
        strikethrough inverse blink) = some out ∧ stripAnsi out = stripAnsi text := by
  obtain ⟨fg, hfg, ifg⟩ := colorCode_fg_invisible hc
  obtain ⟨bg, hbg, ibg⟩ := colorCode_bg_invisible hb
  refine ⟨_, by rw [Text_build_eq, hfg, hbg]; rfl, ?_⟩
  have hpre := invisible_append (invisible_append
    (invisible_attrCodes bold dim italic underline strikethrough inverse blink) ifg) ibg
  rw [List.append_assoc, hpre, stripAnsi_append_reset]

theorem appendLookup_sixHex (table : List (Str × Str)) (h : Str)
    (ht : ∀ e ∈ table, isSixHex e.1 = false) (hh : isSixHex h = true) :
    appendLookup table h = [] := by
  have h1 : table.lookup h = none := by
    rw [List.lookup_eq_none_iff]
    intro p hp
    have := ht p hp
    simp only [bne_iff_ne, ne_eq]
    intro e
    rw [← e, hh] at this
    exact absurd this (by simp)
  have h2 : h ∉ objectPrototypeKeys := by
    intro hmem
    have : ∀ k ∈ objectPrototypeKeys, isSixHex k = false := by decide
    rw [this h hmem] at hh
    exact absurd hh (by simp)
  simp [appendLookup, h1, h2]

theorem colorCode_sixHex (hexFn : Str → Str) (table : List (Str × Str)) (h : Str)
    (ht : ∀ e ∈ table, isSixHex e.1 = false) (hh : isSixHex h = true) :
    colorCode hexFn table (.str h) = some [] := by
  obtain ⟨a, b, c, d, e, f, rfl, ha, _⟩ := isSixHex_cases hh
  have h1 : a ≠ 35 := by
    intro e1
    rw [e1] at ha
    revert ha
    decide
  simp [colorCode, h1, appendLookup_sixHex table _ ht hh]

/-! ## Claims on `Text` -/

/-- C12, as stated, fails for a text that itself holds escape codes:
`Text({text: "ESC[31mhi ESC[0m"}).toString()` strips to `hi`, not to the text. -/
theorem C12_counterexample :
    (Text.build (TextOptions.mk (js "\x1b[31mhi\x1b[0m") .absent .absent
        false false false false false false false)).map stripAnsi
      ≠ some (js "\x1b[31mhi\x1b[0m") := by
  decide

/-- C12, amended: for a text with no substring `ESC [ (digits or ;)* m`, any
boolean attributes, and colours that are each absent, a palette name or `#`
followed by six hexadecimal digits, `Text(...).toString()` returns a string and
`stripAnsi` of it is the text. -/
theorem C12_text_round_trip (text : Str) (color bgColor : ColorSpec)
    (bold dim italic underline strikethrough inverse blink : Bool)
    (hc : isStyleColor ANSI.fg color = true) (hb : isStyleColor ANSI.bg bgColor = true)
    (hno : ∀ pre ps suf, IsParams ps → text ≠ pre ++ code ps ++ suf) :
    ∃ out, Text.build (TextOptions.mk text color bgColor bold dim italic underline
        strikethrough inverse blink) = some out ∧ stripAnsi out = text := by
  obtain ⟨out, h1, h2⟩ := stripAnsi_Text_build text color bgColor bold dim italic underline
    strikethrough inverse blink hc hb
  exact ⟨out, h1, by rw [h2, stripAnsi_eq_self_of_no_code text hno]⟩

/-- C12, amended, at the text `hi [0m`, bold, red on `#00ff00`. -/
theorem C12_text_round_trip_witness :
    ∃ out, Text.build (TextOptions.mk (js "hi [0m") (.str (js "red")) (.str (js "#00ff00"))
        true false false false false false false) = some out ∧ stripAnsi out = js "hi [0m" :=
  C12_text_round_trip (js "hi [0m") (.str (js "red")) (.str (js "#00ff00"))
    true false false false false false false (by decide) (by decide) (hasCode_sound (by decide))

/-- C13: with each colour absent or a palette name, `Text(...).toString()` is the
codes of the attributes set among bold, dim, italic, underline, strikethrough,
inverse, blink, in that order, then the foreground code if any, then the
background code if any, then the raw text, then the reset code `ESC[0m`. -/
theorem C13_text_emission_order (text : Str) (fg bg : Option (Str × Str))
    (bold dim italic underline strikethrough inverse blink : Bool)
    (hfg : ∀ e, fg = some e → e ∈ ANSI.fg) (hbg : ∀ e, bg = some e → e ∈ ANSI.bg) :
    Text.build (TextOptions.mk text (colorOfEntry fg) (colorOfEntry bg) bold dim italic
        underline strikethrough inverse blink)
      = some ((if bold then js "\x1b[1m" else []) ++ (if dim then js "\x1b[2m" else []) ++
          (if italic then js "\x1b[3m" else []) ++ (if underline then js "\x1b[4m" else []) ++
          (if strikethrough then js "\x1b[9m" else []) ++
          (if inverse then js "\x1b[7m" else []) ++ (if blink then js "\x1b[5m" else []) ++
          codeOfEntry fg ++ codeOfEntry bg ++ text ++ js "\x1b[0m") := by
  have h1 : colorCode hex ANSI.fg (colorOfEntry fg) = some (codeOfEntry fg) := by
    cases fg with
    | none => rfl
    | some e => exact (fg_entry e (hfg e rfl)).1
  have h2 : colorCode bgHex ANSI.bg (colorOfEntry bg) = some (codeOfEntry bg) := by
    cases bg with
    | none => rfl
    | some e => exact (bg_entry e (hbg e rfl)).1
  rw [Text_build_eq, h1, h2]
  rfl

/-- C13 at bold, underlined, blinking `x` in red on blue. -/
theorem C13_text_emission_order_witness :
    Text.build (TextOptions.mk (js "x") (.str (js "red")) (.str (js "blue"))
        true false false true false false true)
      = some (js "\x1b[1m\x1b[4m\x1b[5m\x1b[31m\x1b[44mx\x1b[0m") :=
  C13_text_emission_order (js "x") (some (js "red", js "\x1b[31m"))
    (some (js "blue", js "\x1b[44m")) true false false true false false true
    (fun e he => by cases he; decide) (fun e he => by cases he; decide)

/-- C14 fails on the code: for a colour given as an object `{r, g, b}`, `build`
first calls `color.startsWith('#')`, which an object does not have, so
`toString()` throws for every text, every triple and every other option; the
same holds for `bgColor`. -/
theorem C14_rgb_object_throws (text : Str) (r g b : Int) (other : ColorSpec)
    (bold dim italic underline strikethrough inverse blink : Bool) :
    Text.build (TextOptions.mk text (.obj r g b) other bold dim italic underline strikethrough
        inverse blink) = none ∧
    Text.build (TextOptions.mk text other (.obj r g b) bold dim italic underline strikethrough
        inverse blink) = none := by
  constructor
  · rw [Text_build_eq]
    rfl
  · rw [Text_build_eq]
    cases h : colorCode hex ANSI.fg other <;> rfl

/-- C15, as stated, fails: `Text` with colour `ff0000` emits no colour code,
while `Text` with colour `#ff0000` emits `ESC[38;2;255;0;0m`. -/
theorem C15_counterexample :
    textWithColor (js "x") (.str (js "ff0000")) = some (js "x\x1b[0m") ∧
    textWithColor (js "x") (.str (js "#ff0000")) = some (js "\x1b[38;2;255;0;0mx\x1b[0m") ∧
    textWithColor (js "x") (.str (js "ff0000")) ≠ textWithColor (js "x") (.str (js "#ff0000")) := by
  decide

/-- C15, amended: for six hexadecimal digits `h`, `Text` with colour `'#' + h`
returns the 24-bit escape of the parsed channels, then the text, then the
reset; `Text` with colour `h` (no `#`) returns the text and the reset only. -/
theorem C15_text_hex_color (text h : Str) (hh : isSixHex h = true) :
    textWithColor text (.str (35 :: h))
      = some (rgb (some (pairValue h 0 : Nat)) (some (pairValue h 2 : Nat))
          (some (pairValue h 4 : Nat)) ++ text ++ ANSI.reset) ∧
    textWithColor text (.str h) = some (text ++ ANSI.reset) := by
  constructor
  · rw [textWithColor, Text_build_eq, colorCode_sharp, hex_sharp_sixHex hh]
    simp [colorCode, attrCodes]
  · rw [textWithColor, Text_build_eq, colorCode_sixHex hex ANSI.fg h (by decide) hh]
    simp [colorCode, attrCodes]

/-- C15, amended, at `h = "00ff7f"` and the text `ok`. -/
theorem C15_text_hex_color_witness :
    textWithColor (js "ok") (.str (js "#00ff7f")) = some (js "\x1b[38;2;0;255;127mok\x1b[0m") ∧
    textWithColor (js "ok") (.str (js "00ff7f")) = some (js "ok\x1b[0m") :=
  C15_text_hex_color (js "ok") (js "00ff7f") (by decide)

/-- C16 fails on the code: the colour string `__proto__` is no palette name and
does not start with `#`, but `ANSI.fg["__proto__"]` is the inherited prototype
object, which is truthy, so its text `[object Object]` is put before the text. -/
theorem C16_inherited_name_emits_text :
    (ANSI.fg.lookup (js "__proto__")).isSome = false ∧
    textWithColor (js "hi") (.str (js "__proto__")) = some (js "[object Object]hi\x1b[0m") ∧
    textWithColor (js "hi") (.str (js "__proto__")) ≠ textWithColor (js "hi") .absent := by
  decide

/-- A colour string that is not empty, does not start with `#`, is no palette
name and no inherited property name adds nothing. -/
theorem colorCode_unknown_name (hexFn : Str → Str) (table : List (Str × Str)) (s : Str)
    (h1 : s.head? ≠ some 35) (h2 : table.lookup s = none) (h3 : s ∉ objectPrototypeKeys) :
    colorCode hexFn table (.str s) = some [] := by
  by_cases h0 : s = []
  · simp [colorCode, h0]
  · simp [colorCode, h0, h1, appendLookup, h2, h3]

/-! ## Claims on `Box` -/

set_option maxRecDepth 100000 in
/-- C18 fails on the code: `Box({content: "Hi"})`, with the default padding 1,
renders lines of visible widths 4, 4, 6, 4, 4.  The automatic width counts the
content and the title but not the side padding, so the borders and the blank
rows are narrower than the row that holds the widest content line. -/
theorem C18_box_default_is_ragged :
    boxWithPadding (js "Hi") (.uniform 1) = some (js "┌──┐\n│  │\n│ Hi │\n│  │\n└──┘") ∧
    (split NEWLINE (js "┌──┐\n│  │\n│ Hi │\n│  │\n└──┘")).map visibleLength = [4, 4, 6, 4, 4] := by
  decide

set_option maxRecDepth 100000 in
/-- C19, as stated, fails: `Box({content: "Hi", padding: 1})` does not render
the three lines `┌────┐`, `│ Hi │`, `└────┘`. -/
theorem C19_counterexample :
    boxWithPadding (js "Hi") (.uniform 1) ≠ some (js "┌────┐\n│ Hi │\n└────┘") := by
  decide

set_option maxRecDepth 100000 in
/-- C19, amended: `Box({content: "Hi", padding: 1})` with no title and the
single border style renders five lines: a top border `┌─…─┐`, a blank padding
row `│ … │`, the content row `│ Hi │`, a second blank padding row like the
first, and a bottom border `└─…─┘` as long as the top one; padding 1 pads all
four sides. -/
theorem C19_box_hi_padding_one :
    ∃ a b : Nat, boxWithPadding (js "Hi") (.uniform 1)
      = some (join [NEWLINE]
          [js "┌" ++ strRepeat (js "─") a ++ js "┐",
           js "│" ++ strRepeat (js " ") b ++ js "│",
           js "│ Hi │",
           js "│" ++ strRepeat (js " ") b ++ js "│",
           js "└" ++ strRepeat (js "─") a ++ js "┘"]) :=
  ⟨2, 2, by decide⟩

/-! ## Claims on `Table` -/

set_option maxRecDepth 100000 in
/-- C20 fails on the code: `Table({headers: ["A", "B"], rows: [["1"]]})` renders
lines of visible widths 9, 9, 9, 5, 9.  The borders and separators span both
columns, but the data row only holds the one cell the row has. -/
theorem C20_table_short_row_is_narrower :
    (tableOf [js "A", js "B"] [[js "1"]]).map
        (fun out => (split NEWLINE out).map visibleLength) = some [9, 9, 9, 5, 9] ∧
    (tableOf [js "A", js "B"] [[js "1"]]).map (fun out => (split NEWLINE out).getD 3 [])
      = some (js "│ 1 │") := by
  decide

set_option maxRecDepth 100000 in
/-- C21 fails on the code: in `Table({headers: ["A","B","C"], rows:
[["1","2","3"], ["x"]]})` the column count is 3, but the row `["x"]` renders as
`│ x │`, one cell, not as `│ x │   │   │`: the missing trailing columns are not
rendered as empty cells. -/
theorem C21_short_row_has_fewer_cells :
    (tableOf [js "A", js "B", js "C"] [[js "1", js "2", js "3"], [js "x"]]).map
        (fun out => (split NEWLINE out).drop 3)
      = some [js "│ 1 │ 2 │ 3 │", js "├───┼───┼───┤", js "│ x │", js "└───┴───┴───┘"] ∧
    calculateColumnWidths (TableOptions.mk [js "A", js "B", js "C"]
        [[js "1", js "2", js "3"], [js "x"]] none 1 (js "single") (.str (js "cyan")) .absent
        (.single (js "left")) true) = [1, 1, 1] := by
  decide

set_option maxRecDepth 100000 in
/-- C23, as stated, fails: with the default `headerColor` (`cyan`) the header row
of the table is not the plain string `│ A │ BB │`; each header cell is wrapped
in the bold and cyan codes and a reset. -/
theorem C23_counterexample :
    (tableOf [js "A", js "BB"] [[js "1", js "22"]]).map (fun out => (split NEWLINE out).getD 1 [])
      ≠ some (js "│ A │ BB │") := by
  decide

set_option maxRecDepth 100000 in
/-- C23, amended: for `Table({headers: ["A","BB"], rows: [["1","22"]]})` with the
single border, padding 1 and every other option at its default, the column
widths are `[1, 2]`; the header row (second line) is
`│ESC[1mESC[36m A ESC[0m│ESC[1mESC[36m BB ESC[0m│`, whose visible text is
`│ A │ BB │`; and the border above, the header row and the separator below all
have visible width 10. -/
theorem C23_table_header_row :
    calculateColumnWidths (TableOptions.mk [js "A", js "BB"] [[js "1", js "22"]] none 1
        (js "single") (.str (js "cyan")) .absent (.single (js "left")) true) = [1, 2] ∧
    (tableOf [js "A", js "BB"] [[js "1", js "22"]]).map (fun out => (split NEWLINE out).take 3)
      = some [js "┌───┬────┐",
          js "│\x1b[1m\x1b[36m A \x1b[0m│\x1b[1m\x1b[36m BB \x1b[0m│",
          js "├───┼────┤"] ∧
    stripAnsi (js "│\x1b[1m\x1b[36m A \x1b[0m│\x1b[1m\x1b[36m BB \x1b[0m│") = js "│ A │ BB │" ∧
    [js "┌───┬────┐", js "│\x1b[1m\x1b[36m A \x1b[0m│\x1b[1m\x1b[36m BB \x1b[0m│",
      js "├───┼────┤"].map visibleLength = [10, 10, 10] := by
  decide

/-! ## Facts about `calculateColumnWidths` -/

theorem foldl_max_nat (a : Nat) (l : List Nat) : l.foldl max a = max a (l.foldl max 0) := by
  induction l generalizing a with
  | nil => simp
  | cons x xs ih =>
    simp only [List.foldl_cons]
    rw [ih (max a x), ih (max 0 x)]
    omega

theorem le_foldl_max_nat (a : Nat) (l : List Nat) :
    a ≤ l.foldl max a ∧ ∀ x ∈ l, x ≤ l.foldl max a := by
  induction l generalizing a with
  | nil => simp
  | cons x xs ih =>
    simp only [List.foldl_cons]
    have h := ih (max a x)
    refine ⟨by omega, ?_⟩
    intro y hy
    rcases List.mem_cons.1 hy with h1 | h1
    · rw [h1]; omega
    · exact h.2 y h1

theorem widthsAt_cons (r : List Str) (rows : List (List Str)) (i : Nat) :
    widthsAt (r :: rows) i = widthsAt [r] i ++ widthsAt rows i := by
  unfold widthsAt
  rw [List.filterMap_cons, List.filterMap_cons, List.filterMap_nil]
  cases r.get? i <;> simp

theorem widthsAt_append (a b : List (List Str)) (i : Nat) :
    widthsAt (a ++ b) i = widthsAt a i ++ widthsAt b i := by
  simp [widthsAt]

theorem widthsAt_nil (i : Nat) : widthsAt [] i = [] := rfl

theorem updateWidths_length (ws : List Int) (cells : List Str) (h : cells.length ≤ ws.length) :
    (updateWidths ws cells).length = ws.length := by
  induction ws generalizing cells with
  | nil =>
    cases cells with
    | nil => rfl
    | cons c cs => simp at h
  | cons w ws ih =>
    cases cells with
    | nil => rfl
    | cons c cs =>
      simp only [updateWidths, List.length_cons]
      rw [ih cs (by simpa using h)]

/-- One pass of `forEach` over a row raises each width to the width of the cell
in that column, where the row has one. -/
theorem updateWidths_getD (ws : List Int) (cells : List Str) (h : cells.length ≤ ws.length)
    (i : Nat) :
    (updateWidths ws cells).getD i 0 = (widthsAt [cells] i).foldl max (ws.getD i 0) := by
  induction ws generalizing cells i with
  | nil =>
    cases cells with
    | nil => simp [updateWidths, widthsAt]
    | cons c cs => simp at h
  | cons w ws ih =>
    cases cells with
    | nil => simp [updateWidths, widthsAt]
    | cons c cs =>
      cases i with
      | zero => simp [updateWidths, widthsAt]
      | succ i =>
        have h1 := ih cs (by simpa using h) i
        have h2 : widthsAt [c :: cs] (i + 1) = widthsAt [cs] i := by
          simp [widthsAt, List.filterMap_cons]
        have h3 : (w :: ws).getD (i + 1) 0 = ws.getD i 0 := rfl
        have h4 : (updateWidths (w :: ws) (c :: cs)).getD (i + 1) 0
            = (updateWidths ws cs).getD i 0 := rfl
        rw [h2, h3, h4, h1]

theorem foldl_updateWidths (rows : List (List Str)) (ws : List Int)
    (h : ∀ r ∈ rows, r.length ≤ ws.length) :
    (rows.foldl updateWidths ws).length = ws.length ∧
    ∀ i, (rows.foldl updateWidths ws).getD i 0 = (widthsAt rows i).foldl max (ws.getD i 0) := by
  induction rows generalizing ws with
  | nil => simp [widthsAt]
  | cons r rows ih =>
    have hr : r.length ≤ ws.length := h r (List.mem_cons_self _ _)
    have hlen := updateWidths_length ws r hr
    have h2 := ih (updateWidths ws r) (fun x hx => by
      rw [hlen]; exact h x (List.mem_cons_of_mem _ hx))
    simp only [List.foldl_cons]
    refine ⟨by rw [h2.1, hlen], fun i => ?_⟩
    rw [h2.2 i, updateWidths_getD ws r hr i, widthsAt_cons r rows i, List.foldl_append]

theorem columnCount_eq (headers : List Str) (rows : List (List Str)) :
    (rows.map (fun r => r.length)).foldl max headers.length
      = max headers.length (longestRow rows) := by
  rw [longestRow, foldl_max_nat]

/-- The width list computed without override. -/
theorem calculateColumnWidths_auto (o : TableOptions) (h : o.columnWidths = none) :
    (calculateColumnWidths o).length = max o.headers.length (longestRow o.rows) ∧
    ∀ i, (calculateColumnWidths o).getD i 0
      = columnMax ((if o.showHeaders then [o.headers] else []) ++ o.rows) i := by
  have hcols := le_foldl_max_nat o.headers.length (o.rows.map (fun r => r.length))
  have hrows : ∀ r ∈ o.rows, r.length
      ≤ (List.replicate ((o.rows.map (fun r => r.length)).foldl max o.headers.length)
          (0 : Int)).length := by
    intro r hr
    rw [List.length_replicate]
    exact hcols.2 _ (List.mem_map_of_mem _ hr)
  have hhead : o.headers.length
      ≤ (List.replicate ((o.rows.map (fun r => r.length)).foldl max o.headers.length)
          (0 : Int)).length := by
    rw [List.length_replicate]
    exact hcols.1
  have hrep : ∀ (n i : Nat), (List.replicate n (0 : Int)).getD i 0 = 0 := by
    intro n i
    rw [List.getD_eq_getElem?_getD]
    by_cases hi : i < n
    · simp [List.getElem?_replicate, hi]
    · simp [List.getElem?_replicate, hi]
  simp only [calculateColumnWidths, h]
  by_cases hs : o.showHeaders = true
  · simp only [hs, if_true]
    have hl := updateWidths_length _ o.headers hhead
    have h2 := foldl_updateWidths o.rows (updateWidths (List.replicate
      ((o.rows.map (fun r => r.length)).foldl max o.headers.length) 0) o.headers)
      (fun r hr => by rw [hl]; exact hrows r hr)
    refine ⟨by rw [h2.1, hl, List.length_replicate, columnCount_eq], fun i => ?_⟩
    rw [h2.2 i, updateWidths_getD _ _ hhead i, hrep, columnMax, List.singleton_append,
      widthsAt_cons o.headers o.rows, List.foldl_append]
  · simp only [hs, Bool.false_eq_true, if_false, List.nil_append]
    have h2 := foldl_updateWidths o.rows _ hrows
    refine ⟨by rw [h2.1, List.length_replicate, columnCount_eq], fun i => ?_⟩
    rw [h2.2 i, hrep, columnMax]

/-! ## Claims on `calculateColumnWidths` -/

/-- C22, as stated, fails when `showHeaders` is `false`: for
`Table({headers: ["LONG"], rows: [["1"]], showHeaders: false})` the computed
width of column 0 is 1, not the maximum 4 over the header and the cell. -/
theorem C22_counterexample :
    calculateColumnWidths (TableOptions.mk [js "LONG"] [[js "1"]] none 1 (js "single")
        (.str (js "cyan")) .absent (.single (js "left")) false) = [1] ∧
    columnMax ([js "LONG"] :: [[js "1"]]) 0 = 4 := by
  decide

/-- C22, amended: without a `columnWidths` override the computed width list has
length `max(headers.length, longest row length)` and, for every column `i`,
`widths[i]` is the maximum of `visibleLength` over header `i` (if there is one
and `showHeaders` is true) and every cell at index `i` of every row, 0 if there
is none; with an override, the override is returned unchanged. -/
theorem C22_column_widths (o : TableOptions) :
    (o.columnWidths = none →
      (calculateColumnWidths o).length = max o.headers.length (longestRow o.rows) ∧
      ∀ i, i < max o.headers.length (longestRow o.rows) →
        (calculateColumnWidths o).getD i 0
          = columnMax ((if o.showHeaders then [o.headers] else []) ++ o.rows) i) ∧
    (∀ ws, o.columnWidths = some ws → calculateColumnWidths o = ws) := by
  refine ⟨fun h => ⟨(calculateColumnWidths_auto o h).1,
    fun i _ => (calculateColumnWidths_auto o h).2 i⟩, fun ws h => ?_⟩
  simp [calculateColumnWidths, h]

set_option maxRecDepth 100000 in
/-- C22, amended, at headers `["Name", "N"]` and rows `[["ab"], ["c", "1234", "z"]]`:
three columns of widths 4, 4, 1. -/
theorem C22_column_widths_witness :
    (calculateColumnWidths (TableOptions.mk [js "Name", js "N"]
        [[js "ab"], [js "c", js "1234", js "z"]] none 1 (js "single") (.str (js "cyan")) .absent
        (.single (js "left")) true)).length = 3 ∧
    (calculateColumnWidths (TableOptions.mk [js "Name", js "N"]
        [[js "ab"], [js "c", js "1234", js "z"]] none 1 (js "single") (.str (js "cyan")) .absent
        (.single (js "left")) true)).getD 1 0 = 4 :=
  ⟨((C22_column_widths (TableOptions.mk [js "Name", js "N"]
        [[js "ab"], [js "c", js "1234", js "z"]] none 1 (js "single") (.str (js "cyan")) .absent
        (.single (js "left")) true)).1 rfl).1.trans (by decide),
   (((C22_column_widths (TableOptions.mk [js "Name", js "N"]
        [[js "ab"], [js "c", js "1234", js "z"]] none 1 (js "single") (.str (js "cyan")) .absent
        (.single (js "left")) true)).1 rfl).2 1 (by decide)).trans (by decide)⟩

/-! ## Facts about the lines of `Table` -/

theorem optMap_length {α β : Type} (f : α → Option β) (l : List α) (r : List β)
    (h : optMap f l = some r) : r.length = l.length := by
  induction l generalizing r with
  | nil =>
    simp [optMap] at h
    subst h
    rfl
  | cons x xs ih =>
    simp only [optMap, Option.bind_eq_some] at h
    obtain ⟨y, _, ys, hys, hr⟩ := h
    simp only [Option.some.injEq] at hr
    rw [← hr, List.length_cons, ih ys hys, List.length_cons]

theorem length_intersperse_add {α : Type} (s : α) (l : List α) :
    (l.intersperse s).length = l.length + (l.length - 1) := by
  induction l with
  | nil => rfl
  | cons x xs ih =>
    cases xs with
    | nil => rfl
    | cons y ys =>
      rw [List.intersperse_cons_cons, List.length_cons, List.length_cons, ih]
      simp
      omega

/-- The lines pushed by `rows.forEach`: the rendered rows, in order, with the
separator between consecutive rows. -/
theorem Table_dataLines_eq (o : TableOptions) (border : Option TableBorder) (widths : List Int)
    (rows : List (List Str)) (ls : List Str)
    (h : Table.dataLines o border widths rows = some ls) :
    ∃ dataRows, optMap (Table.dataRow o border widths) rows = some dataRows ∧
      ls = List.intersperse ((Table.separator o border widths).getD []) dataRows ∧
      (2 ≤ rows.length → (Table.separator o border widths).isSome = true) := by
  induction rows generalizing ls with
  | nil =>
    simp [Table.dataLines] at h
    subst h
    exact ⟨[], rfl, rfl, by simp⟩
  | cons row rest ih =>
    simp only [Table.dataLines, Option.bind_eq_some] at h
    obtain ⟨cells, hcells, dataRow, hrow, sep, hsep, more, hmore, hls⟩ := h
    simp only [Option.some.injEq] at hls
    obtain ⟨dataRows, hdr, hm, _⟩ := ih more hmore
    have hd : Table.dataRow o border widths row = some dataRow := by
      simp [Table.dataRow, hcells, hrow]
    refine ⟨dataRow :: dataRows, by simp [optMap, hd, hdr], ?_, ?_⟩
    · cases rest with
      | nil =>
        simp [optMap] at hdr
        simp at hsep
        subst hdr
        subst hsep
        rw [← hls, hm]
        rfl
      | cons r2 rest2 =>
        simp only [ne_eq, reduceCtorEq, not_false_eq_true, if_true, Option.bind_eq_some,
          Option.some.injEq] at hsep
        obtain ⟨rowSep, hrs, hsep2⟩ := hsep
        have hs : (Table.separator o border widths).getD [] = rowSep := by
          simp [Table.separator, hrs]
        have hlen := optMap_length _ _ _ hdr
        match dataRows, hlen with
        | d :: ds, _ =>
          rw [← hls, ← hsep2, hm, hs, List.intersperse_cons_cons]
          rfl
    · intro h2
      cases rest with
      | nil => simp at h2
      | cons r2 rest2 =>
        simp only [ne_eq, reduceCtorEq, not_false_eq_true, if_true, Option.bind_eq_some,
          Option.some.injEq] at hsep
        obtain ⟨rowSep, hrs, _⟩ := hsep
        simp [Table.separator, hrs]

/-- The function `build` of `Table`, in terms of its lines. -/
theorem Table_build_eq (o : TableOptions) :
    Table.build o =
      (Table.topLine o (Table.border o) (calculateColumnWidths o)).bind fun top =>
      (if Table.headerShown o = true then
          (Table.headerRow o (Table.border o) (calculateColumnWidths o)).bind fun hr =>
          (Table.separator o (Table.border o) (calculateColumnWidths o)).bind fun hs =>
          some [hr, hs]
        else some []).bind fun headerLines =>
      (Table.dataLines o (Table.border o) (calculateColumnWidths o) o.rows).bind fun dataLines =>
      (Table.bottomLine o (Table.border o) (calculateColumnWidths o)).bind fun bottom =>
      some (join [NEWLINE] ([top] ++ headerLines ++ dataLines ++ [bottom])) := by
  have hiff : (Table.headerShown o = true) ↔ (o.showHeaders = true ∧ o.headers.length > 0) := by
    simp [Table.headerShown]
  unfold Table.build Table.topLine Table.bottomLine Table.headerRow Table.separator Table.border
  by_cases hc : o.showHeaders = true ∧ o.headers.length > 0
  · simp only [if_pos hc, if_pos (hiff.2 hc), Option.bind_assoc]
  · simp only [if_neg hc, if_neg (fun h => hc (hiff.1 h))]

/-! ## Claims on the lines of `Table` -/

/-- C24: whenever `Table(spec).toString()` returns, its result is these lines
joined by newlines, in this order: the top border; the header row and the
header separator, exactly when `showHeaders` is true and there is a header;
the rendered data rows in input order with the separator line between each
consecutive pair and none after the last; the bottom border.  That is
`2 + (2 if the header is shown else 0) + r + (r - 1)` lines for `r` rows (`r - 1`
being 0 for no row), and splitting the result on newlines gives these lines back
when none of them holds a newline. -/
theorem C24_table_line_order (o : TableOptions) (out : Str) (h : Table.build o = some out) :
    ∃ top bottom sep headerLines dataRows,
      Table.topLine o (Table.border o) (calculateColumnWidths o) = some top ∧
      Table.bottomLine o (Table.border o) (calculateColumnWidths o) = some bottom ∧
      (if Table.headerShown o = true then
          ∃ hr, Table.headerRow o (Table.border o) (calculateColumnWidths o) = some hr ∧
            Table.separator o (Table.border o) (calculateColumnWidths o) = some sep ∧
            headerLines = [hr, sep]
        else headerLines = []) ∧
      optMap (Table.dataRow o (Table.border o) (calculateColumnWidths o)) o.rows
        = some dataRows ∧
      (2 ≤ o.rows.length →
        Table.separator o (Table.border o) (calculateColumnWidths o) = some sep) ∧
      out = join [NEWLINE] ([top] ++ headerLines ++ List.intersperse sep dataRows ++ [bottom]) ∧
      ([top] ++ headerLines ++ List.intersperse sep dataRows ++ [bottom]).length
        = 2 + (if Table.headerShown o = true then 2 else 0) + o.rows.length
            + (o.rows.length - 1) ∧
      ((∀ l ∈ [top] ++ headerLines ++ List.intersperse sep dataRows ++ [bottom], NEWLINE ∉ l) →
        split NEWLINE out = [top] ++ headerLines ++ List.intersperse sep dataRows ++ [bottom]) := by
  rw [Table_build_eq] at h
  simp only [Option.bind_eq_some] at h
  obtain ⟨top, htop, headerLines, hhead, dataLines, hdata, bottom, hbottom, hout⟩ := h
  simp only [Option.some.injEq] at hout
  obtain ⟨dataRows, hrows, hdl, hsep2⟩ := Table_dataLines_eq o _ _ o.rows dataLines hdata
  have hlenRows := optMap_length _ _ _ hrows
  refine ⟨top, bottom, (Table.separator o (Table.border o) (calculateColumnWidths o)).getD [],
    headerLines, dataRows, htop, hbottom, ?_, hrows, ?_, ?_, ?_, ?_⟩
  · by_cases hs : Table.headerShown o = true
    · rw [if_pos hs] at hhead ⊢
      simp only [Option.bind_eq_some, Option.some.injEq] at hhead
      obtain ⟨hr, hhr, hsp, hhsp, hl⟩ := hhead
      exact ⟨hr, hhr, by simp [hhsp], by simp [← hl, hhsp]⟩
    · rw [if_neg hs] at hhead ⊢
      simpa using hhead.symm
  · intro h2
    obtain ⟨s, hs⟩ := Option.isSome_iff_exists.1 (hsep2 h2)
    simp [hs]
  · rw [← hout, hdl]
  · have hh : headerLines.length = if Table.headerShown o = true then 2 else 0 := by
      by_cases hs : Table.headerShown o = true
      · rw [if_pos hs] at hhead ⊢
        simp only [Option.bind_eq_some, Option.some.injEq] at hhead
        obtain ⟨hr, _, hsp, _, hl⟩ := hhead
        rw [← hl]
        rfl
      · rw [if_neg hs] at hhead ⊢
        simp at hhead
        rw [hhead]
        rfl
    simp only [List.length_append, List.length_singleton, length_intersperse_add, hh, hlenRows]
    omega
  · intro hclean
    rw [← hout, hdl]
    exact split_join_clean NEWLINE _ (by simp) hclean

set_option maxRecDepth 100000 in
/-- C24 at `Table({headers: ["A"], rows: [["1"], ["2"], ["3"]]})`: nine lines. -/
theorem C24_table_line_order_witness :
    ∃ lines out, tableOf [js "A"] [[js "1"], [js "2"], [js "3"]] = some out ∧
      out = join [NEWLINE] lines ∧ lines.length = 9 := by
  have hb : tableOf [js "A"] [[js "1"], [js "2"], [js "3"]]
      = some (js "┌───┐\n│\x1b[1m\x1b[36m A \x1b[0m│\n├───┤\n│ 1 │\n├───┤\n│ 2 │\n├───┤\n│ 3 │\n└───┘") := by
    decide
  obtain ⟨top, bottom, sep, headerLines, dataRows, _, _, _, _, _, hout, hlen, _⟩ :=
    C24_table_line_order _ _ hb
  exact ⟨_, _, hb, hout, by rw [hlen]; decide⟩

/-! ## Facts about colours that are not objects -/

theorem colorCode_some (hexFn : Str → Str) (table : List (Str × Str)) (c : ColorSpec)
    (h : c.isObject = false) : ∃ cd, colorCode hexFn table c = some cd := by
  cases c with
  | absent => exact ⟨[], rfl⟩
  | obj r g b => simp [ColorSpec.isObject] at h
  | str s =>
    by_cases h1 : s = []
    · simp [colorCode, h1]
    · by_cases h2 : s.head? = some 35
      · simp [colorCode, h1, h2]
      · simp [colorCode, h1, h2]

/-- With a colour that is not an object, `Text({ text, color }).toString()`
returns. -/
theorem textWithColor_some (text : Str) (c : ColorSpec) (h : c.isObject = false) :
    ∃ out, textWithColor text c = some out := by
  obtain ⟨cd, hcd⟩ := colorCode_some hex ANSI.fg c h
  exact ⟨_, by rw [textWithColor, Text_build_eq, hcd]; rfl⟩

/-! ## Facts about rounding to a double -/

theorem floor_le_roundHalfEven (q : ℚ) : ⌊q⌋ ≤ roundHalfEven q := by
  unfold roundHalfEven
  split_ifs <;> omega

theorem roundHalfEven_le_floor_add_one (q : ℚ) : roundHalfEven q ≤ ⌊q⌋ + 1 := by
  unfold roundHalfEven
  split_ifs <;> omega

theorem roundHalfEven_intCast (n : ℤ) : roundHalfEven (n : ℚ) = n := by
  unfold roundHalfEven
  simp

theorem le_roundHalfEven (n : ℤ) (q : ℚ) (h : (n : ℚ) ≤ q) : n ≤ roundHalfEven q :=
  le_trans (Int.le_floor.2 h) (floor_le_roundHalfEven q)

theorem roundHalfEven_le (n : ℤ) (q : ℚ) (h : q ≤ (n : ℚ)) : roundHalfEven q ≤ n := by
  rcases eq_or_lt_of_le h with h1 | h1
  · rw [h1, roundHalfEven_intCast]
  · have h2 : ⌊q⌋ < n := Int.floor_lt.2 h1
    have h3 := roundHalfEven_le_floor_add_one q
    omega

theorem roundHalfEven_eq (q : ℚ) (m : ℤ) (h1 : (m : ℚ) - 1 / 2 < q) (h2 : q < (m : ℚ) + 1 / 2) :
    roundHalfEven q = m := by
  have hf1 : ((⌊q⌋ : ℤ) : ℚ) ≤ q := Int.floor_le q
  have hf2 : q < ((⌊q⌋ : ℤ) : ℚ) + 1 := Int.lt_floor_add_one q
  unfold roundHalfEven
  split_ifs with c1 c2 c3
  · have a1 : (m : ℚ) < ((⌊q⌋ + 1 : ℤ) : ℚ) := by push_cast; linarith
    have a2 : ((⌊q⌋ : ℤ) : ℚ) < ((m + 1 : ℤ) : ℚ) := by push_cast; linarith
    have b1 := Int.cast_lt.1 a1
    have b2 := Int.cast_lt.1 a2
    omega
  · have a1 : (m : ℚ) < ((⌊q⌋ + 2 : ℤ) : ℚ) := by push_cast; linarith
    have a2 : ((⌊q⌋ : ℤ) : ℚ) < ((m : ℤ) : ℚ) := by linarith
    have b1 := Int.cast_lt.1 a1
    have b2 := Int.cast_lt.1 a2
    omega
  · exfalso
    have a1 : (m : ℚ) < ((⌊q⌋ + 1 : ℤ) : ℚ) := by push_cast; linarith
    have a2 : ((⌊q⌋ : ℤ) : ℚ) < ((m : ℤ) : ℚ) := by linarith
    have b1 := Int.cast_lt.1 a1
    have b2 := Int.cast_lt.1 a2
    omega
  · exfalso
    have a1 : (m : ℚ) < ((⌊q⌋ + 1 : ℤ) : ℚ) := by push_cast; linarith
    have a2 : ((⌊q⌋ : ℤ) : ℚ) < ((m : ℤ) : ℚ) := by linarith
    have b1 := Int.cast_lt.1 a1
    have b2 := Int.cast_lt.1 a2
    omega

theorem roundHalfEven_half_odd (f : ℤ) (hodd : f % 2 = 1) :
    roundHalfEven ((f : ℚ) + 1 / 2) = f + 1 := by
  have hfl : ⌊(f : ℚ) + 1 / 2⌋ = f := by
    rw [Int.floor_eq_iff]
    constructor <;> linarith
  unfold roundHalfEven
  rw [hfl]
  have h1 : ¬ ((f : ℚ) + 1 / 2 - (f : ℚ) < 1 / 2) := by
    rw [add_sub_cancel_left]
    exact lt_irrefl _
  have h2 : ¬ (1 / 2 < (f : ℚ) + 1 / 2 - (f : ℚ)) := by
    rw [add_sub_cancel_left]
    exact lt_irrefl _
  have h3 : ¬ (f % 2 = 0) := by omega
  rw [if_neg h1, if_neg h2, if_neg h3]

theorem log_eq_of_bounds (q : ℚ) (e : ℤ) (h1 : (2 : ℚ) ^ e ≤ q) (h2 : q < (2 : ℚ) ^ (e + 1)) :
    Int.log 2 q = e := by
  have hq : 0 < q := lt_of_lt_of_le (zpow_pos (by norm_num) e) h1
  have a1 : e ≤ Int.log 2 q := (Int.zpow_le_iff_le_log (by norm_num) hq).1 (by exact_mod_cast h1)
  have a2 : Int.log 2 q < e + 1 := (Int.lt_zpow_iff_log_lt (by norm_num) hq).1 (by exact_mod_cast h2)
  omega

theorem ulp_eq (q : ℚ) (e : ℤ) (h1 : (2 : ℚ) ^ e ≤ |q|) (h2 : |q| < (2 : ℚ) ^ (e + 1))
    (he : -1022 ≤ e) : ulp q = (2 : ℚ) ^ (e - 52) := by
  unfold ulp
  rw [log_eq_of_bounds |q| e h1 h2, max_eq_left he]

/-- The double of `q`, from its binary exponent `e` and the integer `m` nearest to
`q / 2 ^ (e - 52)`. -/
theorem rnd_eq (q : ℚ) (e m : ℤ) (h1 : (2 : ℚ) ^ e ≤ |q|) (h2 : |q| < (2 : ℚ) ^ (e + 1))
    (he : -1022 ≤ e) (hm1 : (m : ℚ) - 1 / 2 < q / (2 : ℚ) ^ (e - 52))
    (hm2 : q / (2 : ℚ) ^ (e - 52) < (m : ℚ) + 1 / 2)
    (hov : |(m : ℚ) * (2 : ℚ) ^ (e - 52)| < (2 : ℚ) ^ (1024 : Nat)) :
    rnd q = .fin ((m : ℚ) * (2 : ℚ) ^ (e - 52)) := by
  unfold rnd
  rw [ulp_eq q e h1 h2 he, roundHalfEven_eq _ m hm1 hm2, if_neg (not_le.2 hov)]

/-- The double of a positive `q`, as `rnd_eq` gives it, for a value stated as a fraction. -/
theorem rnd_eval (q v : ℚ) (e m : ℤ) (h1 : (2 : ℚ) ^ e ≤ q) (h2 : q < (2 : ℚ) ^ (e + 1))
    (he : -1022 ≤ e) (hm1 : (m : ℚ) - 1 / 2 < q / (2 : ℚ) ^ (e - 52))
    (hm2 : q / (2 : ℚ) ^ (e - 52) < (m : ℚ) + 1 / 2)
    (hv : v = (m : ℚ) * (2 : ℚ) ^ (e - 52)) (h0 : 0 ≤ v) (hov : v < (2 : ℚ) ^ (1024 : Nat)) :
    rnd q = .fin v := by
  have hq : 0 < q := lt_of_lt_of_le (zpow_pos (by norm_num) e) h1
  rw [hv]
  apply rnd_eq q e m (by rw [abs_of_pos hq]; exact h1) (by rw [abs_of_pos hq]; exact h2) he hm1 hm2
  rw [← hv, abs_of_nonneg h0]
  exact hov

theorem ulp_small (q : ℚ) (h : |q| < (2 : ℚ) ^ (53 : Nat)) :
    ∃ k : ℕ, ulp q = ((2 : ℚ) ^ k)⁻¹ := by
  have hlog : Int.log 2 |q| < 53 := by
    rcases eq_or_lt_of_le (abs_nonneg q) with h0 | h0
    · rw [← h0, Int.log_zero_right]
      norm_num
    · exact (Int.lt_zpow_iff_log_lt (by norm_num) h0).1 (by exact_mod_cast h)
  have hz : max (Int.log 2 |q|) (-1022) - 52 ≤ 0 := by
    have := max_le (le_of_lt hlog) (by norm_num : (-1022 : ℤ) ≤ 53)
    omega
  refine ⟨(-(max (Int.log 2 |q|) (-1022) - 52)).toNat, ?_⟩
  unfold ulp
  rw [← zpow_natCast, ← zpow_neg, Int.toNat_of_nonneg (by omega), neg_neg]

/-- Rounding keeps a value between two integers below `2 ^ 53` between them. -/
theorem rnd_between (q : ℚ) (a b : ℤ) (ha : |a| < 2 ^ 53) (hb : |b| < 2 ^ 53)
    (haq : (a : ℚ) ≤ q) (hqb : q ≤ (b : ℚ)) :
    ∃ r : ℚ, rnd q = .fin r ∧ (a : ℚ) ≤ r ∧ r ≤ (b : ℚ) := by
  have ha2 : |(a : ℚ)| < (2 : ℚ) ^ (53 : Nat) := by exact_mod_cast ha
  have hb2 : |(b : ℚ)| < (2 : ℚ) ^ (53 : Nat) := by exact_mod_cast hb
  have hq : |q| < (2 : ℚ) ^ (53 : Nat) := by
    rw [abs_lt] at ha2 hb2 ⊢
    exact ⟨by linarith [ha2.1], by linarith [hb2.2]⟩
  obtain ⟨k, hk⟩ := ulp_small q hq
  have hpos : (0 : ℚ) < (2 : ℚ) ^ k := pow_pos (by norm_num) k
  have hdiv : q / ulp q = q * (2 : ℚ) ^ k := by rw [hk, div_inv_eq_mul]
  have h1 : a * 2 ^ k ≤ roundHalfEven (q / ulp q) := by
    apply le_roundHalfEven
    rw [hdiv]
    push_cast
    exact mul_le_mul_of_nonneg_right haq (le_of_lt hpos)
  have h2 : roundHalfEven (q / ulp q) ≤ b * 2 ^ k := by
    apply roundHalfEven_le
    rw [hdiv]
    push_cast
    exact mul_le_mul_of_nonneg_right hqb (le_of_lt hpos)
  have h5 : ∀ m : ℤ, a * 2 ^ k ≤ m → m ≤ b * 2 ^ k →
      (a : ℚ) ≤ (m : ℚ) * ulp q ∧ (m : ℚ) * ulp q ≤ (b : ℚ) := by
    intro m hm1 hm2
    rw [hk, ← div_eq_mul_inv, le_div_iff₀ hpos, div_le_iff₀ hpos]
    exact ⟨by exact_mod_cast hm1, by exact_mod_cast hm2⟩
  obtain ⟨h3, h4⟩ := h5 _ h1 h2
  have h6 : ¬ (2 : ℚ) ^ (1024 : Nat) ≤ |(roundHalfEven (q / ulp q) : ℚ) * ulp q| := by
    rw [not_le]
    have : (2 : ℚ) ^ (53 : Nat) ≤ (2 : ℚ) ^ (1024 : Nat) :=
      pow_le_pow_right₀ (by norm_num) (by norm_num)
    rw [abs_lt] at ha2 hb2 ⊢
    exact ⟨by linarith [ha2.1], by linarith [hb2.2]⟩
  exact ⟨_, by unfold rnd; rw [if_neg h6], h3, h4⟩

/-- An integer below `2 ^ 53` is a double: rounding leaves it as it is. -/
theorem rnd_intCast (n : ℤ) (h : |n| < 2 ^ 53) : rnd (n : ℚ) = .fin (n : ℚ) := by
  obtain ⟨r, hr, h1, h2⟩ := rnd_between (n : ℚ) n n h h le_rfl le_rfl
  rw [hr, le_antisymm h2 h1]

theorem rnd_zero : rnd 0 = .fin 0 := by
  have h := rnd_intCast 0 (by norm_num)
  simpa using h

theorem rnd_ne_nan (q : ℚ) : rnd q ≠ .nan := by
  unfold rnd
  split_ifs <;> exact fun h => Num.noConfusion h

/-! ## Facts about `ProgressBar` -/

theorem clamp_fin (t : ℚ) (ht : 0 ≤ t) (v : Num) (hv : v ≠ .nan) :
    ∃ c : ℚ, Math.min (.fin t) (Math.max (.fin 0) v) = .fin c ∧ 0 ≤ c ∧ c ≤ t := by
  cases v with
  | nan => exact absurd rfl hv
  | inf a =>
    cases a
    · exact ⟨t, by simp [Math.max, Math.min], ht, le_rfl⟩
    · exact ⟨0, by simp [Math.max, Math.min, ht], le_rfl, ht⟩
  | fin x =>
    exact ⟨Min.min t (Max.max 0 x), by simp [Math.max, Math.min],
      le_min ht (le_max_left 0 x), min_le_left _ _⟩

theorem div_ne_nan (x : Num) (t : ℚ) (hx : x ≠ .nan) (ht : t ≠ 0) :
    Num.div x (.fin t) ≠ .nan := by
  cases x with
  | nan => exact absurd rfl hx
  | inf a => simp [Num.div]
  | fin c =>
    simp only [Num.div, if_neg ht]
    exact rnd_ne_nan _

theorem mul_ne_nan (x : Num) (t : ℚ) (hx : x ≠ .nan) (ht : t ≠ 0) :
    Num.mul x (.fin t) ≠ .nan := by
  cases x with
  | nan => exact absurd rfl hx
  | inf a => simp [Num.mul, ht]
  | fin c =>
    simp only [Num.mul]
    exact rnd_ne_nan _

theorem mul_nan_right (x : Num) : Num.mul x .nan = .nan := by
  cases x <;> rfl

theorem add_nan_right (x : Num) : Num.add x .nan = .nan := by
  cases x <;> rfl

theorem ProgressBar_percentage_fin (p : ProgressBar) (t : ℚ) (ht : p.options.total = .fin t)
    (htpos : 0 < t) (hc : p.current ≠ .nan) :
    ∃ q : ℚ, p.percentage = .fin q ∧ 0 ≤ q ∧ q ≤ 100 := by
  unfold ProgressBar.percentage
  rw [ht]
  exact clamp_fin 100 (by norm_num) _
    (mul_ne_nan _ 100 (div_ne_nan _ t hc (ne_of_gt htpos)) (by norm_num))

/-- With a percentage between 0 and 100, `filled` is an integer between 0 and
`width`, and `empty` is `width - filled`. -/
theorem filled_of_percentage (w : ℤ) (q : ℚ) (hw0 : 0 ≤ w) (hw1 : w < 2 ^ 46) (hq0 : 0 ≤ q)
    (hq1 : q ≤ 100) :
    ∃ f : ℕ, (f : ℤ) ≤ w ∧
      Math.round (Num.div (Num.mul (.fin (w : ℚ)) (.fin q)) (.fin 100)) = .fin (f : ℚ) ∧
      Num.sub (.fin (w : ℚ)) (.fin (f : ℚ)) = .fin ((w - f : ℤ) : ℚ) := by
  have hwq : (0 : ℚ) ≤ (w : ℚ) := by exact_mod_cast hw0
  obtain ⟨r, hr, hr0, hr1⟩ := rnd_between ((w : ℚ) * q) 0 (w * 100)
    (by norm_num) (by rw [abs_lt]; constructor <;> omega)
    (by push_cast; exact mul_nonneg hwq hq0)
    (by push_cast; exact mul_le_mul_of_nonneg_left hq1 hwq)
  obtain ⟨s, hs, hs0, hs1⟩ := rnd_between (r / 100) 0 w
    (by norm_num) (by rw [abs_lt]; constructor <;> omega)
    (by push_cast; exact div_nonneg (by exact_mod_cast hr0) (by norm_num))
    (by rw [div_le_iff₀ (by norm_num)]; exact_mod_cast hr1)
  have hs0q : (0 : ℚ) ≤ s := by exact_mod_cast hs0
  have hf0 : 0 ≤ ⌊s + 1 / 2⌋ := Int.floor_nonneg.2 (by linarith)
  have hf1 : ⌊s + 1 / 2⌋ ≤ w := by
    have : ⌊s + 1 / 2⌋ < w + 1 := Int.floor_lt.2 (by push_cast; linarith)
    omega
  refine ⟨⌊s + 1 / 2⌋.toNat, by rw [Int.toNat_of_nonneg hf0]; exact hf1, ?_, ?_⟩
  · simp only [Num.mul, hr, Num.div]
    rw [if_neg (by norm_num), hs]
    simp only [Math.round]
    congr 1
    have : ((⌊s + 1 / 2⌋.toNat : ℤ) : ℚ) = ((⌊s + 1 / 2⌋ : ℤ) : ℚ) := by
      rw [Int.toNat_of_nonneg hf0]
    exact_mod_cast this.symm
  · simp only [Num.sub, Num.neg, Num.add]
    have h := rnd_intCast (w - (⌊s + 1 / 2⌋.toNat : ℤ)) (by
      rw [abs_lt, Int.toNat_of_nonneg hf0]; constructor <;> omega)
    rw [← h]
    congr 1
    push_cast
    ring

theorem repeatNum_intCast (s : Str) (n : ℤ) (h : 0 ≤ n) :
    repeatNum s (.fin (n : ℚ)) = some (strRepeat s n.toNat) := by
  have h1 : (0 : ℚ) ≤ (n : ℚ) := by exact_mod_cast h
  simp only [repeatNum, if_pos h1, Int.floor_intCast, jsRepeat, if_neg (not_lt.2 h)]

theorem repeatNum_natCast (s : Str) (n : ℕ) :
    repeatNum s (.fin (n : ℚ)) = some (strRepeat s n) := by
  have h := repeatNum_intCast s (n : ℤ) (Int.natCast_nonneg n)
  simpa using h

/-- The string `output` of `render`, from the two repeated glyphs and their texts. -/
theorem ProgressBar_output_eq (fmt : ℚ → Str) (p : ProgressBar) (cs is a b : Str)
    (h1 : repeatNum p.options.complete p.filled = some cs)
    (h2 : textWithColor cs p.options.completeColor = some a)
    (h3 : repeatNum p.options.incomplete p.empty = some is)
    (h4 : textWithColor is p.options.incompleteColor = some b) :
    p.output fmt = some (js "[" ++ a ++ b ++ js "]" ++ p.suffix fmt) := by
  unfold ProgressBar.output ProgressBar.suffix
  simp only [h1, h2, h3, h4, Option.some_bind]
  by_cases hp : p.options.showPercentage = true <;> by_cases hv : p.options.showValue = true <;>
    simp [hp, hv]

/-- For a finite positive `total` and a `current` that is not `NaN`, the bar is
`f` complete glyphs and `width - f` incomplete ones for the integer `f = filled`. -/
theorem ProgressBar_bar (fmt : ℚ → Str) (p : ProgressBar) (t : ℚ) (w : ℤ)
    (ht : p.options.total = .fin t) (htpos : 0 < t) (hw : p.options.width = .fin (w : ℚ))
    (hw0 : 0 ≤ w) (hw1 : w < 2 ^ 46) (hc : p.current ≠ .nan)
    (hcc : p.options.completeColor.isObject = false)
    (hic : p.options.incompleteColor.isObject = false) :
    ∃ f : ℕ, (f : ℤ) ≤ w ∧ p.filled = .fin (f : ℚ) ∧ p.empty = .fin ((w - f : ℤ) : ℚ) ∧
      ∃ a b : Str,
        textWithColor (strRepeat p.options.complete f) p.options.completeColor = some a ∧
        textWithColor (strRepeat p.options.incomplete (w - f).toNat) p.options.incompleteColor
          = some b ∧
        p.output fmt = some (js "[" ++ a ++ b ++ js "]" ++ p.suffix fmt) := by
  obtain ⟨q, hq, hq0, hq1⟩ := ProgressBar_percentage_fin p t ht htpos hc
  obtain ⟨f, hf, hfilled, hempty⟩ := filled_of_percentage w q hw0 hw1 hq0 hq1
  have h1 : p.filled = .fin (f : ℚ) := by
    unfold ProgressBar.filled
    rw [hw, hq, hfilled]
  have h2 : p.empty = .fin ((w - f : ℤ) : ℚ) := by
    unfold ProgressBar.empty
    rw [hw, h1, hempty]
  obtain ⟨a, ha⟩ := textWithColor_some (strRepeat p.options.complete f)
    p.options.completeColor hcc
  obtain ⟨b, hb⟩ := textWithColor_some (strRepeat p.options.incomplete (w - f).toNat)
    p.options.incompleteColor hic
  refine ⟨f, hf, h1, h2, a, b, ha, hb, ?_⟩
  exact ProgressBar_output_eq fmt p _ _ a b (by rw [h1]; exact repeatNum_natCast _ f) ha
    (by rw [h2]; exact repeatNum_intCast _ _ (by omega)) hb

/-- At `current == total` the whole bar is filled. -/
theorem ProgressBar_filled_full (p : ProgressBar) (t : ℚ) (w : ℤ)
    (ht : p.options.total = .fin t) (htpos : 0 < t) (hw : p.options.width = .fin (w : ℚ))
    (hw0 : 0 ≤ w) (hw1 : w < 2 ^ 46) (hc : p.current = p.options.total) :
    p.filled = .fin (w : ℚ) := by
  have h1 : rnd (1 : ℚ) = .fin 1 := by
    have h := rnd_intCast 1 (by norm_num)
    simpa using h
  have h100 : rnd (100 : ℚ) = .fin 100 := by
    have h := rnd_intCast 100 (by norm_num)
    simpa using h
  have hw100 : rnd ((w : ℚ) * 100) = .fin ((w : ℚ) * 100) := by
    have h := rnd_intCast (w * 100) (by rw [abs_lt]; constructor <;> omega)
    simpa using h
  have hww : rnd (w : ℚ) = .fin (w : ℚ) :=
    rnd_intCast w (by rw [abs_lt]; constructor <;> omega)
  have hp : p.percentage = .fin 100 := by
    unfold ProgressBar.percentage
    rw [hc, ht]
    simp only [Num.div, if_neg (ne_of_gt htpos), div_self (ne_of_gt htpos), h1, Num.mul, one_mul,
      h100, Math.max, Math.min]
    norm_num
  unfold ProgressBar.filled
  rw [hw, hp]
  simp only [Num.mul, hw100, Num.div]
  rw [if_neg (by norm_num), mul_div_cancel_right₀ _ (by norm_num : (100 : ℚ) ≠ 0), hww]
  simp only [Math.round]
  congr 1
  have : ⌊(w : ℚ) + 1 / 2⌋ = w := by
    rw [Int.floor_eq_iff]
    constructor <;> linarith
  rw [this]

/-- At `current == 0` nothing is filled. -/
theorem ProgressBar_filled_zero (p : ProgressBar) (t : ℚ) (w : ℤ)
    (ht : p.options.total = .fin t) (htpos : 0 < t) (hw : p.options.width = .fin (w : ℚ))
    (hc : p.current = .fin 0) :
    p.filled = .fin 0 := by
  have hp : p.percentage = .fin 0 := by
    unfold ProgressBar.percentage
    rw [hc, ht]
    simp only [Num.div, if_neg (ne_of_gt htpos), zero_div, rnd_zero, Num.mul, zero_mul,
      Math.max, Math.min]
    norm_num
  unfold ProgressBar.filled
  rw [hw, hp]
  simp only [Num.mul, mul_zero, rnd_zero, Num.div]
  rw [if_neg (by norm_num), zero_div, rnd_zero]
  simp only [Math.round]
  congr 1
  norm_num

theorem ProgressBar_output_of_nan (fmt : ℚ → Str) (p : ProgressBar)
    (hp : p.percentage = .nan)
    (hcc : p.options.completeColor.isObject = false)
    (hic : p.options.incompleteColor.isObject = false) :
    ∃ out, p.output fmt = some out := by
  have hf : p.filled = .nan := by
    unfold ProgressBar.filled
    rw [hp, mul_nan_right]
    rfl
  have he : p.empty = .nan := by
    unfold ProgressBar.empty
    rw [hf]
    unfold Num.sub
    exact add_nan_right _
  obtain ⟨a, ha⟩ := textWithColor_some (strRepeat p.options.complete 0)
    p.options.completeColor hcc
  obtain ⟨b, hb⟩ := textWithColor_some (strRepeat p.options.incomplete 0)
    p.options.incompleteColor hic
  exact ⟨_, ProgressBar_output_eq fmt p _ _ a b (by rw [hf]; rfl) ha (by rw [he]; rfl) hb⟩

/-- The string `output` exists when `current` is between 0 and a finite `total`. -/
theorem ProgressBar_output_some (fmt : ℚ → Str) (p : ProgressBar) (t c : ℚ) (w : ℤ)
    (ht : p.options.total = .fin t) (ht0 : 0 ≤ t) (hw : p.options.width = .fin (w : ℚ))
    (hw0 : 0 ≤ w) (hw1 : w < 2 ^ 46) (hc : p.current = .fin c) (hc0 : 0 ≤ c) (hc1 : c ≤ t)
    (hcc : p.options.completeColor.isObject = false)
    (hic : p.options.incompleteColor.isObject = false) :
    ∃ out, p.output fmt = some out := by
  rcases eq_or_lt_of_le ht0 with h0 | hpos
  · have hc2 : c = 0 := le_antisymm (by rw [h0]; exact hc1) hc0
    apply ProgressBar_output_of_nan fmt p _ hcc hic
    unfold ProgressBar.percentage
    rw [hc, ht, hc2, ← h0]
    simp [Num.div, Num.mul, Math.max, Math.min]
  · obtain ⟨f, _, _, _, a, b, _, _, hout⟩ := ProgressBar_bar fmt p t w ht hpos hw hw0 hw1
      (by rw [hc]; exact fun h => Num.noConfusion h) hcc hic
    exact ⟨_, hout⟩

theorem ProgressBar_render_ready (fmt : ℚ → Str) (p : ProgressBar) (t : ℚ) (w : ℤ)
    (h : p.Ready t w) : ∃ r, p.render fmt = some r ∧ r.Ready t w ∧ r.current = p.current := by
  obtain ⟨ht, ht0, hw, hw0, hw1, hcc, hic, c, hc, hc0, hc1⟩ := h
  obtain ⟨out, hout⟩ := ProgressBar_output_some fmt p t c w ht ht0 hw hw0 hw1 hc hc0 hc1 hcc hic
  exact ⟨ProgressBar.mk p.options p.current (write (clearLine p.term) out),
    by simp only [ProgressBar.render, hout, Option.some_bind],
    ⟨ht, ht0, hw, hw0, hw1, hcc, hic, c, hc, hc0, hc1⟩, rfl⟩

theorem ProgressBar_update_ready (fmt : ℚ → Str) (p : ProgressBar) (t : ℚ) (w : ℤ)
    (h : p.Ready t w) (v : Num) (hv : v ≠ .nan) :
    ∃ r, p.update fmt v = some r ∧ r.Ready t w := by
  obtain ⟨ht, ht0, hw, hw0, hw1, hcc, hic, _⟩ := h
  obtain ⟨c, hc, hc0, hc1⟩ := clamp_fin t ht0 v hv
  obtain ⟨r, hr, hready, _⟩ := ProgressBar_render_ready fmt
    (ProgressBar.mk p.options (Math.min p.options.total (Math.max (.fin 0) v)) p.term) t w
    ⟨ht, ht0, hw, hw0, hw1, hcc, hic, c, by rw [ht]; exact hc, hc0, hc1⟩
  exact ⟨r, hr, hready⟩

/-- A call whose argument is not `NaN` returns and keeps `current` between 0 and
`total`. -/
theorem ProgressBar_call_ready (fmt : ℚ → Str) (p : ProgressBar) (t : ℚ) (w : ℤ)
    (h : p.Ready t w) (call : ProgressCall) (harg : call.argIsNumber = true) :
    ∃ r, p.call fmt call = some r ∧ r.Ready t w := by
  cases call with
  | update v =>
    exact ProgressBar_update_ready fmt p t w h v (of_decide_eq_true harg)
  | increment amount =>
    obtain ⟨c, hc, _, _⟩ := h.2.2.2.2.2.2.2
    apply ProgressBar_update_ready fmt p t w h
    rw [hc]
    cases amount with
    | none => exact rnd_ne_nan _
    | some n =>
      cases n with
      | nan => exact absurd harg (by simp [ProgressCall.argIsNumber])
      | inf a => exact fun e => Num.noConfusion e
      | fin x => exact rnd_ne_nan _
  | complete =>
    obtain ⟨ht, ht0, hw, hw0, hw1, hcc, hic, _⟩ := h
    obtain ⟨r, hr, hready, _⟩ := ProgressBar_render_ready fmt
      (ProgressBar.mk p.options p.options.total p.term) t w
      ⟨ht, ht0, hw, hw0, hw1, hcc, hic, t, ht, ht0, le_rfl⟩
    obtain ⟨ht2, ht02, hw2, hw02, hw12, hcc2, hic2, hcur⟩ := hready
    exact ⟨ProgressBar.mk r.options r.current (showCursor (write r.term [NEWLINE])),
      by simp only [ProgressBar.call, ProgressBar.complete, hr, Option.some_bind],
      ⟨ht2, ht02, hw2, hw02, hw12, hcc2, hic2, hcur⟩⟩

theorem ProgressBar_run_ready (fmt : ℚ → Str) (t : ℚ) (w : ℤ) (calls : List ProgressCall)
    (hargs : ∀ call ∈ calls, call.argIsNumber = true) (p : ProgressBar) (h : p.Ready t w) :
    ∃ r, p.run fmt calls = some r ∧ r.Ready t w := by
  induction calls generalizing p with
  | nil => exact ⟨p, rfl, h⟩
  | cons call rest ih =>
    obtain ⟨r, hr, hready⟩ := ProgressBar_call_ready fmt p t w h call
      (hargs call (List.mem_cons_self _ _))
    obtain ⟨r2, hr2, hready2⟩ := ih (fun c hc => hargs c (List.mem_cons_of_mem _ hc)) r hready
    exact ⟨r2, by simp only [ProgressBar.run, hr, Option.some_bind, hr2], hready2⟩

/-! ## The bar at `current` 23, `total` 80, `width` 40 -/

theorem div_23_80 : Num.div (.fin 23) (.fin 80) = .fin (2589569785738035 / 9007199254740992) := by
  simp only [Num.div]
  rw [if_neg (by norm_num)]
  exact rnd_eval _ _ (-2) 5179139571476070 (by norm_num) (by norm_num) (by norm_num)
    (by norm_num) (by norm_num) (by norm_num) (by norm_num) (by norm_num)

theorem mul_100_of_div_23_80 :
    Num.mul (.fin (2589569785738035 / 9007199254740992)) (.fin 100)
      = .fin (8092405580431359 / 281474976710656) := by
  simp only [Num.mul]
  exact rnd_eval _ _ 4 8092405580431359 (by norm_num) (by norm_num) (by norm_num)
    (by norm_num) (by norm_num) (by norm_num) (by norm_num) (by norm_num)

theorem mul_40_of_percentage :
    Num.mul (.fin 40) (.fin (8092405580431359 / 281474976710656))
      = .fin (5057753487769599 / 4398046511104) := by
  simp only [Num.mul]
  exact rnd_eval _ _ 10 5057753487769599 (by norm_num) (by norm_num) (by norm_num)
    (by norm_num) (by norm_num) (by norm_num) (by norm_num) (by norm_num)

theorem div_100_of_product :
    Num.div (.fin (5057753487769599 / 4398046511104)) (.fin 100)
      = .fin (6473924464345087 / 562949953421312) := by
  simp only [Num.div]
  rw [if_neg (by norm_num)]
  exact rnd_eval _ _ 3 6473924464345087 (by norm_num) (by norm_num) (by norm_num)
    (by norm_num) (by norm_num) (by norm_num) (by norm_num) (by norm_num)

theorem mul_40_of_div_23_80 :
    Num.mul (.fin 40) (.fin (2589569785738035 / 9007199254740992)) = .fin (23 / 2) := by
  have hu : ulp (40 * (2589569785738035 / 9007199254740992)) = (2 : ℚ) ^ ((3 : ℤ) - 52) :=
    ulp_eq _ 3 (by rw [abs_of_pos (by norm_num)]; norm_num)
      (by rw [abs_of_pos (by norm_num)]; norm_num) (by norm_num)
  have hq : (40 * (2589569785738035 / 9007199254740992) : ℚ) / (2 : ℚ) ^ ((3 : ℤ) - 52)
      = ((6473924464345087 : ℤ) : ℚ) + 1 / 2 := by norm_num
  simp only [Num.mul]
  unfold rnd
  rw [hu, hq, roundHalfEven_half_odd _ (by norm_num),
    if_neg (by rw [not_le, abs_of_pos (by norm_num)]; norm_num)]
  congr 1
  norm_num

theorem percentage_23_80 (o : ProgressBarOptions) (term : Terminal) (h : o.total = .fin 80) :
    (ProgressBar.mk o (.fin 23) term).percentage
      = .fin (8092405580431359 / 281474976710656) := by
  unfold ProgressBar.percentage
  simp only [h, div_23_80, mul_100_of_div_23_80, Math.max, Math.min]
  rw [max_eq_right (by norm_num), min_eq_right (by norm_num)]

/-- The constant `filled` with `current` 23, `total` 80, `width` 40 is 11. -/
theorem filled_23_80_40 (o : ProgressBarOptions) (term : Terminal) (h : o.total = .fin 80)
    (hw : o.width = .fin 40) :
    (ProgressBar.mk o (.fin 23) term).filled = .fin 11 := by
  unfold ProgressBar.filled
  simp only [percentage_23_80 o term h, hw, mul_40_of_percentage, div_100_of_product, Math.round]
  congr 1
  have : ⌊(6473924464345087 / 562949953421312 : ℚ) + 1 / 2⌋ = 11 := by
    rw [Int.floor_eq_iff]
    constructor <;> norm_num
  rw [this]
  norm_num

theorem suffix_23_80 (fmt : ℚ → Str) :
    (ProgressBar.mk (progressOptions (.fin 80) (.fin 40)) (.fin 23) freshTerminal).suffix fmt
      = js " 29%" := by
  have hfl : ⌊(8092405580431359 / 281474976710656 : ℚ) + 1 / 2⌋ = 29 := by
    rw [Int.floor_eq_iff]
    constructor <;> norm_num
  have hlt : |((29 : ℤ) : ℚ)| < 10 ^ 21 := by
    rw [abs_of_pos (by norm_num)]
    norm_num
  unfold ProgressBar.suffix
  rw [percentage_23_80 _ _ rfl]
  simp only [Math.round, hfl, Num.toStr, progressOptions, if_true, Rat.intCast_den,
    Rat.intCast_num, hlt, and_self, Bool.false_eq_true, if_false]
  decide

/-- The string that `render` writes for `current` 23, `total` 80, `width` 40. -/
theorem output_23_80_40 (fmt : ℚ → Str) :
    (ProgressBar.mk (progressOptions (.fin 80) (.fin 40)) (.fin 23) freshTerminal).output fmt
      = some (js "[\x1b[32m" ++ strRepeat (js "█") 11 ++ js "\x1b[0m\x1b[90m"
          ++ strRepeat (js "░") 29 ++ js "\x1b[0m] 29%") := by
  have hf := filled_23_80_40 (progressOptions (.fin 80) (.fin 40)) freshTerminal rfl rfl
  have he : (ProgressBar.mk (progressOptions (.fin 80) (.fin 40)) (.fin 23) freshTerminal).empty
      = .fin 29 := by
    unfold ProgressBar.empty
    rw [hf]
    simp only [progressOptions, Num.sub, Num.neg, Num.add]
    have h := rnd_intCast 29 (by norm_num)
    norm_num at h ⊢
    exact h
  have h11 := repeatNum_natCast (js "█") 11
  have h29 := repeatNum_natCast (js "░") 29
  norm_num at h11 h29
  rw [ProgressBar_output_eq fmt _ (strRepeat (js "█") 11) (strRepeat (js "░") 29)
    (js "\x1b[32m" ++ strRepeat (js "█") 11 ++ js "\x1b[0m")
    (js "\x1b[90m" ++ strRepeat (js "░") 29 ++ js "\x1b[0m")
    (by rw [hf]; exact h11) (by decide) (by rw [he]; exact h29) (by decide), suffix_23_80]
  decide

/-! ## Claims on `ProgressBar` -/

/-- C25 counterexample: with `current` 23, `total` 80 and `width` 40 the bar has
11 complete glyphs and 29 incomplete ones, while `round(width * clamp(current /
total, 0, 1))` is 12, the value `11.5` rounded up, both in exact and in double
arithmetic: in `render` the product `(23 / 80) * 100` is rounded below `28.75`
and the quotient by 100 stays below `11.5`. -/
theorem C25_counterexample :
    (ProgressBar.mk (progressOptions (.fin 80) (.fin 40)) (.fin 23) freshTerminal).filled
      = .fin 11 ∧
    (ProgressBar.mk (progressOptions (.fin 80) (.fin 40)) (.fin 23) freshTerminal).output
      (fun _ => [])
      = some (js "[\x1b[32m" ++ strRepeat (js "█") 11 ++ js "\x1b[0m\x1b[90m"
          ++ strRepeat (js "░") 29 ++ js "\x1b[0m] 29%") ∧
    specFilled 23 80 40 = 12 ∧
    specFilledDouble (.fin 23) (.fin 80) (.fin 40) = .fin 12 := by
  refine ⟨filled_23_80_40 (progressOptions (.fin 80) (.fin 40)) freshTerminal rfl rfl,
    output_23_80_40 (fun _ => []), ?_, ?_⟩
  · unfold specFilled
    rw [min_eq_right (by norm_num), max_eq_right (by norm_num), Int.floor_eq_iff]
    constructor <;> norm_num
  · unfold specFilledDouble
    simp only [div_23_80, Math.max, Math.min, mul_40_of_div_23_80, Math.round]
    rw [max_eq_right (by norm_num), min_eq_right (by norm_num), mul_40_of_div_23_80]
    simp only [Math.round]
    congr 1
    have : ⌊(23 / 2 : ℚ) + 1 / 2⌋ = 12 := by
      rw [Int.floor_eq_iff]
      constructor <;> norm_num
    rw [this]
    norm_num

/-- C25, amended: for a finite `total > 0`, an integer `width` with
`0 <= width < 2 ^ 46`, a `current` that is not `NaN` and colours that are not
objects, the count `filled = Math.round((width * percentage) / 100)` of `render`,
computed in double arithmetic, is an integer `f` with `0 <= f <= width`,
`empty` is `width - f`, and the output is `[`, the text of `f` complete glyphs,
the text of `width - f` incomplete glyphs, `]` and the suffix; at `current ==
total` it is `width` and at `current == 0` it is 0. -/
theorem C25_progress_bar_glyphs (fmt : ℚ → Str) (p : ProgressBar) (t : ℚ) (w : ℤ)
    (ht : p.options.total = .fin t) (htpos : 0 < t) (hw : p.options.width = .fin (w : ℚ))
    (hw0 : 0 ≤ w) (hw1 : w < 2 ^ 46) (hc : p.current ≠ .nan)
    (hcc : p.options.completeColor.isObject = false)
    (hic : p.options.incompleteColor.isObject = false) :
    ∃ f : ℕ, (f : ℤ) ≤ w ∧ p.filled = .fin (f : ℚ) ∧ p.empty = .fin ((w - f : ℤ) : ℚ) ∧
      (∃ a b : Str,
        textWithColor (strRepeat p.options.complete f) p.options.completeColor = some a ∧
        textWithColor (strRepeat p.options.incomplete (w - f).toNat) p.options.incompleteColor
          = some b ∧
        p.output fmt = some (js "[" ++ a ++ b ++ js "]" ++ p.suffix fmt)) ∧
      (p.current = p.options.total → (f : ℤ) = w) ∧
      (p.current = .fin 0 → f = 0) := by
  obtain ⟨f, hf, h1, h2, h3⟩ := ProgressBar_bar fmt p t w ht htpos hw hw0 hw1 hc hcc hic
  refine ⟨f, hf, h1, h2, h3, fun h => ?_, fun h => ?_⟩
  · have h4 := ProgressBar_filled_full p t w ht htpos hw hw0 hw1 h
    rw [h1] at h4
    have h5 : ((f : ℤ) : ℚ) = (w : ℚ) := by
      push_cast
      exact Num.fin.inj h4
    exact_mod_cast h5
  · have h4 := ProgressBar_filled_zero p t w ht htpos hw h
    rw [h1] at h4
    have h5 : (f : ℚ) = 0 := Num.fin.inj h4
    exact_mod_cast h5

/-- The instance of C25 at `current` 23, `total` 80 and `width` 40 with the default
glyphs and colours. -/
theorem C25_progress_bar_glyphs_witness :
    ∃ f : ℕ, (f : ℤ) ≤ 40 ∧
      (ProgressBar.mk (progressOptions (.fin 80) (.fin 40)) (.fin 23) freshTerminal).filled
        = .fin (f : ℚ) :=
  (C25_progress_bar_glyphs (fun _ => [])
    (ProgressBar.mk (progressOptions (.fin 80) (.fin 40)) (.fin 23) freshTerminal) 80 40 rfl
    (by norm_num) (by simp [progressOptions]) (by norm_num) (by norm_num)
    (fun h => Num.noConfusion h) rfl rfl).imp fun _ h => ⟨h.1, h.2.1⟩

/-- C26 counterexample: `update(NaN)` on a bar with the default options is not
rejected and leaves `current` at `NaN`, which is not `>= 0`. -/
theorem C26_counterexample :
    ∃ p, (ProgressBar.create (progressOptions (.fin 100) (.fin 40)) freshTerminal).update
        (fun _ => []) .nan = some p ∧
      p.getCurrent = .nan ∧ Num.le (.fin 0) p.getCurrent = false := by
  obtain ⟨out, hout⟩ := ProgressBar_output_of_nan (fun _ => [])
    (ProgressBar.mk (progressOptions (.fin 100) (.fin 40)) .nan freshTerminal) rfl rfl rfl
  have hm : Math.min (progressOptions (.fin 100) (.fin 40)).total (Math.max (.fin 0) .nan)
      = .nan := rfl
  exact ⟨ProgressBar.mk (progressOptions (.fin 100) (.fin 40)) .nan
      (write (clearLine freshTerminal) out), by
    simp only [ProgressBar.update, ProgressBar.create, ProgressBar.render, hm, hout,
      Option.some_bind], rfl, rfl⟩

/-- C26, amended: on a bar with a finite `total >= 0`, an integer `width` with
`0 <= width < 2 ^ 46` and colours that are not objects, every sequence of
`update(v)`, `increment(n)` and `complete()` calls whose arguments are numbers
other than `NaN` runs without a throw and ends with `0 <= getCurrent() <= total`;
`update(v)` sets `current` to `Math.min(total, Math.max(0, v))`, `increment(n)` is
`update(current + n)`, and `complete()` sets `current` to `total`. -/
theorem C26_progress_clamped (fmt : ℚ → Str) (o : ProgressBarOptions) (term : Terminal)
    (t : ℚ) (w : ℤ) (ht : o.total = .fin t) (ht0 : 0 ≤ t) (hw : o.width = .fin (w : ℚ))
    (hw0 : 0 ≤ w) (hw1 : w < 2 ^ 46) (hcc : o.completeColor.isObject = false)
    (hic : o.incompleteColor.isObject = false) (calls : List ProgressCall)
    (hargs : ∀ call ∈ calls, call.argIsNumber = true) :
    (∃ p, (ProgressBar.create o term).run fmt calls = some p ∧
      Num.le (.fin 0) p.getCurrent = true ∧ Num.le p.getCurrent p.getTotal = true) ∧
    (∀ (p r : ProgressBar) (v : Num), p.update fmt v = some r →
      r.getCurrent = Math.min p.getTotal (Math.max (.fin 0) v)) ∧
    (∀ (p : ProgressBar) (n : Num),
      p.increment fmt (some n) = p.update fmt (Num.add p.getCurrent n)) ∧
    (∀ p r : ProgressBar, p.complete fmt = some r → r.getCurrent = p.getTotal) := by
  refine ⟨?_, fun p r v h => ?_, fun p n => rfl, fun p r h => ?_⟩
  · obtain ⟨p, hp, hready⟩ := ProgressBar_run_ready fmt t w calls hargs
      (ProgressBar.create o term)
      ⟨ht, ht0, hw, hw0, hw1, hcc, hic, 0, rfl, le_rfl, ht0⟩
    obtain ⟨ht2, _, _, _, _, _, _, c, hc, hc0, hc1⟩ := hready
    refine ⟨p, hp, ?_, ?_⟩
    · simp only [ProgressBar.getCurrent, hc, Num.le, decide_eq_true_eq]
      exact hc0
    · simp only [ProgressBar.getCurrent, ProgressBar.getTotal, hc, ht2, Num.le,
        decide_eq_true_eq]
      exact hc1
  · unfold ProgressBar.update ProgressBar.render at h
    cases ho : ProgressBar.output fmt
      (ProgressBar.mk p.options (Math.min p.options.total (Math.max (.fin 0) v)) p.term) with
    | none => rw [ho] at h; exact absurd h (by simp)
    | some out =>
      rw [ho] at h
      simp only [Option.some_bind, Option.some.injEq] at h
      rw [← h]
      rfl
  · unfold ProgressBar.complete ProgressBar.render at h
    cases ho : ProgressBar.output fmt (ProgressBar.mk p.options p.options.total p.term) with
    | none => rw [ho] at h; exact absurd h (by simp)
    | some out =>
      rw [ho] at h
      simp only [Option.some_bind, Option.some.injEq] at h
      rw [← h]
      rfl

/-- The instance of C26 at the default options and the calls `update(-5)`,
`increment()`, `update(250)`, `increment(-Infinity)`, `complete()`. -/
theorem C26_progress_clamped_witness :
    ∃ p, (ProgressBar.create (progressOptions (.fin 100) (.fin 40)) freshTerminal).run
        (fun _ => [])
        [.update (.fin (-5)), .increment none, .update (.fin 250), .increment (some (.inf true)),
          .complete] = some p ∧
      Num.le (.fin 0) p.getCurrent = true ∧ Num.le p.getCurrent p.getTotal = true :=
  (C26_progress_clamped (fun _ => []) (progressOptions (.fin 100) (.fin 40)) freshTerminal 100 40
    rfl (by norm_num) (by simp [progressOptions]) (by norm_num) (by norm_num) rfl rfl
    [.update (.fin (-5)), .increment none, .update (.fin 250), .increment (some (.inf true)),
      .complete]
    (by
      intro call hcall
      simp only [List.mem_cons, List.mem_singleton, List.not_mem_nil, or_false] at hcall
      rcases hcall with h | h | h | h | h <;> subst h <;> simp [ProgressCall.argIsNumber])).1

/-! ## Facts about `Spinner` -/

theorem Spinner_textPart_some (s : Spinner) (h : s.textColor.isObject = false) :
    ∃ tp, s.textPart = some tp := by
  unfold Spinner.textPart
  split
  · split
    · exact textWithColor_some _ _ h
    · exact ⟨_, rfl⟩
  · exact ⟨_, rfl⟩

/-- What one call of `renderFrame` does. -/
theorem Spinner_renderFrame_eq (s : Spinner) (sp : SpinnerSet) (frameText textPart : Str)
    (hs : s.spinner = some sp)
    (hf : textWithColor (sp.frames.getD s.currentFrame []) s.color = some frameText)
    (ht : s.textPart = some textPart) :
    s.renderFrame = some (Spinner.mk s.spinner s.text s.color s.textColor s.optionsText
      ((s.currentFrame + 1) % sp.frames.length) s.timer s.isSpinning
      (write (clearLine s.term) (frameText ++ textPart))) := by
  simp only [Spinner.renderFrame, hs, Option.some_bind, hf, ht]

theorem Spinner_textPart_congr (s s2 : Spinner) (h1 : s2.text = s.text)
    (h2 : s2.textColor = s.textColor) : s2.textPart = s.textPart := by
  simp [Spinner.textPart, h1, h2]

/-- The state after `k` calls of `renderFrame` on a spinner whose index is 0. -/
theorem Spinner_ticks_index (s : Spinner) (sp : SpinnerSet) (hs : s.spinner = some sp)
    (h0 : s.currentFrame = 0) (hc : s.color.isObject = false)
    (ht : s.textColor.isObject = false) (k : Nat) :
    ∃ s2, Spinner.ticks k s = some s2 ∧ s2.spinner = s.spinner ∧ s2.text = s.text ∧
      s2.color = s.color ∧ s2.textColor = s.textColor ∧
      s2.currentFrame = k % sp.frames.length := by
  induction k with
  | zero => exact ⟨s, rfl, rfl, rfl, rfl, rfl, by simp [h0]⟩
  | succ k ih =>
    obtain ⟨s2, h1, h2, h3, h4, h5, h6⟩ := ih
    obtain ⟨frameText, hf⟩ := textWithColor_some (sp.frames.getD s2.currentFrame []) s2.color
      (by rw [h4]; exact hc)
    obtain ⟨textPart, htp⟩ := Spinner_textPart_some s2 (by rw [h5]; exact ht)
    have hr := Spinner_renderFrame_eq s2 sp frameText textPart (by rw [h2]; exact hs) hf htp
    refine ⟨Spinner.mk s2.spinner s2.text s2.color s2.textColor s2.optionsText
      ((s2.currentFrame + 1) % sp.frames.length) s2.timer s2.isSpinning
      (write (clearLine s2.term) (frameText ++ textPart)), ?_, h2, h3, h4, h5, ?_⟩
    · simp only [Spinner.ticks, h1, Option.some_bind]
      exact hr
    · simp only [h6]
      exact Nat.mod_add_mod k sp.frames.length 1

/-! ## Claims on `Spinner` -/

set_option maxRecDepth 100000 in
/-- C27: for a spinner with a frame set of `n >= 1` frames, index 0 and colours
that are not objects, `k` frame ticks succeed and leave the frame index at
`k mod n`, and the next tick, the `(k + 1)`-th, clears the line and writes the
styled frame `frames[k mod n]` followed by the label part; a fresh `toggle`
spinner (two frames) started and ticked twice more, three ticks in all, has
index 1. -/
theorem C27_spinner_frame_index (s : Spinner) (sp : SpinnerSet) (hs : s.spinner = some sp)
    (hn : 1 ≤ sp.frames.length) (h0 : s.currentFrame = 0) (hc : s.color.isObject = false)
    (ht : s.textColor.isObject = false) (k : Nat) :
    (∃ s2 s3 frameText textPart,
      Spinner.ticks k s = some s2 ∧ s2.currentFrame = k % sp.frames.length ∧
      textWithColor (sp.frames.getD (k % sp.frames.length) []) s.color = some frameText ∧
      s.textPart = some textPart ∧
      Spinner.ticks (k + 1) s = some s3 ∧
      s3.term.out = s2.term.out ++ [js "\x1b[2K\r", frameText ++ textPart] ∧
      s3.currentFrame = (k + 1) % sp.frames.length ∧
      k % sp.frames.length < sp.frames.length) ∧
    ((((Spinner.create (js "toggle") none (.str (js "cyan")) .absent freshTerminal).start
        none).bind Spinner.tick).bind Spinner.tick).map (fun r => r.currentFrame) = some 1 := by
  refine ⟨?_, by decide⟩
  obtain ⟨s2, h1, h2, h3, h4, h5, h6⟩ := Spinner_ticks_index s sp hs h0 hc ht k
  obtain ⟨frameText, hf⟩ := textWithColor_some (sp.frames.getD s2.currentFrame []) s2.color
    (by rw [h4]; exact hc)
  obtain ⟨textPart, htp⟩ := Spinner_textPart_some s2 (by rw [h5]; exact ht)
  have hr := Spinner_renderFrame_eq s2 sp frameText textPart (by rw [h2]; exact hs) hf htp
  refine ⟨s2, Spinner.mk s2.spinner s2.text s2.color s2.textColor s2.optionsText
      ((s2.currentFrame + 1) % sp.frames.length) s2.timer s2.isSpinning
      (write (clearLine s2.term) (frameText ++ textPart)), frameText, textPart, h1, h6,
    by rw [← h6, ← h4]; exact hf,
    by rw [← Spinner_textPart_congr s s2 h3 h5]; exact htp, ?_, ?_, ?_,
    Nat.mod_lt _ (by omega)⟩
  · simp only [Spinner.ticks, h1, Option.some_bind]
    exact hr
  · simp [write, clearLine]
  · simp only [h6]
    exact Nat.mod_add_mod k sp.frames.length 1

set_option maxRecDepth 100000 in
/-- C27 at a fresh `line` spinner (four frames) and `k = 6`: the index is 2. -/
theorem C27_spinner_frame_index_witness :
    ∃ s2, Spinner.ticks 6 (Spinner.create (js "line") none (.str (js "cyan")) .absent
        freshTerminal) = some s2 ∧ s2.currentFrame = 2 := by
  obtain ⟨⟨s2, _, _, _, h1, h2, _⟩, _⟩ := C27_spinner_frame_index
    (Spinner.create (js "line") none (.str (js "cyan")) .absent freshTerminal)
    (SpinnerSet.mk [js "-", js "\\", js "|", js "/"] 100) (by decide) (by decide) (by decide)
    (by decide) (by decide) 6
  exact ⟨s2, h1, by rw [h2]; decide⟩

set_option maxRecDepth 100000 in
/-- C28 fails on the code: after `start()` and `stop()`, a further `fail("boom")`
is not a no-op: it clears the line, writes `✗ boom` and shows the cursor again;
`warn` does the same.  Only `stop` and `succeed` return at once when the spinner
is not spinning. -/
theorem C28_fail_after_stop_writes :
    (((Spinner.create (js "dots") none (.str (js "cyan")) .absent freshTerminal).start
        none).bind fun s => s.stop none none).map (fun s => s.term.out)
      = some [js "\x1b[?25l", js "\x1b[2K\r", js "\x1b[36m⠋\x1b[0m", js "\x1b[2K\r",
          js "\x1b[?25h"] ∧
    ((((Spinner.create (js "dots") none (.str (js "cyan")) .absent freshTerminal).start
        none).bind fun s => s.stop none none).bind fun s => s.fail (some (js "boom"))).map
        (fun s => s.term.out)
      = some [js "\x1b[?25l", js "\x1b[2K\r", js "\x1b[36m⠋\x1b[0m", js "\x1b[2K\r",
          js "\x1b[?25h", js "\x1b[2K\r", js "\x1b[31m✗\x1b[0m boom\n", js "\x1b[?25h"] ∧
    ((((Spinner.create (js "dots") none (.str (js "cyan")) .absent freshTerminal).start
        none).bind fun s => s.stop none none).bind fun s => s.warn (some (js "boom"))).map
        (fun s => s.term.out)
      = some [js "\x1b[?25l", js "\x1b[2K\r", js "\x1b[36m⠋\x1b[0m", js "\x1b[2K\r",
          js "\x1b[?25h", js "\x1b[2K\r", js "\x1b[33m⚠\x1b[0m boom\n", js "\x1b[?25h"] ∧
    ((((Spinner.create (js "dots") none (.str (js "cyan")) .absent freshTerminal).start
        none).bind fun s => s.stop none none).bind fun s => s.succeed (some (js "boom")))
      = ((Spinner.create (js "dots") none (.str (js "cyan")) .absent freshTerminal).start
        none).bind fun s => s.stop none none := by
  decide

set_option maxRecDepth 100000 in
/-- C29 fails on the code: on `Spinner({type: "line", text: "old"})`, started,
the frame rendered after `setText("new")` still shows the label `old`.
`renderFrame` reads the constant `text` destructured at construction, while
`setText` assigns `options.text`, which only `succeed`, `fail` and `warn` read. -/
theorem C29_setText_does_not_change_label :
    (((Spinner.create (js "line") (some (js "old")) (.str (js "cyan")) .absent
        freshTerminal).start none).bind fun s => (s.setText (js "new")).tick).map
        (fun s => s.term.out)
      = some [js "\x1b[?25l", js "\x1b[2K\r", js "\x1b[36m-\x1b[0m old", js "\x1b[2K\r",
          js "\x1b[36m\\\x1b[0m old"] ∧
    (((Spinner.create (js "line") (some (js "old")) (.str (js "cyan")) .absent
        freshTerminal).start none).bind fun s => (s.setText (js "new")).fail none).map
        (fun s => s.term.out.drop 3)
      = some [js "\x1b[2K\r", js "\x1b[31m✗\x1b[0m new\n", js "\x1b[?25h"] := by
  decide

/-! ## Claims on `Select` -/

theorem Text_build_some (text : Str) (color bgColor : ColorSpec)
    (bold dim italic underline strikethrough inverse blink : Bool)
    (hc : color.isObject = false) (hb : bgColor.isObject = false) :
    ∃ out, Text.build (TextOptions.mk text color bgColor bold dim italic underline
        strikethrough inverse blink) = some out := by
  obtain ⟨fg, hfg⟩ := colorCode_some hex ANSI.fg color hc
  obtain ⟨bg, hbg⟩ := colorCode_some bgHex ANSI.bg bgColor hb
  exact ⟨_, by rw [Text_build_eq, hfg, hbg]; rfl⟩

theorem Select_line_some (o : SelectOptions) (selectedIndex : Nat) (choice : Choice)
    (index : Nat) (hs : o.selectedColor.isObject = false)
    (hu : o.unselectedColor.isObject = false) :
    ∃ line, Select.line o selectedIndex choice index = some line := by
  obtain ⟨p, hp⟩ := Text_build_some o.pointer o.selectedColor .absent true false false false
    false false false hs rfl
  obtain ⟨a, ha⟩ := Text_build_some choice.label (.str (js "gray")) .absent false true false
    false false false false rfl rfl
  obtain ⟨b, hb⟩ := Text_build_some (js " (disabled)") (.str (js "gray")) .absent false true
    true false false false false rfl rfl
  obtain ⟨c, hc⟩ := Text_build_some choice.label o.selectedColor .absent true false false
    false false false false hs rfl
  obtain ⟨d, hd⟩ := textWithColor_some choice.label o.unselectedColor hu
  unfold Select.line
  simp only [hp, ha, hb, hc, hd, Option.some_bind]
  split <;> simp only [Option.some_bind] <;> split <;> try exact ⟨_, rfl⟩
  all_goals split <;> try exact ⟨_, rfl⟩

theorem Select_renderLoop_ok (o : SelectOptions) (selectedIndex : Nat)
    (hs : o.selectedColor.isObject = false) (hu : o.unselectedColor.isObject = false)
    (choices : List Choice) (index : Nat) (t : Terminal) :
    ∃ t2, Select.renderLoop o selectedIndex choices index t = (.ok (), t2) := by
  induction choices generalizing index t with
  | nil => exact ⟨t, rfl⟩
  | cons c cs ih =>
    obtain ⟨line, hl⟩ := Select_line_some o selectedIndex c index hs hu
    simp only [Select.renderLoop, hl]
    exact ih _ _

theorem Select_renderMenu_ok (o : SelectOptions) (selectedIndex : Nat)
    (hs : o.selectedColor.isObject = false) (hu : o.unselectedColor.isObject = false)
    (t : Terminal) :
    ∃ t2, Select.renderMenu o selectedIndex t = (.ok (), t2) := by
  obtain ⟨t3, ht3⟩ := Select_renderLoop_ok o selectedIndex hs hu o.choices 0 t
  exact ⟨cursorUp t3 ((o.choices.length : Int) - (selectedIndex : Int)),
    by simp only [Select.renderMenu, ht3]⟩

theorem Select_renderLoop_error (o : SelectOptions) (selectedIndex : Nat)
    (choices : List Choice) (index : Nat) (t t2 : Terminal) (e : Str)
    (h : Select.renderLoop o selectedIndex choices index t = (.error e, t2)) :
    e = textTypeError := by
  induction choices generalizing index t with
  | nil => simp [Select.renderLoop] at h
  | cons c cs ih =>
    simp only [Select.renderLoop] at h
    cases hl : Select.line o selectedIndex c index with
    | none =>
      rw [hl] at h
      simp only [Prod.mk.injEq, Except.error.injEq] at h
      exact h.1.symm
    | some line =>
      rw [hl] at h
      exact ih _ _ h

theorem Select_renderMenu_error (o : SelectOptions) (selectedIndex : Nat)
    (t t2 : Terminal) (e : Str)
    (h : Select.renderMenu o selectedIndex t = (.error e, t2)) :
    e = textTypeError := by
  unfold Select.renderMenu at h
  cases hr : Select.renderLoop o selectedIndex o.choices 0 t with
  | mk r t3 =>
    rw [hr] at h
    cases r with
    | ok u => simp at h
    | error e2 =>
      simp only [Prod.mk.injEq, Except.error.injEq] at h
      rw [← h.1]
      exact Select_renderLoop_error o selectedIndex o.choices 0 t t3 e2 hr

theorem Select_init_nonempty (o : SelectOptions) (h : o.choices ≠ []) :
    Select.init o = .ok (match o.defaultValue with
      | some d => (Select.findIndex d o.choices 0).getD 0
      | none => 0) := by
  have hlen : ¬ o.choices.length = 0 := fun e => h (List.length_eq_zero.1 e)
  unfold Select.init
  rw [if_neg hlen]

/-- C30: `Select` called with an empty list of choices fails with the error
`Select requires at least one choice` and leaves the terminal as it was (nothing
written, raw mode unchanged, cursor not hidden). With a non-empty list the
statements before the promise do not fail, the call never fails with that error,
and the first rendering of the menu succeeds as well when none of the three
colours is an object. -/
theorem C30_select_requires_choice (o : SelectOptions) (t : Terminal) :
    (o.choices = [] →
      Select.open o t = (.error (js "Select requires at least one choice"), t)) ∧
    (o.choices ≠ [] → ∃ i, Select.init o = .ok i) ∧
    (o.choices ≠ [] →
      ∀ t2, Select.open o t ≠ (.error (js "Select requires at least one choice"), t2)) ∧
    (o.choices ≠ [] → o.messageColor.isObject = false → o.selectedColor.isObject = false →
      o.unselectedColor.isObject = false →
      ∃ menu t2, Select.open o t = (.ok menu, t2)) := by
  have hne : textTypeError ≠ js "Select requires at least one choice" := by decide
  refine ⟨fun h => by simp [Select.open, Select.init, h],
    fun h => ⟨_, Select_init_nonempty o h⟩, fun h t2 => ?_, fun h hm hs hu => ?_⟩
  · unfold Select.open
    rw [Select_init_nonempty o h]
    dsimp only
    by_cases hmsg : o.message = []
    · simp only [hmsg, ne_eq, not_true_eq_false, if_false]
      generalize hsel : (match o.defaultValue with
          | some d => (Select.findIndex d o.choices 0).getD 0
          | none => 0) = sel
      cases hr : Select.renderMenu o sel
        (hideCursor (if o.margin > 0 then writeLine (setRawMode t).1 [] else (setRawMode t).1)) with
      | mk r t3 =>
        cases r with
        | ok u => simp
        | error e =>
          have := Select_renderMenu_error o sel _ _ e hr
          simp only [ne_eq, Prod.mk.injEq, Except.error.injEq, not_and]
          intro h1
          exact absurd (this ▸ h1) hne
    · simp only [hmsg, ne_eq, not_false_eq_true, if_true]
      cases hmt : textWithColor o.message o.messageColor with
      | none =>
        simp only [ne_eq, Prod.mk.injEq, Except.error.injEq, not_and]
        intro h1
        exact absurd h1 hne
      | some m =>
        dsimp only
        generalize hsel : (match o.defaultValue with
            | some d => (Select.findIndex d o.choices 0).getD 0
            | none => 0) = sel
        cases hr : Select.renderMenu o sel
          (hideCursor (if o.margin > 0 then writeLine (writeLine (setRawMode t).1 m) []
            else writeLine (setRawMode t).1 m)) with
        | mk r t3 =>
          cases r with
          | ok u => simp
          | error e =>
            have := Select_renderMenu_error o sel _ _ e hr
            simp only [ne_eq, Prod.mk.injEq, Except.error.injEq, not_and]
            intro h1
            exact absurd (this ▸ h1) hne
  · obtain ⟨m, hmt⟩ := textWithColor_some o.message o.messageColor hm
    unfold Select.open
    rw [Select_init_nonempty o h]
    dsimp only
    generalize hsel : (match o.defaultValue with
        | some d => (Select.findIndex d o.choices 0).getD 0
        | none => 0) = sel
    by_cases hmsg : o.message = []
    · simp only [hmsg, ne_eq, not_true_eq_false, if_false]
      obtain ⟨t3, ht3⟩ := Select_renderMenu_ok o sel hs hu
        (hideCursor (if o.margin > 0 then writeLine (setRawMode t).1 [] else (setRawMode t).1))
      rw [ht3]
      exact ⟨_, _, rfl⟩
    · simp only [hmsg, ne_eq, not_false_eq_true, if_true, hmt]
      obtain ⟨t3, ht3⟩ := Select_renderMenu_ok o sel hs hu
        (hideCursor (if o.margin > 0 then writeLine (writeLine (setRawMode t).1 m) []
          else writeLine (setRawMode t).1 m))
      rw [ht3]
      exact ⟨_, _, rfl⟩

/-- The instance of C30 at `Select({ choices: ['a', 'b'] })` on a fresh terminal. -/
theorem C30_select_requires_choice_witness :
    ∃ menu t2, selectOf [Choice.str (js "a"), Choice.str (js "b")] freshTerminal
      = (.ok menu, t2) :=
  (C30_select_requires_choice
    (SelectOptions.mk (js "Select an option:") [Choice.str (js "a"), Choice.str (js "b")] none
      (js "❯") 1 (.str (js "cyan")) (.str (js "cyan")) .absent) freshTerminal).2.2.2
    (List.cons_ne_nil _ _) rfl rfl rfl

/-! ## Claims on the border styles -/

/-- A border style that is neither an own key of the table nor a property name
inherited from `Object.prototype` gets the fallback. -/
theorem borderFor_unknown {β : Type} (table : List (Str × β)) (fallback : β) (style : Str)
    (h1 : (table.lookup style).isNone = true) (h2 : style ∉ objectPrototypeKeys) :
    borderFor table fallback style = some fallback := by
  rw [Option.isNone_iff_eq_none] at h1
  simp [borderFor, h1, h2]

/-- With a border style that is no key of `BORDERS` and not inherited from
`Object.prototype`, `Box` renders as with `single`. -/
theorem Box_build_unknown_style (o : BoxOptions) (style : Str)
    (h1 : (BORDERS.lookup style).isNone = true) (h2 : style ∉ objectPrototypeKeys) :
    Box.build (o.withStyle style) = Box.build (o.withStyle (js "single")) := by
  have e1 := borderFor_unknown BORDERS BORDERS.single style h1 h2
  have e2 : borderFor BORDERS BORDERS.single (js "single") = some BORDERS.single := rfl
  simp only [Box.build, BoxOptions.withStyle, e1, e2]

/-- With a border style that is no key of `TABLE_BORDERS` and not inherited from
`Object.prototype`, `Table` renders as with `single`. -/
theorem Table_build_unknown_style (o : TableOptions) (style : Str)
    (h1 : (TABLE_BORDERS.lookup style).isNone = true) (h2 : style ∉ objectPrototypeKeys) :
    Table.build (o.withStyle style) = Table.build (o.withStyle (js "single")) := by
  have e1 := borderFor_unknown TABLE_BORDERS TABLE_BORDERS.single style h1 h2
  have e2 : borderFor TABLE_BORDERS TABLE_BORDERS.single (js "single")
      = some TABLE_BORDERS.single := rfl
  have hd : ∀ rows, Table.dataLines (o.withStyle style) (some TABLE_BORDERS.single)
      (calculateColumnWidths o) rows
      = Table.dataLines (o.withStyle (js "single")) (some TABLE_BORDERS.single)
        (calculateColumnWidths o) rows := by
    intro rows
    induction rows with
    | nil => rfl
    | cons row rest ih =>
      simp only [Table.dataLines, ih]
      rfl
  rw [Table_build_eq, Table_build_eq]
  simp only [Table.border, TableOptions.withStyle, e1, e2]
  exact congrArg _ (funext fun top => congrArg _ (funext fun headerLines => by
    have := hd o.rows
    simp only [TableOptions.withStyle] at this
    exact congrArg (fun d => Option.bind d _) this))

set_option maxRecDepth 100000 in
/-- C31 fails on the code: `constructor` is not a key of the border tables, but
`BORDERS['constructor']` is the inherited `Object`, which is truthy, so there is
no fallback to `single`: `Box({content: 'hi', padding: 0, borderStyle:
'constructor'})` and `Table({headers: ['A'], rows: [['1']], borderStyle:
'constructor'})` throw on `border.horizontal.repeat`, where `single` renders; a
table without columns does not throw but prints `undefined` for each corner. -/
theorem C31_inherited_border_name_throws :
    (BORDERS.lookup (js "constructor")).isNone = true ∧
    (TABLE_BORDERS.lookup (js "constructor")).isNone = true ∧
    boxWithStyle (js "hi") (js "constructor") = none ∧
    boxWithStyle (js "hi") (js "single") = some (js "┌──┐\n│hi│\n└──┘") ∧
    tableWithStyle [js "A"] [[js "1"]] (js "constructor") = none ∧
    tableWithStyle [js "A"] [[js "1"]] (js "single")
      = some (js "┌───┐\n│\x1b[1m\x1b[36m A \x1b[0m│\n├───┤\n│ 1 │\n└───┘") ∧
    tableWithStyle [] [] (js "constructor")
      = some (js "undefinedundefined\nundefinedundefined") ∧
    tableWithStyle [] [] (js "single") = some (js "┌┐\n└┘") := by
  decide

set_option maxRecDepth 100000 in
/-- C32 counterexample: `TABLE_BORDERS` has no entries `bold` and `classic`, so a
table with one of these styles is drawn with the `single` glyphs and starts with
`┌`, while the box with the same style starts with `┏` and `+`. -/
theorem C32_counterexample :
    (TABLE_BORDERS.lookup (js "bold")).isNone = true ∧
    (TABLE_BORDERS.lookup (js "classic")).isNone = true ∧
    tableWithStyle [js "A"] [[js "1"]] (js "bold")
      = some (js "┌───┐\n│\x1b[1m\x1b[36m A \x1b[0m│\n├───┤\n│ 1 │\n└───┘") ∧
    tableWithStyle [js "A"] [[js "1"]] (js "classic")
      = tableWithStyle [js "A"] [[js "1"]] (js "single") ∧
    boxWithStyle (js "hi") (js "bold") = some (js "┏━━┓\n┃hi┃\n┗━━┛") ∧
    boxWithStyle (js "hi") (js "classic") = some (js "+--+\n|hi|\n+--+") := by
  decide

set_option maxRecDepth 100000 in
/-- C32, amended: in `Box` each of the styles `single`, `double`, `round`, `bold`
and `classic` selects its own glyphs (corners, horizontal, vertical), and the
box with `bold` starts with `┏`, the one with `classic` with `+`; in `Table` the
styles `single`, `double` and `round` select their own glyphs, while every table
with `bold` or `classic` renders exactly as with `single`. -/
theorem C32_border_styles :
    (borderGlyphs BORDERS (js "single")
      = some [js "┌", js "┐", js "└", js "┘", js "─", js "│"]) ∧
    (borderGlyphs BORDERS (js "double")
      = some [js "╔", js "╗", js "╚", js "╝", js "═", js "║"]) ∧
    (borderGlyphs BORDERS (js "round")
      = some [js "╭", js "╮", js "╰", js "╯", js "─", js "│"]) ∧
    (borderGlyphs BORDERS (js "bold")
      = some [js "┏", js "┓", js "┗", js "┛", js "━", js "┃"]) ∧
    (borderGlyphs BORDERS (js "classic")
      = some [js "+", js "+", js "+", js "+", js "-", js "|"]) ∧
    (tableBorderGlyphs TABLE_BORDERS (js "single")
      = some [js "┌", js "┐", js "└", js "┘", js "─", js "│"]) ∧
    (tableBorderGlyphs TABLE_BORDERS (js "double")
      = some [js "╔", js "╗", js "╚", js "╝", js "═", js "║"]) ∧
    (tableBorderGlyphs TABLE_BORDERS (js "round")
      = some [js "╭", js "╮", js "╰", js "╯", js "─", js "│"]) ∧
    (boxWithStyle (js "hi") (js "bold")).map (fun s => s.take 1) = some (js "┏") ∧
    (boxWithStyle (js "hi") (js "classic")).map (fun s => s.take 1) = some (js "+") ∧
    (∀ o : TableOptions,
      Table.build (o.withStyle (js "bold")) = Table.build (o.withStyle (js "single"))) ∧
    (∀ o : TableOptions,
      Table.build (o.withStyle (js "classic")) = Table.build (o.withStyle (js "single"))) := by
  refine ⟨by decide, by decide, by decide, by decide, by decide, by decide, by decide,
    by decide, by decide, by decide, fun o => ?_, fun o => ?_⟩
  · exact Table_build_unknown_style o (js "bold") (by decide) (by decide)
  · exact Table_build_unknown_style o (js "classic") (by decide) (by decide)

/-! ## Claims on `Text`, continued -/

/-- C36: for every text, also one that holds complete or partial escape
sequences, every choice of the attributes, and colours that are absent, palette
names or `#` followed by six hexadecimal digits, `Text({text, ...style})
.toString()` returns a string that `stripAnsi` reduces to `stripAnsi(text)`, so
its `visibleLength` is that of the text. -/
theorem C36_styling_keeps_visible_content (text : Str) (color bgColor : ColorSpec)
    (bold dim italic underline strikethrough inverse blink : Bool)
    (hc : isStyleColor ANSI.fg color = true) (hb : isStyleColor ANSI.bg bgColor = true) :
    ∃ out, Text.build (TextOptions.mk text color bgColor bold dim italic underline
        strikethrough inverse blink) = some out ∧
      stripAnsi out = stripAnsi text ∧ visibleLength out = visibleLength text := by
  obtain ⟨out, h1, h2⟩ := stripAnsi_Text_build text color bgColor bold dim italic underline
    strikethrough inverse blink hc hb
  exact ⟨out, h1, h2, by rw [visibleLength, visibleLength, h2]⟩

/-- C36 at the text `a ESC[1m b ESC[3`, which holds a complete and a partial
escape sequence, bold and underlined in red on `#00ff7f`. -/
theorem C36_styling_keeps_visible_content_witness :
    ∃ out, Text.build (TextOptions.mk (js "a\x1b[1mb\x1b[3") (.str (js "red"))
        (.str (js "#00ff7f")) true false false true false false false) = some out ∧
      stripAnsi out = stripAnsi (js "a\x1b[1mb\x1b[3") ∧
      visibleLength out = visibleLength (js "a\x1b[1mb\x1b[3") :=
  C36_styling_keeps_visible_content (js "a\x1b[1mb\x1b[3") (.str (js "red"))
    (.str (js "#00ff7f")) true false false true false false false (by decide) (by decide)

/-! ## Claims on the cells of `Table` -/

theorem pad_of_other_align (s : Str) (w : Int) (a c : Str) (h1 : a ≠ js "center")
    (h2 : a ≠ js "right") : pad s w a c = pad s w (js "left") c := by
  have h3 : js "left" ≠ js "center" := by decide
  have h4 : js "left" ≠ js "right" := by decide
  simp only [pad, if_neg h1, if_neg h2, if_neg h3, if_neg h4]

/-- An empty entry of the array `align` counts as `left`, which is what `pad`
does with it anyway. -/
theorem pad_cellAlign (s : Str) (w : Int) (align : AlignSpec) (i : Nat) (c : Str) :
    pad s w (cellAlign align i) c = pad s w (specCellAlign align i) c := by
  cases align with
  | single a => rfl
  | perColumn as =>
    simp only [cellAlign, specCellAlign, List.getD_eq_getElem?_getD, List.get?_eq_getElem?]
    cases h : as[i]? with
    | none => simp
    | some a =>
      by_cases ha : a = []
      · subst ha
        simp only [Option.getD_some, if_true]
        exact (pad_of_other_align s w [] c (by decide) (by decide)).symm
      · simp [ha]

theorem optMapIdx_congr {α β : Type} (f g : α → Nat → Option β) (h : ∀ x i, f x i = g x i)
    (i : Nat) (l : List α) : optMapIdx f i l = optMapIdx g i l := by
  induction l generalizing i with
  | nil => rfl
  | cons x xs ih => simp only [optMapIdx, h, ih]

theorem Table_cell_eq_specCell (o : TableOptions) (widths : List Int) (cell : Str) (i : Nat) :
    Table.cell o widths cell i = specCell o widths cell i := by
  simp only [Table.cell, specCell, pad_cellAlign]

/-- C35: every cell of `Table`, header or data, at index `i` is `padding` spaces,
the text padded to `widths[i]` and `padding` spaces again, and the alignment of
the padding is the shared one when `align` is a single value, `align[i]` when
`align` is an array with an entry at `i`, and `left` when the array has no entry
at `i`; the header row and every data row are made of these cells. -/
theorem C35_table_cell_alignment (o : TableOptions) (border : Option TableBorder)
    (widths : List Int) :
    (∀ (cell : Str) (i : Nat), Table.cell o widths cell i = specCell o widths cell i) ∧
    (∀ (a cell : Str) (i : Nat), o.align = .single a →
      Table.cell o widths cell i = (jsRepeat [SPACE] o.padding).bind fun l =>
        some (l ++ pad cell (widths.getD i 0) a (js " ") ++ l)) ∧
    (∀ (as : List Str) (a cell : Str) (i : Nat), o.align = .perColumn as → as.get? i = some a →
      Table.cell o widths cell i = (jsRepeat [SPACE] o.padding).bind fun l =>
        some (l ++ pad cell (widths.getD i 0) a (js " ") ++ l)) ∧
    (∀ (as : List Str) (cell : Str) (i : Nat), o.align = .perColumn as → as.get? i = none →
      Table.cell o widths cell i = (jsRepeat [SPACE] o.padding).bind fun l =>
        some (l ++ pad cell (widths.getD i 0) (js "left") (js " ") ++ l)) ∧
    (∀ row, Table.dataRow o border widths row
      = (optMapIdx (specCell o widths) 0 row).bind fun cells =>
          Table.row border o.borderColor cells) ∧
    Table.headerRow o border widths
      = (optMapIdx (fun header i =>
          (specCell o widths header i).bind fun paddedContent =>
          if o.headerColor.truthy then
            Text.build (TextOptions.mk paddedContent o.headerColor .absent true false false
              false false false false)
          else some paddedContent) 0 o.headers).bind fun headerCells =>
        Table.row border o.borderColor headerCells := by
  have hbind : ∀ (a cell : Str) (i : Nat), specCellAlign o.align i = a →
      Table.cell o widths cell i = (jsRepeat [SPACE] o.padding).bind fun l =>
        some (l ++ pad cell (widths.getD i 0) a (js " ") ++ l) := by
    intro a cell i ha
    rw [Table_cell_eq_specCell, specCell, ha]
    cases jsRepeat [SPACE] o.padding <;> rfl
  refine ⟨Table_cell_eq_specCell o widths, ?_, ?_, ?_, ?_, ?_⟩
  · intro a cell i h
    exact hbind a cell i (by rw [h]; rfl)
  · intro as a cell i h hi
    exact hbind a cell i (by rw [h]; simp only [specCellAlign, hi])
  · intro as cell i h hi
    exact hbind (js "left") cell i (by rw [h]; simp only [specCellAlign, hi])
  · intro row
    rw [Table.dataRow, optMapIdx_congr _ _ (Table_cell_eq_specCell o widths)]
  · rw [Table.headerRow]
    congr 1
    exact optMapIdx_congr _ _ (fun x i => by rw [Table_cell_eq_specCell]) 0 o.headers

/-- C35 at a table with `align: ['right']`: the cell `x` of column 0, three wide,
is padded on the left, and a cell of column 1, for which the array has no entry,
on the right. -/
theorem C35_table_cell_alignment_witness :
    Table.cell (TableOptions.mk [] [] none 1 (js "single") (.str (js "cyan")) .absent
        (.perColumn [js "right"]) true) [3, 3] (js "x") 0 = some (js "   x ") ∧
    Table.cell (TableOptions.mk [] [] none 1 (js "single") (.str (js "cyan")) .absent
        (.perColumn [js "right"]) true) [3, 3] (js "y") 1 = some (js " y   ") := by
  have h := C35_table_cell_alignment (TableOptions.mk [] [] none 1 (js "single")
    (.str (js "cyan")) .absent (.perColumn [js "right"]) true) none [3, 3]
  constructor
  · rw [h.2.2.1 [js "right"] (js "right") (js "x") 0 rfl rfl]
    decide
  · rw [h.2.2.2.1 [js "right"] (js "y") 1 rfl rfl]
    decide

/-! ## Facts about the lines of `Box` -/

theorem map_bind_option {α β γ : Type} (x : Option α) (f : α → Option β) (g : β → γ) :
    (x.bind f).map g = x.bind fun a => (f a).map g := by
  cases x <;> rfl

/-- The function `build` of `Box` joins the array `result`. -/
theorem Box_build_eq (o : BoxOptions) : Box.build o = (Box.lines o).map (join [NEWLINE]) := by
  simp only [Box.build, Box.lines, Box.paddedLines, Box.bottomBorder, Box.frame,
    Box.contentLine, Box.finalLines, Box.innerWidth, map_bind_option, Option.bind_assoc,
    Option.some_bind, Option.map_some']
  rfl

theorem jsRepeat_of_nonneg (s : Str) (n : Int) (h : 0 ≤ n) :
    jsRepeat s n = some (strRepeat s n.toNat) := by
  simp only [jsRepeat, if_neg (not_lt.2 h)]

theorem jsRepeat_eq_none_iff (s : Str) (n : Int) : jsRepeat s n = none ↔ n < 0 := by
  unfold jsRepeat
  split <;> simp [*]

theorem colorize_some (c : ColorSpec) (h : c.isObject = false) (text : Str) :
    ∃ out, colorize c text = some out := by
  unfold colorize
  split
  · exact textWithColor_some text c h
  · exact ⟨text, rfl⟩

theorem optMap_some {α β : Type} (f : α → Option β) (l : List α)
    (h : ∀ x ∈ l, ∃ y, f x = some y) : ∃ r, optMap f l = some r := by
  induction l with
  | nil => exact ⟨[], rfl⟩
  | cons x xs ih =>
    obtain ⟨y, hy⟩ := h x (List.mem_cons_self _ _)
    obtain ⟨r, hr⟩ := ih (fun z hz => h z (List.mem_cons_of_mem _ hz))
    exact ⟨y :: r, by simp only [optMap, hy, hr, Option.some_bind]⟩

theorem isBarrier_space : isBarrier SPACE = true := by decide

/-- The title between its two spaces is two wider than the title. -/
theorem visibleLength_titleText (title : Str) :
    visibleLength ([SPACE] ++ title ++ [SPACE]) = visibleLength title + 2 := by
  have h1 : [SPACE] ++ title ++ [SPACE] = ([] : Str) ++ SPACE :: (title ++ SPACE :: []) := by
    simp
  rw [h1, visibleLength_append_barrier _ _ isBarrier_space,
    visibleLength_append_barrier _ _ isBarrier_space]
  simp [visibleLength, stripAnsi_nil]
  omega

/-- A border style that is not a property name inherited from `Object.prototype`
gets glyphs: its own or those of the fallback. -/
theorem borderFor_some {β : Type} (table : List (Str × β)) (fallback : β) (style : Str)
    (h : style ∉ objectPrototypeKeys) : ∃ b, borderFor table fallback style = some b := by
  unfold borderFor
  cases table.lookup style with
  | some b => exact ⟨b, rfl⟩
  | none => exact ⟨fallback, by simp [h]⟩

/-- The top border of a box throws exactly when the title does not fit into the
width, or, without a title, when the width is negative. -/
theorem Box_topBorder_eq_none_iff (border : Border) (c : ColorSpec) (title titleAlign : Str)
    (W : Int) (hc : c.isObject = false) :
    Box.topBorder border c title titleAlign W = none ↔
      (title ≠ [] ∧ W < (visibleLength title : Int) + 2) ∨ (title = [] ∧ W < 0) := by
  have hcol : ∀ t, ∃ out, colorize c t = some out := colorize_some c hc
  unfold Box.topBorder
  by_cases ht : title = []
  · simp only [ht, ne_eq, not_true_eq_false, if_false, false_and, true_and, false_or]
    by_cases hW : W < 0
    · simp [(jsRepeat_eq_none_iff border.horizontal W).2 hW, hW]
    · rw [jsRepeat_of_nonneg _ _ (not_lt.1 hW)]
      obtain ⟨out, hout⟩ := hcol (border.topLeft ++ strRepeat border.horizontal W.toNat
        ++ border.topRight)
      simp only [Option.some_bind, hout, hW, iff_false]
      exact Option.some_ne_none _
  · simp only [ht, ne_eq, not_false_eq_true, if_true, true_and, false_and, or_false]
    rw [visibleLength_titleText]
    push_cast
    by_cases hW : W < (visibleLength title : Int) + 2
    · have h1 : W - ((visibleLength title : Int) + 2) < 0 := by omega
      have h2 : (W - ((visibleLength title : Int) + 2)) / 2 < 0 := by omega
      obtain ⟨a, ha⟩ := hcol border.topLeft
      simp [(jsRepeat_eq_none_iff border.horizontal _).2 h1,
        (jsRepeat_eq_none_iff border.horizontal _).2 h2, hW, ha]
    · have h1 : 0 ≤ W - ((visibleLength title : Int) + 2) := by omega
      have h2 : 0 ≤ (W - ((visibleLength title : Int) + 2)) / 2 := by omega
      have h3 : 0 ≤ W - ((visibleLength title : Int) + 2)
          - (W - ((visibleLength title : Int) + 2)) / 2 := by omega
      simp only [jsRepeat_of_nonneg _ _ h1, jsRepeat_of_nonneg _ _ h2, jsRepeat_of_nonneg _ _ h3,
        Option.some_bind, hW, iff_false]
      split
      · obtain ⟨a, ha⟩ := hcol (border.topLeft ++ strRepeat border.horizontal
          ((W - ((visibleLength title : Int) + 2)) / 2).toNat)
        obtain ⟨b, hb⟩ := hcol (strRepeat border.horizontal
          (W - ((visibleLength title : Int) + 2)
            - (W - ((visibleLength title : Int) + 2)) / 2).toNat ++ border.topRight)
        simp [ha, hb]
      · split
        · obtain ⟨a, ha⟩ := hcol (border.topLeft ++ strRepeat border.horizontal
            (W - ((visibleLength title : Int) + 2)).toNat)
          obtain ⟨b, hb⟩ := hcol border.topRight
          simp [ha, hb]
        · obtain ⟨a, ha⟩ := hcol border.topLeft
          obtain ⟨b, hb⟩ := hcol (strRepeat border.horizontal
            (W - ((visibleLength title : Int) + 2)).toNat ++ border.topRight)
          simp [ha, hb]

theorem Box_paddedLines_some (o : BoxOptions) (hl : 0 ≤ o.padding.left)
    (hr : 0 ≤ o.padding.right) : ∃ pl, Box.paddedLines o = some pl := by
  obtain ⟨cl, hcl⟩ := optMap_some (Box.contentLine o) (split NEWLINE o.content) (fun line _ => by
    simp only [Box.contentLine, jsRepeat_of_nonneg _ _ hl, jsRepeat_of_nonneg _ _ hr,
      Option.some_bind]
    exact ⟨_, rfl⟩)
  simp only [Box.paddedLines, hcl, Option.some_bind]
  exact ⟨_, rfl⟩

theorem Box_frames_some (border : Border) (c : ColorSpec) (W : Int) (lines : List Str)
    (hc : c.isObject = false) : ∃ rows, optMap (Box.frame border c W) lines = some rows := by
  obtain ⟨v, hv⟩ := colorize_some c hc border.vertical
  exact optMap_some _ _ (fun line _ => by
    simp only [Box.frame, hv, Option.some_bind]
    exact ⟨_, rfl⟩)

theorem Box_bottomBorder_eq_none_iff (border : Border) (c : ColorSpec) (W : Int)
    (hc : c.isObject = false) : Box.bottomBorder border c W = none ↔ W < 0 := by
  unfold Box.bottomBorder
  by_cases hW : W < 0
  · simp [(jsRepeat_eq_none_iff border.horizontal W).2 hW, hW]
  · rw [jsRepeat_of_nonneg _ _ (not_lt.1 hW)]
    obtain ⟨out, hout⟩ := colorize_some c hc (border.bottomLeft
      ++ strRepeat border.horizontal W.toNat ++ border.bottomRight)
    simp only [Option.some_bind, hout, hW, iff_false]
    exact Option.some_ne_none _

/-- With a border style that has glyphs, a border colour that is not an object
and side padding that is not negative, `build` throws exactly when the title
does not fit into the inner width or the inner width is negative. -/
theorem Box_build_eq_none_iff (o : BoxOptions) (hstyle : o.borderStyle ∉ objectPrototypeKeys)
    (hc : o.borderColor.isObject = false) (hl : 0 ≤ o.padding.left)
    (hr : 0 ≤ o.padding.right) :
    Box.build o = none ↔
      (o.title ≠ [] ∧ Box.innerWidth o < (visibleLength o.title : Int) + 2)
      ∨ Box.innerWidth o < 0 := by
  obtain ⟨border, hb⟩ := borderFor_some BORDERS BORDERS.single o.borderStyle hstyle
  obtain ⟨pl, hpl⟩ := Box_paddedLines_some o hl hr
  obtain ⟨rows, hrows⟩ := Box_frames_some border o.borderColor (Box.innerWidth o)
    (Box.finalLines o pl) hc
  have htop := Box_topBorder_eq_none_iff border o.borderColor o.title o.titleAlign
    (Box.innerWidth o) hc
  have hbot := Box_bottomBorder_eq_none_iff border o.borderColor (Box.innerWidth o) hc
  rw [Box_build_eq, Option.map_eq_none', Box.lines]
  simp only [hb, hpl, Option.some_bind]
  cases ht : Box.topBorder border o.borderColor o.title o.titleAlign (Box.innerWidth o) with
  | none =>
    simp only [Option.none_bind, true_iff]
    rcases htop.1 ht with h | h
    · exact Or.inl h
    · exact Or.inr h.2
  | some top =>
    simp only [Option.some_bind, hrows]
    have hnt : ¬ ((o.title ≠ [] ∧ Box.innerWidth o < (visibleLength o.title : Int) + 2)
        ∨ (o.title = [] ∧ Box.innerWidth o < 0)) := by
      rw [← htop, ht]
      simp
    cases hbt : Box.bottomBorder border o.borderColor (Box.innerWidth o) with
    | none =>
      simp only [Option.none_bind, true_iff]
      exact Or.inr (hbot.1 hbt)
    | some bottom =>
      simp only [Option.some_bind]
      have hW : ¬ Box.innerWidth o < 0 := by
        rw [← hbot, hbt]
        simp
      constructor
      · intro h
        exact absurd h (Option.some_ne_none _)
      · rintro (h | h)
        · exact absurd (Or.inl h) hnt
        · exact absurd h hW

/-! ## Claims on the failures of `Box` -/

/-- C40: for a box whose border style has glyphs, whose border colour is absent
or a string and whose side padding is not negative: without a width,
`toString()` returns; with a positive width `w` it throws exactly when the title
is not empty and `visibleLength(title) + 2 > w`. -/
theorem C40_box_raises_iff (o : BoxOptions) (hstyle : o.borderStyle ∉ objectPrototypeKeys)
    (hc : o.borderColor.isObject = false) (hl : 0 ≤ o.padding.left)
    (hr : 0 ≤ o.padding.right) :
    (o.width = none → ∃ out, Box.build o = some out) ∧
    (∀ w : Int, o.width = some w → 0 < w →
      (Box.build o = none ↔ (o.title ≠ [] ∧ w < (visibleLength o.title : Int) + 2))) := by
  have hiff := Box_build_eq_none_iff o hstyle hc hl hr
  constructor
  · intro hw
    have hW : Box.innerWidth o
        = max (getMaxWidth o.content) ((visibleLength o.title : Int) + 2) := by
      simp only [Box.innerWidth, hw]
    have hne : Box.build o ≠ none := by
      rw [Ne, hiff, hW]
      rintro (⟨_, h⟩ | h)
      · exact absurd (le_max_right _ _) (not_le.2 h)
      · have := le_max_right (getMaxWidth o.content) ((visibleLength o.title : Int) + 2)
        omega
    exact Option.ne_none_iff_exists'.1 hne
  · intro w hw hpos
    have hW : Box.innerWidth o = w := by
      simp only [Box.innerWidth, hw, if_pos (ne_of_gt hpos)]
    rw [hiff, hW]
    constructor
    · rintro (h | h)
      · exact h
      · omega
    · exact fun h => Or.inl h

/-- C40 at `Box({content: 'x', title: 'long title', width: 5})`: the title needs
12 columns, so `toString()` throws. -/
theorem C40_box_raises_iff_witness :
    Box.build (BoxOptions.mk (js "x") (js "long title") (js "left") (some 5) none (.uniform 1)
      (js "single") .absent (js "left") (js "top")) = none :=
  ((C40_box_raises_iff (BoxOptions.mk (js "x") (js "long title") (js "left") (some 5) none
      (.uniform 1) (js "single") .absent (js "left") (js "top")) (by decide) rfl (by decide)
    (by decide)).2 5 rfl (by decide)).2 ⟨by decide, by decide⟩

/-! ## Claims on the height of `Box` -/

theorem fitToHeight_eq_specFit (lines : List Str) (t : Int) (ht : 0 ≤ t) (valign : Str) :
    fitToHeight lines t valign = specFit lines t.toNat valign := by
  unfold fitToHeight specFit
  by_cases h1 : (lines.length : Int) = t
  · have h2 : ¬ lines.length < t.toNat := by omega
    have h3 : t.toNat = lines.length := by omega
    rw [if_pos h1, if_neg h2, h3, List.take_length]
  · rw [if_neg h1]
    by_cases h2 : (lines.length : Int) < t
    · have h3 : lines.length < t.toNat := by omega
      have e1 : (t - (lines.length : Int)).toNat = t.toNat - lines.length := by omega
      have e2 : ((t - (lines.length : Int)) / 2).toNat = (t.toNat - lines.length) / 2 := by
        omega
      have e3 : (t - (lines.length : Int) - (t - (lines.length : Int)) / 2).toNat
          = (t.toNat - lines.length) - (t.toNat - lines.length) / 2 := by omega
      simp only [if_pos h2, if_pos h3, e1, e2, e3]
    · have h3 : ¬ lines.length < t.toNat := by omega
      rw [if_neg h2, if_neg h3, slice0, if_neg (not_lt.2 ht)]

theorem length_specFit (lines : List Str) (n : Nat) (valign : Str) :
    (specFit lines n valign).length = n := by
  unfold specFit
  split
  · split
    · simp only [List.length_append, List.length_replicate]
      omega
    · split
      · simp only [List.length_append, List.length_replicate]
        omega
      · simp only [List.length_append, List.length_replicate]
        omega
  · rw [List.length_take]
    omega

/-- C33: a box with a height `h >= 2`, side padding that is not negative, a
border style with glyphs, a border colour that is not an object and a title that
fits into the inner width is an array of exactly `h` lines joined by newlines:
the top border, `h - 2` framed lines and the bottom border. The framed lines are
the padded content lines fitted to `h - 2`: with `e` lines missing, `e` blank
lines come below for `top`, above for `bottom`, `floor(e/2)` above and the rest
below for `center`; with lines in excess only the first `h - 2` are kept. -/
theorem C33_box_height (o : BoxOptions) (h : Int) (hh : o.height = some h) (h2 : 2 ≤ h)
    (hstyle : o.borderStyle ∉ objectPrototypeKeys) (hc : o.borderColor.isObject = false)
    (hl : 0 ≤ o.padding.left) (hr : 0 ≤ o.padding.right)
    (htitle : o.title = [] ∨ (visibleLength o.title : Int) + 2 ≤ Box.innerWidth o)
    (hW : 0 ≤ Box.innerWidth o) :
    ∃ (border : Border) (padded : List Str) (top : Str) (rows : List Str) (bottom : Str),
      borderFor BORDERS BORDERS.single o.borderStyle = some border ∧
      Box.paddedLines o = some padded ∧
      Box.build o = some (join [NEWLINE] ([top] ++ rows ++ [bottom])) ∧
      (([top] ++ rows ++ [bottom]).length : Int) = h ∧
      (rows.length : Int) = h - 2 ∧
      optMap (Box.frame border o.borderColor (Box.innerWidth o))
        (specFit padded (h - 2).toNat o.valign) = some rows := by
  have hne : Box.build o ≠ none := by
    rw [Ne, Box_build_eq_none_iff o hstyle hc hl hr]
    rintro (⟨h1, h3⟩ | h3)
    · rcases htitle with ht | ht
      · exact h1 ht
      · omega
    · omega
  obtain ⟨out, hout⟩ := Option.ne_none_iff_exists'.1 hne
  rw [Box_build_eq] at hout
  obtain ⟨lines, hlines, hjoin⟩ := Option.map_eq_some'.1 hout
  unfold Box.lines at hlines
  obtain ⟨border, hb⟩ := borderFor_some BORDERS BORDERS.single o.borderStyle hstyle
  obtain ⟨padded, hp⟩ := Box_paddedLines_some o hl hr
  simp only [hb, hp, Option.some_bind] at hlines
  cases ht : Box.topBorder border o.borderColor o.title o.titleAlign (Box.innerWidth o) with
  | none => simp [ht] at hlines
  | some top =>
    simp only [ht, Option.some_bind] at hlines
    have hfinal : Box.finalLines o padded = specFit padded (h - 2).toNat o.valign := by
      have hne0 : h ≠ 0 := by omega
      simp only [Box.finalLines, hh, if_pos hne0]
      exact fitToHeight_eq_specFit padded (h - 2) (by omega) o.valign
    rw [hfinal] at hlines
    cases hrows : optMap (Box.frame border o.borderColor (Box.innerWidth o))
        (specFit padded (h - 2).toNat o.valign) with
    | none => simp [hrows] at hlines
    | some rows =>
      simp only [hrows, Option.some_bind] at hlines
      cases hbot : Box.bottomBorder border o.borderColor (Box.innerWidth o) with
      | none => simp [hbot] at hlines
      | some bottom =>
        simp only [hbot, Option.some_bind, Option.some.injEq] at hlines
        have hlen : rows.length = (h - 2).toNat := by
          rw [optMap_length _ _ _ hrows, length_specFit]
        refine ⟨border, padded, top, rows, bottom, hb, hp, ?_, ?_, ?_, hrows⟩
        · rw [Box_build_eq, Box.lines]
          simp only [hb, hp, Option.some_bind, ht, hfinal, hrows, hbot, Option.map_some']
        · simp only [List.length_append, List.length_cons, List.length_nil]
          omega
        · omega

set_option maxRecDepth 100000 in
/-- C33 at `Box({content: 'a\nb', padding: 0, height: 6, valign: 'center'})`: the
two content lines get one blank line above and one below. -/
theorem C33_box_height_witness :
    Box.build (BoxOptions.mk (js "a\nb") [] (js "left") none (some 6) (.uniform 0)
      (js "single") .absent (js "left") (js "center"))
      = some (js "┌──┐\n│  │\n│a │\n│b │\n│  │\n└──┘") := by
  obtain ⟨border, padded, top, rows, bottom, h1, h2, h3, h4, h5, h6⟩ := C33_box_height
    (BoxOptions.mk (js "a\nb") [] (js "left") none (some 6) (.uniform 0)
      (js "single") .absent (js "left") (js "center")) 6 rfl (by decide) (by decide) rfl
    (by decide) (by decide) (Or.inl rfl) (by decide)
  decide

/-! ## Facts about glyphs and codes between other strings -/

theorem invisible_head {s : Str} (h : Invisible s) : s = [] ∨ ∃ t, s = ESC :: t := by
  cases s with
  | nil => exact Or.inl rfl
  | cons c t =>
    right
    by_cases hc : c = ESC
    · exact ⟨t, by rw [hc]⟩
    · exfalso
      have h1 := h []
      rw [List.append_nil, stripAnsi_keep (matchAt_of_ne_esc t hc), stripAnsi_nil] at h1
      exact List.cons_ne_nil _ _ h1

theorem esc_not_mem_of_barrier {g : Str} (hg : ∀ x ∈ g, isBarrier x = true) : ESC ∉ g := by
  intro h
  have := hg ESC h
  revert this
  decide

/-- Glyphs between an invisible prefix and an invisible suffix separate what
surrounds them. -/
theorem separating_wrap (pre g post : Str) (hpre : Invisible pre) (hpost : Invisible post)
    (hg : ∀ x ∈ g, isBarrier x = true) (hne : g ≠ []) : Separating (pre ++ g ++ post) g := by
  intro X Y
  have hesc := esc_not_mem_of_barrier hg
  have hinner : stripAnsi (pre ++ g ++ post ++ Y) = g ++ stripAnsi Y := by
    rw [List.append_assoc, List.append_assoc, hpre, stripAnsi_plain_append g _ hesc, hpost]
  rcases invisible_head hpre with h0 | ⟨t, ht⟩
  · subst h0
    cases g with
    | nil => exact absurd rfl hne
    | cons c g2 =>
      have hc : isBarrier c = true := hg c (List.mem_cons_self _ _)
      have hesc2 : ESC ∉ g2 := fun h => hesc (List.mem_cons_of_mem _ h)
      have e : X ++ ([] ++ c :: g2 ++ post) ++ Y = X ++ c :: (g2 ++ post ++ Y) := by simp
      rw [e, stripAnsi_append_barrier X _ hc, List.append_assoc,
        stripAnsi_plain_append g2 _ hesc2, hpost]
      simp
  · have e : X ++ (pre ++ g ++ post) ++ Y = X ++ ESC :: (t ++ g ++ post ++ Y) := by
      rw [ht]
      simp
    have e2 : ESC :: (t ++ g ++ post ++ Y) = pre ++ g ++ post ++ Y := by
      rw [ht]
      simp
    rw [e, stripAnsi_append_esc, e2, hinner, List.append_assoc]

theorem separating_append {s1 g1 s2 g2 : Str} (h1 : Separating s1 g1) (h2 : Separating s2 g2) :
    Separating (s1 ++ s2) (g1 ++ g2) := by
  intro X Y
  have e : X ++ (s1 ++ s2) ++ Y = X ++ s1 ++ (s2 ++ Y) := by simp
  have e2 : s2 ++ Y = [] ++ s2 ++ Y := by simp
  rw [e, h1, e2, h2, stripAnsi_nil]
  simp

/-- A text between two spaces separates what surrounds it. -/
theorem separating_spaced (title : Str) :
    Separating ([SPACE] ++ title ++ [SPACE]) ([SPACE] ++ stripAnsi title ++ [SPACE]) := by
  intro X Y
  have e : X ++ ([SPACE] ++ title ++ [SPACE]) ++ Y = X ++ SPACE :: (title ++ SPACE :: Y) := by
    simp
  rw [e, stripAnsi_append_barrier X _ isBarrier_space,
    stripAnsi_append_barrier title Y isBarrier_space]
  simp

theorem separating_strip {sep g : Str} (h : Separating sep g) : stripAnsi sep = g := by
  have := h [] []
  simpa [stripAnsi_nil] using this

theorem separating_left {sep g : Str} (h : Separating sep g) (Y : Str) :
    stripAnsi (sep ++ Y) = g ++ stripAnsi Y := by
  have := h [] Y
  simpa [stripAnsi_nil] using this

theorem separating_right {sep g : Str} (h : Separating sep g) (X : Str) :
    stripAnsi (X ++ sep) = stripAnsi X ++ g := by
  have := h X []
  simpa [stripAnsi_nil] using this

/-- Cells joined by a separating string are stripped one by one. -/
theorem stripAnsi_join_separating {sep g : Str} (h : Separating sep g) (cells : List Str) :
    stripAnsi (join sep cells) = join g (cells.map stripAnsi) := by
  induction cells with
  | nil => rfl
  | cons x rest ih =>
    cases rest with
    | nil => rfl
    | cons y rest2 =>
      rw [join_cons_cons, h x _, ih]
      rfl

/-! ## Facts about the border glyphs and `colorize` -/

theorem lookup_mem_of {β : Type} {table : List (Str × β)} {k : Str} {v : β}
    (h : table.lookup k = some v) : (k, v) ∈ table := by
  induction table with
  | nil => simp at h
  | cons e rest ih =>
    obtain ⟨k2, v2⟩ := e
    by_cases hk : k = k2
    · subst hk
      simp only [List.lookup_cons, beq_self_eq_true, Option.some.injEq] at h
      subst h
      exact List.mem_cons_self _ _
    · have hb : (k == k2) = false := by simpa using hk
      simp only [List.lookup_cons, hb] at h
      exact List.mem_cons_of_mem _ (ih h)

theorem BORDERS_plain : ∀ e ∈ BORDERS, e.2.plain = true := by decide

theorem TABLE_BORDERS_plain : ∀ e ∈ TABLE_BORDERS, e.2.plain = true := by decide

/-- The border that `Box` draws with is one of `BORDERS`: its glyphs are plain. -/
theorem borderFor_box_plain {style : Str} {b : Border}
    (h : borderFor BORDERS BORDERS.single style = some b) : b.plain = true := by
  cases hl : BORDERS.lookup style with
  | some v =>
    simp only [borderFor, hl, Option.some.injEq] at h
    subst h
    exact BORDERS_plain (style, v) (lookup_mem_of hl)
  | none =>
    simp only [borderFor, hl] at h
    split at h
    · exact absurd h (by simp)
    · simp only [Option.some.injEq] at h
      subst h
      decide

/-- The border that `Table` draws with is one of `TABLE_BORDERS`: its glyphs are
plain. -/
theorem borderFor_table_plain {style : Str} {b : TableBorder}
    (h : borderFor TABLE_BORDERS TABLE_BORDERS.single style = some b) : b.plain = true := by
  cases hl : TABLE_BORDERS.lookup style with
  | some v =>
    simp only [borderFor, hl, Option.some.injEq] at h
    subst h
    exact TABLE_BORDERS_plain (style, v) (lookup_mem_of hl)
  | none =>
    simp only [borderFor, hl] at h
    split at h
    · exact absurd h (by simp)
    · simp only [Option.some.injEq] at h
      subst h
      decide

theorem isGlyph_spec {g : Str} (h : isGlyph g = true) :
    g.length = 1 ∧ g ≠ [] ∧ (∀ x ∈ g, isBarrier x = true) ∧ NEWLINE ∉ g := by
  simp only [isGlyph, Bool.and_eq_true, beq_iff_eq, List.all_eq_true, bne_iff_ne, ne_eq] at h
  refine ⟨h.1, ?_, fun x hx => (h.2 x hx).1, fun hn => (h.2 NEWLINE hn).2 rfl⟩
  intro e
  rw [e] at h
  simp at h

theorem isParams_rgb_params (p : Str) (hp : IsParams p) (r g b : Nat) :
    IsParams (p ++ decimal r ++ js ";" ++ decimal g ++ js ";" ++ decimal b) := by
  have h2 : IsParams (js ";") := by decide
  exact isParams_append (isParams_append (isParams_append (isParams_append
    (isParams_append hp (decimal_isParams r)) h2) (decimal_isParams g)) h2) (decimal_isParams b)

theorem newline_not_mem_code (ps : Str) (h : IsParams ps) : NEWLINE ∉ code ps := by
  intro hn
  unfold code at hn
  rcases List.mem_cons.1 hn with h1 | h1
  · exact absurd h1 (by decide)
  · rcases List.mem_cons.1 h1 with h2 | h2
    · exact absurd h2 (by decide)
    · rcases List.mem_append.1 h2 with h3 | h3
      · exact absurd (h NEWLINE h3) (by decide)
      · exact absurd (List.mem_singleton.1 h3) (by decide)

theorem fg_entry_no_newline : ∀ e ∈ ANSI.fg, NEWLINE ∉ e.2 := by decide

/-- The code of a foreground colour that is absent, a palette name or `#` and six
digits is invisible and holds no newline. -/
theorem colorCode_fg_style {c : ColorSpec} (h : isStyleColor ANSI.fg c = true) :
    ∃ cd, colorCode hex ANSI.fg c = some cd ∧ Invisible cd ∧ NEWLINE ∉ cd := by
  cases c with
  | absent => exact ⟨[], rfl, invisible_nil, List.not_mem_nil _⟩
  | obj r g b => simp [isStyleColor] at h
  | str s =>
    simp only [isStyleColor, Bool.or_eq_true, Bool.and_eq_true] at h
    rcases h with h1 | ⟨h1, h2⟩
    · obtain ⟨v, hv⟩ := Option.isSome_iff_exists.1 h1
      have := fg_entry (s, v) (lookup_mem hv)
      exact ⟨v, this.1, invisible_of_matchAt this.2, fg_entry_no_newline (s, v) (lookup_mem hv)⟩
    · rw [str_eq_sharp_tail h1, colorCode_sharp, hex_sharp_sixHex h2]
      refine ⟨_, rfl, invisible_rgb_nat _ _ _, ?_⟩
      rw [rgb_nat_eq_code]
      exact newline_not_mem_code _ (isParams_rgb_params _ (by decide) _ _ _)

theorem invisible_reset : Invisible ANSI.reset := by
  apply invisible_of_matchAt
  decide

/-- With a colour that is absent, a palette name or `#` and six digits,
`colorize` puts its text between an invisible prefix and an invisible suffix,
both without a newline. -/
theorem colorize_style (c : ColorSpec) (hc : isStyleColor ANSI.fg c = true) (g : Str) :
    ∃ pre post, colorize c g = some (pre ++ g ++ post) ∧ Invisible pre ∧ Invisible post ∧
      NEWLINE ∉ pre ∧ NEWLINE ∉ post := by
  unfold colorize
  split
  · obtain ⟨cd, hcd, hinv, hnl⟩ := colorCode_fg_style hc
    refine ⟨cd, ANSI.reset, ?_, hinv, invisible_reset, hnl, by decide⟩
    rw [textWithColor, Text_build_eq, hcd]
    simp [attrCodes, colorCode]
  · exact ⟨[], [], by simp, invisible_nil, invisible_nil, List.not_mem_nil _,
      List.not_mem_nil _⟩

/-- The value `colorize(glyphs)` for plain glyphs separates what surrounds it. -/
theorem colorize_separating (c : ColorSpec) (hc : isStyleColor ANSI.fg c = true) (g : Str)
    (hg : ∀ x ∈ g, isBarrier x = true) (hne : g ≠ []) :
    ∃ out, colorize c g = some out ∧ Separating out g ∧ (NEWLINE ∉ g → NEWLINE ∉ out) := by
  obtain ⟨pre, post, h1, h2, h3, h4, h5⟩ := colorize_style c hc g
  refine ⟨_, h1, separating_wrap pre g post h2 h3 hg hne, fun hn => ?_⟩
  simp only [List.mem_append, not_or]
  exact ⟨⟨h4, hn⟩, h5⟩

/-- The value `colorize(text)` strips to what the text strips to. -/
theorem colorize_strip (c : ColorSpec) (hc : isStyleColor ANSI.fg c = true) (g : Str) :
    ∃ out, colorize c g = some out ∧ stripAnsi out = stripAnsi g ∧
      (NEWLINE ∉ g → NEWLINE ∉ out) := by
  obtain ⟨pre, post, h1, h2, h3, h4, h5⟩ := colorize_style c hc g
  refine ⟨_, h1, ?_, fun hn => ?_⟩
  · have e : ANSI.reset = ESC :: js "[0m" := by decide
    rw [List.append_assoc, h2]
    rcases invisible_head h3 with h0 | ⟨t, ht⟩
    · rw [h0, List.append_nil]
    · rw [ht, stripAnsi_append_esc, ← ht]
      have := h3 []
      rw [List.append_nil, stripAnsi_nil] at this
      rw [this, List.append_nil]
  · simp only [List.mem_append, not_or]
    exact ⟨⟨h4, hn⟩, h5⟩

theorem barrier_strRepeat {g : Str} (hg : ∀ x ∈ g, isBarrier x = true) (k : Nat) :
    ∀ x ∈ strRepeat g k, isBarrier x = true := by
  induction k with
  | zero => intro x hx; simp [strRepeat] at hx
  | succ k ih =>
    intro x hx
    simp only [strRepeat, List.mem_append] at hx
    rcases hx with hx | hx
    · exact hg x hx
    · exact ih x hx

theorem not_mem_strRepeat {c : Nat} {g : Str} (hg : c ∉ g) (k : Nat) : c ∉ strRepeat g k := by
  induction k with
  | zero => simp [strRepeat]
  | succ k ih =>
    simp only [strRepeat, List.mem_append, not_or]
    exact ⟨hg, ih⟩

theorem length_strRepeat_glyph {g : Str} (hg : g.length = 1) (k : Nat) :
    (strRepeat g k).length = k := by
  induction k with
  | zero => rfl
  | succ k ih =>
    simp only [strRepeat, List.length_append, hg, ih]
    omega

/-! ## Facts about the top border of `Box` -/

/-- A title between its spaces and two runs of coloured glyphs. -/
theorem titled_line (c : ColorSpec) (hc : isStyleColor ANSI.fg c = true) (g1 g2 title : Str)
    (h1 : ∀ x ∈ g1, isBarrier x = true) (n1 : g1 ≠ []) (h2 : ∀ x ∈ g2, isBarrier x = true)
    (n2 : g2 ≠ []) :
    ∃ a b, colorize c g1 = some a ∧ colorize c g2 = some b ∧
      stripAnsi (a ++ ([SPACE] ++ title ++ [SPACE]) ++ b)
        = g1 ++ ([SPACE] ++ stripAnsi title ++ [SPACE]) ++ g2 ∧
      (NEWLINE ∉ g1 → NEWLINE ∉ g2 → NEWLINE ∉ title →
        NEWLINE ∉ a ++ ([SPACE] ++ title ++ [SPACE]) ++ b) := by
  obtain ⟨a, ha, sa, na⟩ := colorize_separating c hc g1 h1 n1
  obtain ⟨b, hb, sb, nb⟩ := colorize_separating c hc g2 h2 n2
  refine ⟨a, b, ha, hb, ?_, fun m1 m2 mt => ?_⟩
  · exact separating_strip (separating_append (separating_append sa (separating_spaced title)) sb)
  · simp only [List.mem_append, List.mem_singleton, not_or]
    exact ⟨⟨na m1, ⟨⟨by decide, mt⟩, by decide⟩⟩, nb m2⟩

theorem mem_append_barrier {g1 g2 : Str} (h1 : ∀ x ∈ g1, isBarrier x = true)
    (h2 : ∀ x ∈ g2, isBarrier x = true) : ∀ x ∈ g1 ++ g2, isBarrier x = true := by
  intro x hx
  rcases List.mem_append.1 hx with h | h
  · exact h1 x h
  · exact h2 x h

/-- The top border of a box, for a border with plain glyphs, a colour that is
absent, a palette name or `#` and six digits, a title and a width the title
fits into: the two coloured runs of glyphs around the title, by alignment. -/
theorem Box_topBorder_titled (border : Border) (hb : border.plain = true) (c : ColorSpec)
    (hc : isStyleColor ANSI.fg c = true) (title titleAlign : Str) (hne : title ≠ []) (W : Int)
    (hW : (visibleLength title : Int) + 2 ≤ W) :
    ∃ g1 g2 a b, colorize c g1 = some a ∧ colorize c g2 = some b ∧
      Box.topBorder border c title titleAlign W = some (a ++ ([SPACE] ++ title ++ [SPACE]) ++ b) ∧
      stripAnsi (a ++ ([SPACE] ++ title ++ [SPACE]) ++ b)
        = g1 ++ ([SPACE] ++ stripAnsi title ++ [SPACE]) ++ g2 ∧
      (NEWLINE ∉ title → NEWLINE ∉ a ++ ([SPACE] ++ title ++ [SPACE]) ++ b) ∧
      g1 = border.topLeft ++ strRepeat border.horizontal
        (if titleAlign = js "center" then (W - ((visibleLength title : Int) + 2)).toNat / 2
          else if titleAlign = js "right" then (W - ((visibleLength title : Int) + 2)).toNat
          else 0) ∧
      g2 = strRepeat border.horizontal
        (if titleAlign = js "center" then (W - ((visibleLength title : Int) + 2)).toNat
            - (W - ((visibleLength title : Int) + 2)).toNat / 2
          else if titleAlign = js "right" then 0
          else (W - ((visibleLength title : Int) + 2)).toNat) ++ border.topRight := by
  simp only [Border.plain, Bool.and_eq_true] at hb
  obtain ⟨⟨⟨⟨⟨htl, htr⟩, _⟩, _⟩, hh⟩, _⟩ := hb
  obtain ⟨_, ntl, btl, nltl⟩ := isGlyph_spec htl
  obtain ⟨_, ntr, btr, nltr⟩ := isGlyph_spec htr
  obtain ⟨_, _, bh, nlh⟩ := isGlyph_spec hh
  have hk1 : 0 ≤ W - ((visibleLength title : Int) + 2) := by omega
  have hk2 : 0 ≤ (W - ((visibleLength title : Int) + 2)) / 2 := by omega
  have hk3 : 0 ≤ W - ((visibleLength title : Int) + 2)
      - (W - ((visibleLength title : Int) + 2)) / 2 := by omega
  have e2 : ((W - ((visibleLength title : Int) + 2)) / 2).toNat
      = (W - ((visibleLength title : Int) + 2)).toNat / 2 := by omega
  have e3 : (W - ((visibleLength title : Int) + 2)
        - (W - ((visibleLength title : Int) + 2)) / 2).toNat
      = (W - ((visibleLength title : Int) + 2)).toNat
        - (W - ((visibleLength title : Int) + 2)).toNat / 2 := by omega
  have key : ∀ k1 k2 : Nat, ∃ a b,
      colorize c (border.topLeft ++ strRepeat border.horizontal k1) = some a ∧
      colorize c (strRepeat border.horizontal k2 ++ border.topRight) = some b ∧
      stripAnsi (a ++ ([SPACE] ++ title ++ [SPACE]) ++ b)
        = (border.topLeft ++ strRepeat border.horizontal k1)
          ++ ([SPACE] ++ stripAnsi title ++ [SPACE])
          ++ (strRepeat border.horizontal k2 ++ border.topRight) ∧
      (NEWLINE ∉ title → NEWLINE ∉ a ++ ([SPACE] ++ title ++ [SPACE]) ++ b) := by
    intro k1 k2
    obtain ⟨a, b, ha, hb2, hs, hn⟩ := titled_line c hc
      (border.topLeft ++ strRepeat border.horizontal k1)
      (strRepeat border.horizontal k2 ++ border.topRight) title
      (mem_append_barrier btl (barrier_strRepeat bh k1)) (by simp [ntl])
      (mem_append_barrier (barrier_strRepeat bh k2) btr) (by simp [ntr])
    refine ⟨a, b, ha, hb2, hs, fun mt => hn ?_ ?_ mt⟩
    · simp only [List.mem_append, not_or]
      exact ⟨nltl, not_mem_strRepeat nlh k1⟩
    · simp only [List.mem_append, not_or]
      exact ⟨not_mem_strRepeat nlh k2, nltr⟩
  simp only [Box.topBorder, ne_eq, hne, not_false_eq_true, if_true, visibleLength_titleText,
    Nat.cast_add, Nat.cast_ofNat]
  by_cases hcen : titleAlign = js "center"
  · obtain ⟨a, b, ha, hb2, hs, hn⟩ := key
      ((W - ((visibleLength title : Int) + 2)).toNat / 2)
      ((W - ((visibleLength title : Int) + 2)).toNat
        - (W - ((visibleLength title : Int) + 2)).toNat / 2)
    refine ⟨_, _, a, b, ha, hb2, ?_, hs, hn, by rw [if_pos hcen], by rw [if_pos hcen]⟩
    simp only [if_pos hcen, jsRepeat_of_nonneg _ _ hk2, jsRepeat_of_nonneg _ _ hk3, e2, e3,
      Option.some_bind, ha, hb2]
  · by_cases hri : titleAlign = js "right"
    · obtain ⟨a, b, ha, hb2, hs, hn⟩ := key (W - ((visibleLength title : Int) + 2)).toNat 0
      refine ⟨_, _, a, b, ha, hb2, ?_, hs, hn, by rw [if_neg hcen, if_pos hri],
        by rw [if_neg hcen, if_pos hri]⟩
      have hb3 : colorize c border.topRight = some b := by
        simpa [strRepeat] using hb2
      simp only [if_neg hcen, if_pos hri, jsRepeat_of_nonneg _ _ hk1, Option.some_bind, ha, hb3]
    · obtain ⟨a, b, ha, hb2, hs, hn⟩ := key 0 (W - ((visibleLength title : Int) + 2)).toNat
      refine ⟨_, _, a, b, ha, hb2, ?_, hs, hn, by rw [if_neg hcen, if_neg hri],
        by rw [if_neg hcen, if_neg hri]⟩
      have ha3 : colorize c border.topLeft = some a := by
        simpa [strRepeat] using ha
      simp only [if_neg hcen, if_neg hri, jsRepeat_of_nonneg _ _ hk1, Option.some_bind, ha3, hb2]

/-- The top border of a box whose title fits is two wider than the inner width,
and holds a newline only if the title does. -/
theorem Box_topBorder_titled_width (border : Border) (hb : border.plain = true) (c : ColorSpec)
    (hc : isStyleColor ANSI.fg c = true) (title titleAlign : Str) (hne : title ≠ []) (W : Int)
    (hW : (visibleLength title : Int) + 2 ≤ W) :
    ∃ top, Box.topBorder border c title titleAlign W = some top ∧
      (visibleLength top : Int) = W + 2 ∧ (NEWLINE ∉ title → NEWLINE ∉ top) := by
  obtain ⟨g1, g2, a, b, _, _, htop, hs, hn, e1, e2⟩ :=
    Box_topBorder_titled border hb c hc title titleAlign hne W hW
  simp only [Border.plain, Bool.and_eq_true] at hb
  obtain ⟨⟨⟨⟨⟨htl, htr⟩, _⟩, _⟩, hh⟩, _⟩ := hb
  have l1 := (isGlyph_spec htl).1
  have l2 := (isGlyph_spec htr).1
  have l3 := (isGlyph_spec hh).1
  refine ⟨_, htop, ?_, hn⟩
  rw [visibleLength, hs, e1, e2]
  simp only [List.length_append, List.length_cons, List.length_nil, l1, l2,
    length_strRepeat_glyph l3]
  rw [show (stripAnsi title).length = visibleLength title from rfl]
  split_ifs <;> omega

/-- The top border of a box without a title is two wider than the inner width and
holds no newline. -/
theorem Box_topBorder_plain_width (border : Border) (hb : border.plain = true) (c : ColorSpec)
    (hc : isStyleColor ANSI.fg c = true) (titleAlign : Str) (W : Int) (hW : 0 ≤ W) :
    ∃ top, Box.topBorder border c [] titleAlign W = some top ∧
      (visibleLength top : Int) = W + 2 ∧ NEWLINE ∉ top := by
  simp only [Border.plain, Bool.and_eq_true] at hb
  obtain ⟨⟨⟨⟨⟨htl, htr⟩, _⟩, _⟩, hh⟩, _⟩ := hb
  obtain ⟨l1, _, b1, n1⟩ := isGlyph_spec htl
  obtain ⟨l2, _, b2, n2⟩ := isGlyph_spec htr
  obtain ⟨l3, _, b3, n3⟩ := isGlyph_spec hh
  obtain ⟨out, hout, hstrip, hnl⟩ := colorize_strip c hc
    (border.topLeft ++ strRepeat border.horizontal W.toNat ++ border.topRight)
  have hesc : ESC ∉ border.topLeft ++ strRepeat border.horizontal W.toNat ++ border.topRight :=
    esc_not_mem_of_barrier (mem_append_barrier (mem_append_barrier b1 (barrier_strRepeat b3 _)) b2)
  refine ⟨out, ?_, ?_, hnl ?_⟩
  · simp only [Box.topBorder, ne_eq, not_true_eq_false, if_false, jsRepeat_of_nonneg _ _ hW,
      Option.some_bind, hout]
  · rw [visibleLength, hstrip, stripAnsi_plain _ hesc]
    simp only [List.length_append, l1, l2, length_strRepeat_glyph l3]
    omega
  · simp only [List.mem_append, not_or]
    exact ⟨⟨n1, not_mem_strRepeat n3 _⟩, n2⟩

/-- The bottom border of a box is two wider than the inner width and holds no
newline. -/
theorem Box_bottomBorder_width (border : Border) (hb : border.plain = true) (c : ColorSpec)
    (hc : isStyleColor ANSI.fg c = true) (W : Int) (hW : 0 ≤ W) :
    ∃ bottom, Box.bottomBorder border c W = some bottom ∧
      (visibleLength bottom : Int) = W + 2 ∧ NEWLINE ∉ bottom := by
  simp only [Border.plain, Bool.and_eq_true] at hb
  obtain ⟨⟨⟨⟨⟨_, _⟩, hbl⟩, hbr⟩, hh⟩, _⟩ := hb
  obtain ⟨l1, _, b1, n1⟩ := isGlyph_spec hbl
  obtain ⟨l2, _, b2, n2⟩ := isGlyph_spec hbr
  obtain ⟨l3, _, b3, n3⟩ := isGlyph_spec hh
  obtain ⟨out, hout, hstrip, hnl⟩ := colorize_strip c hc
    (border.bottomLeft ++ strRepeat border.horizontal W.toNat ++ border.bottomRight)
  have hesc : ESC ∉ border.bottomLeft ++ strRepeat border.horizontal W.toNat
      ++ border.bottomRight :=
    esc_not_mem_of_barrier (mem_append_barrier (mem_append_barrier b1 (barrier_strRepeat b3 _)) b2)
  refine ⟨out, ?_, ?_, hnl ?_⟩
  · simp only [Box.bottomBorder, jsRepeat_of_nonneg _ _ hW, Option.some_bind, hout]
  · rw [visibleLength, hstrip, stripAnsi_plain _ hesc]
    simp only [List.length_append, l1, l2, length_strRepeat_glyph l3]
    omega
  · simp only [List.mem_append, not_or]
    exact ⟨⟨n1, not_mem_strRepeat n3 _⟩, n2⟩

/-! ## Claims on the top border of `Box` -/

/-- C34: for a box with a title that is not empty, an inner width `W >=
visibleLength(title) + 2`, a border style with glyphs and a border colour that
is absent, a palette name or `#` and six digits, the top border is `a + ' ' +
title + ' ' + b` for two coloured runs of glyphs `a` and `b`, has the visible
width `W + 2`, is the first line of the box, and is stripped to: corner, title
between spaces, `k = W - visibleLength(title) - 2` horizontal glyphs, corner for
`left` (and any other value); corner, `k` glyphs, title, corner for `right`;
corner, `floor(k/2)` glyphs, title, the other `k - floor(k/2)` glyphs, corner
for `center`. -/
theorem C34_box_title_border (o : BoxOptions) (hstyle : o.borderStyle ∉ objectPrototypeKeys)
    (hc : isStyleColor ANSI.fg o.borderColor = true) (hne : o.title ≠ [])
    (hW : (visibleLength o.title : Int) + 2 ≤ Box.innerWidth o) :
    ∃ (border : Border) (a b : Str),
      borderFor BORDERS BORDERS.single o.borderStyle = some border ∧
      Box.topBorder border o.borderColor o.title o.titleAlign (Box.innerWidth o)
        = some (a ++ ([SPACE] ++ o.title ++ [SPACE]) ++ b) ∧
      (∀ lines, Box.lines o = some lines →
        lines.head? = some (a ++ ([SPACE] ++ o.title ++ [SPACE]) ++ b)) ∧
      (visibleLength (a ++ ([SPACE] ++ o.title ++ [SPACE]) ++ b) : Int)
        = Box.innerWidth o + 2 ∧
      (o.titleAlign ≠ js "center" → o.titleAlign ≠ js "right" →
        colorize o.borderColor border.topLeft = some a ∧
        colorize o.borderColor (strRepeat border.horizontal
          (Box.innerWidth o - ((visibleLength o.title : Int) + 2)).toNat ++ border.topRight)
          = some b ∧
        stripAnsi (a ++ ([SPACE] ++ o.title ++ [SPACE]) ++ b)
          = border.topLeft ++ ([SPACE] ++ stripAnsi o.title ++ [SPACE])
            ++ (strRepeat border.horizontal
              (Box.innerWidth o - ((visibleLength o.title : Int) + 2)).toNat
              ++ border.topRight)) ∧
      (o.titleAlign = js "right" →
        colorize o.borderColor (border.topLeft ++ strRepeat border.horizontal
          (Box.innerWidth o - ((visibleLength o.title : Int) + 2)).toNat) = some a ∧
        colorize o.borderColor border.topRight = some b ∧
        stripAnsi (a ++ ([SPACE] ++ o.title ++ [SPACE]) ++ b)
          = (border.topLeft ++ strRepeat border.horizontal
              (Box.innerWidth o - ((visibleLength o.title : Int) + 2)).toNat)
            ++ ([SPACE] ++ stripAnsi o.title ++ [SPACE]) ++ border.topRight) ∧
      (o.titleAlign = js "center" →
        colorize o.borderColor (border.topLeft ++ strRepeat border.horizontal
          ((Box.innerWidth o - ((visibleLength o.title : Int) + 2)).toNat / 2)) = some a ∧
        colorize o.borderColor (strRepeat border.horizontal
          ((Box.innerWidth o - ((visibleLength o.title : Int) + 2)).toNat
            - (Box.innerWidth o - ((visibleLength o.title : Int) + 2)).toNat / 2)
          ++ border.topRight) = some b ∧
        stripAnsi (a ++ ([SPACE] ++ o.title ++ [SPACE]) ++ b)
          = (border.topLeft ++ strRepeat border.horizontal
              ((Box.innerWidth o - ((visibleLength o.title : Int) + 2)).toNat / 2))
            ++ ([SPACE] ++ stripAnsi o.title ++ [SPACE])
            ++ (strRepeat border.horizontal
              ((Box.innerWidth o - ((visibleLength o.title : Int) + 2)).toNat
                - (Box.innerWidth o - ((visibleLength o.title : Int) + 2)).toNat / 2)
              ++ border.topRight)) := by
  obtain ⟨border, hb⟩ := borderFor_some BORDERS BORDERS.single o.borderStyle hstyle
  have hplain := borderFor_box_plain hb
  obtain ⟨g1, g2, a, b, ha, hb2, htop, hs, _, e1, e2⟩ :=
    Box_topBorder_titled border hplain o.borderColor hc o.title o.titleAlign hne
      (Box.innerWidth o) hW
  obtain ⟨top, htop2, hwidth, _⟩ :=
    Box_topBorder_titled_width border hplain o.borderColor hc o.title o.titleAlign hne
      (Box.innerWidth o) hW
  rw [htop, Option.some.injEq] at htop2
  refine ⟨border, a, b, hb, htop, ?_, by rw [htop2]; exact hwidth, ?_, ?_, ?_⟩
  · intro lines hl
    unfold Box.lines at hl
    simp only [hb, Option.some_bind, htop] at hl
    cases hp : Box.paddedLines o with
    | none => simp [hp] at hl
    | some pl =>
      simp only [hp, Option.some_bind] at hl
      cases hr : optMap (Box.frame border o.borderColor (Box.innerWidth o))
          (Box.finalLines o pl) with
      | none => simp [hr] at hl
      | some rows =>
        simp only [hr, Option.some_bind] at hl
        cases hbt : Box.bottomBorder border o.borderColor (Box.innerWidth o) with
        | none => simp [hbt] at hl
        | some bottom =>
          simp only [hbt, Option.some_bind, Option.some.injEq] at hl
          rw [← hl]
          rfl
  · intro h1 h2
    simp only [if_neg h1, if_neg h2, strRepeat, List.append_nil] at e1 e2
    subst e1
    subst e2
    exact ⟨ha, hb2, hs⟩
  · intro h2
    have h1 : o.titleAlign ≠ js "center" := by
      rw [h2]
      decide
    simp only [if_neg h1, if_pos h2, strRepeat, List.nil_append] at e1 e2
    subst e1
    subst e2
    exact ⟨ha, hb2, hs⟩
  · intro h1
    simp only [if_pos h1] at e1 e2
    subst e1
    subst e2
    exact ⟨ha, hb2, hs⟩

set_option maxRecDepth 100000 in
/-- C34 at `Box({content: 'x', title: 'T', titleAlign: 'center', width: 9})`: the
top border is `┌─── T ───┐`, eleven wide. -/
theorem C34_box_title_border_witness :
    Box.topBorder BORDERS.single .absent (js "T") (js "center") 9 = some (js "┌─── T ───┐") ∧
    visibleLength (js "┌─── T ───┐") = 11 := by
  obtain ⟨border, a, b, h1, h2, _, h4, _, _, h7⟩ := C34_box_title_border
    (BoxOptions.mk (js "x") (js "T") (js "center") (some 9) none (.uniform 1) (js "single")
      .absent (js "left") (js "top")) (by decide) rfl (by decide) (by decide)
  decide

/-! ## Facts about the widths of the lines of `Box` -/

/-- The visible width of a padded string. -/
theorem visibleLength_pad (s : Str) (w : Int) (align : Str) :
    (visibleLength (pad s w align (js " ")) : Int) = max w (visibleLength s) := by
  simp only [pad, js_space]
  split
  · simp only [visibleLength, stripAnsi_spaces_append, List.append_assoc,
      stripAnsi_append_spaces, List.length_append, length_strRepeat]
    omega
  · split
    · simp only [visibleLength, stripAnsi_spaces_append, List.length_append, length_strRepeat]
      omega
    · simp only [visibleLength, stripAnsi_append_spaces, List.length_append, length_strRepeat]
      omega

theorem newline_not_mem_pad (s : Str) (h : NEWLINE ∉ s) (w : Int) (align : Str) :
    NEWLINE ∉ pad s w align (js " ") := by
  simp only [pad, js_space]
  split
  · simp only [List.mem_append, not_or]
    exact ⟨⟨newline_not_mem_spaces _, h⟩, newline_not_mem_spaces _⟩
  · split
    · simp only [List.mem_append, not_or]
      exact ⟨newline_not_mem_spaces _, h⟩
    · simp only [List.mem_append, not_or]
      exact ⟨h, newline_not_mem_spaces _⟩

/-- A function that returns for every item with `P`, with a result with `Q`, maps
a list of such items to a list of such results. -/
theorem optMap_forall {α β : Type} (f : α → Option β) (P : α → Prop) (Q : β → Prop)
    (h : ∀ x, P x → ∃ y, f x = some y ∧ Q y) (l : List α) (hl : ∀ x ∈ l, P x) :
    ∃ r, optMap f l = some r ∧ r.length = l.length ∧ ∀ y ∈ r, Q y := by
  induction l with
  | nil => exact ⟨[], rfl, rfl, fun y hy => absurd hy (List.not_mem_nil _)⟩
  | cons x xs ih =>
    obtain ⟨y, hy, qy⟩ := h x (hl x (List.mem_cons_self _ _))
    obtain ⟨r, hr, hlen, qr⟩ := ih (fun z hz => hl z (List.mem_cons_of_mem _ hz))
    refine ⟨y :: r, by simp only [optMap, hy, hr, Option.some_bind], by simp [hlen], ?_⟩
    intro z hz
    rcases List.mem_cons.1 hz with e | e
    · rw [e]
      exact qy
    · exact qr z e

theorem mem_fitToHeight {lines : List Str} {t : Int} {valign x : Str}
    (h : x ∈ fitToHeight lines t valign) : x ∈ lines ∨ x = [] := by
  unfold fitToHeight at h
  split at h
  · exact Or.inl h
  · split at h
    · split at h
      · simp only [List.mem_append, List.mem_replicate] at h
        rcases h with (h | h) | h
        · exact Or.inr h.2
        · exact Or.inl h
        · exact Or.inr h.2
      · split at h
        · simp only [List.mem_append, List.mem_replicate] at h
          rcases h with h | h
          · exact Or.inr h.2
          · exact Or.inl h
        · simp only [List.mem_append, List.mem_replicate] at h
          rcases h with h | h
          · exact Or.inl h
          · exact Or.inr h.2
    · unfold slice0 at h
      split at h
      · exact Or.inl (List.mem_of_mem_take h)
      · exact Or.inl (List.mem_of_mem_take h)

/-- A content line that fits between the side paddings fills the inner width. -/
theorem Box_contentLine_width (o : BoxOptions) (hl : 0 ≤ o.padding.left)
    (hr : 0 ≤ o.padding.right) (line : Str) (hnl : NEWLINE ∉ line)
    (hfit : (visibleLength line : Int) ≤ Box.innerWidth o - o.padding.left - o.padding.right) :
    ∃ cl, Box.contentLine o line = some cl ∧ (visibleLength cl : Int) = Box.innerWidth o ∧
      NEWLINE ∉ cl := by
  refine ⟨strRepeat [SPACE] o.padding.left.toNat
    ++ pad line (Box.innerWidth o - o.padding.left - o.padding.right) o.align (js " ")
    ++ strRepeat [SPACE] o.padding.right.toNat, by
    simp only [Box.contentLine, jsRepeat_of_nonneg _ _ hl, jsRepeat_of_nonneg _ _ hr,
      Option.some_bind], ?_, ?_⟩
  · have hp := visibleLength_pad line
      (Box.innerWidth o - o.padding.left - o.padding.right) o.align
    simp only [visibleLength] at hp hfit ⊢
    rw [List.append_assoc, stripAnsi_spaces_append, stripAnsi_append_spaces]
    simp only [List.length_append, length_strRepeat]
    omega
  · simp only [List.mem_append, not_or]
    exact ⟨⟨newline_not_mem_spaces _, newline_not_mem_pad line hnl _ _⟩,
      newline_not_mem_spaces _⟩

/-- A line that is not wider than the box is framed to the width of the box plus
the two vertical glyphs. -/
theorem Box_frame_width (border : Border) (hb : border.plain = true) (c : ColorSpec)
    (hc : isStyleColor ANSI.fg c = true) (W : Int) (line : Str)
    (hfit : (visibleLength line : Int) ≤ W) (hnl : NEWLINE ∉ line) :
    ∃ row, Box.frame border c W line = some row ∧ (visibleLength row : Int) = W + 2 ∧
      NEWLINE ∉ row := by
  simp only [Border.plain, Bool.and_eq_true] at hb
  obtain ⟨_, hv⟩ := hb
  obtain ⟨l1, n1, b1, nl1⟩ := isGlyph_spec hv
  obtain ⟨v, hcv, sv, nv⟩ := colorize_separating c hc border.vertical b1 n1
  refine ⟨v ++ pad line W (js "left") (js " ") ++ v, by
    simp only [Box.frame, hcv, Option.some_bind], ?_, ?_⟩
  · have hp := visibleLength_pad line W (js "left")
    simp only [visibleLength] at hp hfit ⊢
    rw [List.append_assoc, separating_left sv, separating_right sv]
    simp only [List.length_append, l1]
    omega
  · simp only [List.mem_append, not_or]
    exact ⟨⟨nv nl1, newline_not_mem_pad line hnl _ _⟩, nv nl1⟩

/-! ## Claims on the widths of the lines of `Box` -/

/-- C37: for a box with a positive width `w`, side paddings that are not negative,
content lines of `visibleLength <= w - left - right`, a title that is empty or has
no newline and `visibleLength(title) + 2 <= w`, a border colour that is absent, a
palette name or `#` and six digits, and a border style with glyphs, `toString()`
returns and every line of its result has the visible width `w + 2`. -/
theorem C37_box_line_widths (o : BoxOptions) (w : Int) (hw : o.width = some w) (hpos : 0 < w)
    (hstyle : o.borderStyle ∉ objectPrototypeKeys)
    (hc : isStyleColor ANSI.fg o.borderColor = true) (hl : 0 ≤ o.padding.left)
    (hr : 0 ≤ o.padding.right)
    (hcontent : ∀ line ∈ split NEWLINE o.content,
      (visibleLength line : Int) ≤ w - o.padding.left - o.padding.right)
    (htitle : o.title = [] ∨ ((visibleLength o.title : Int) + 2 ≤ w ∧ NEWLINE ∉ o.title)) :
    ∃ out, Box.build o = some out ∧
      ∀ line ∈ split NEWLINE out, (visibleLength line : Int) = w + 2 := by
  have hW : Box.innerWidth o = w := by
    simp only [Box.innerWidth, hw, if_pos (ne_of_gt hpos)]
  obtain ⟨border, hb⟩ := borderFor_some BORDERS BORDERS.single o.borderStyle hstyle
  have hplain := borderFor_box_plain hb
  obtain ⟨cls, hcls, _, qcls⟩ := optMap_forall (Box.contentLine o)
    (fun line => NEWLINE ∉ line ∧ (visibleLength line : Int) ≤ w - o.padding.left
      - o.padding.right)
    (fun cl => (visibleLength cl : Int) ≤ w ∧ NEWLINE ∉ cl)
    (fun line hline => by
      obtain ⟨cl, h1, h2, h3⟩ := Box_contentLine_width o hl hr line hline.1
        (by rw [hW]; exact hline.2)
      exact ⟨cl, h1, by rw [h2, hW], h3⟩)
    (split NEWLINE o.content) (fun line hline => ⟨(split_mem hline).1, hcontent line hline⟩)
  have hblank : (visibleLength ([] : Str) : Int) ≤ w ∧ NEWLINE ∉ ([] : Str) :=
    ⟨by simp only [visibleLength, stripAnsi_nil, List.length_nil]; omega, List.not_mem_nil _⟩
  have hpl : Box.paddedLines o = some (List.replicate o.padding.top.toNat [] ++ cls
      ++ List.replicate o.padding.bottom.toNat []) := by
    simp only [Box.paddedLines, hcls, Option.some_bind]
  have hfinal : ∀ x ∈ Box.finalLines o (List.replicate o.padding.top.toNat [] ++ cls
      ++ List.replicate o.padding.bottom.toNat []),
      (visibleLength x : Int) ≤ w ∧ NEWLINE ∉ x := by
    have hpadded : ∀ x ∈ List.replicate o.padding.top.toNat ([] : Str) ++ cls
        ++ List.replicate o.padding.bottom.toNat [], (visibleLength x : Int) ≤ w ∧ NEWLINE ∉ x := by
      intro x hx
      simp only [List.mem_append, List.mem_replicate] at hx
      rcases hx with (hx | hx) | hx
      · rw [hx.2]
        exact hblank
      · exact qcls x hx
      · rw [hx.2]
        exact hblank
    intro x hx
    unfold Box.finalLines at hx
    split at hx
    · split at hx
      · rcases mem_fitToHeight hx with h1 | h1
        · exact hpadded x h1
        · rw [h1]
          exact hblank
      · exact hpadded x hx
    · exact hpadded x hx
  obtain ⟨rows, hrows, _, qrows⟩ := optMap_forall (Box.frame border o.borderColor w)
    (fun line => (visibleLength line : Int) ≤ w ∧ NEWLINE ∉ line)
    (fun row => (visibleLength row : Int) = w + 2 ∧ NEWLINE ∉ row)
    (fun line hline => Box_frame_width border hplain o.borderColor hc w line hline.1 hline.2)
    _ hfinal
  obtain ⟨bottom, hbot, wbot, nbot⟩ := Box_bottomBorder_width border hplain o.borderColor hc w
    (le_of_lt hpos)
  have htop : ∃ top, Box.topBorder border o.borderColor o.title o.titleAlign w = some top ∧
      (visibleLength top : Int) = w + 2 ∧ NEWLINE ∉ top := by
    by_cases ht : o.title = []
    · rw [ht]
      exact Box_topBorder_plain_width border hplain o.borderColor hc o.titleAlign w
        (le_of_lt hpos)
    · rcases htitle with h0 | ⟨h1, h2⟩
      · exact absurd h0 ht
      · obtain ⟨top, e1, e2, e3⟩ := Box_topBorder_titled_width border hplain o.borderColor hc
          o.title o.titleAlign ht w h1
        exact ⟨top, e1, e2, e3 h2⟩
  obtain ⟨top, htop1, wtop, ntop⟩ := htop
  have hall : ∀ x ∈ [top] ++ rows ++ [bottom],
      (visibleLength x : Int) = w + 2 ∧ NEWLINE ∉ x := by
    intro x hx
    simp only [List.mem_append, List.mem_singleton] at hx
    rcases hx with (hx | hx) | hx
    · rw [hx]
      exact ⟨wtop, ntop⟩
    · exact qrows x hx
    · rw [hx]
      exact ⟨wbot, nbot⟩
  refine ⟨join [NEWLINE] ([top] ++ rows ++ [bottom]), ?_, ?_⟩
  · rw [Box_build_eq, Box.lines]
    simp only [hb, hpl, hW, Option.some_bind, htop1, hrows, hbot, Option.map_some']
  · rw [split_join_clean NEWLINE _ (by simp) (fun x hx => (hall x hx).2)]
    exact fun line hline => (hall line hline).1

set_option maxRecDepth 100000 in
/-- C37 at `Box({content: 'ab\nc', title: 'T', width: 6, borderColor: 'red'})`:
the five lines are eight wide. -/
theorem C37_box_line_widths_witness :
    ∃ out, Box.build (BoxOptions.mk (js "ab\nc") (js "T") (js "left") (some 6) none (.uniform 1)
        (js "single") (.str (js "red")) (js "left") (js "top")) = some out ∧
      ∀ line ∈ split NEWLINE out, (visibleLength line : Int) = 6 + 2 :=
  C37_box_line_widths (BoxOptions.mk (js "ab\nc") (js "T") (js "left") (some 6) none (.uniform 1)
      (js "single") (.str (js "red")) (js "left") (js "top")) 6 rfl (by decide) (by decide)
    (by decide) (by decide) (by decide) (by decide) (Or.inr (by decide))

/-! ## Facts about the widths of the lines of `Table` -/

theorem foldl_max_int_ge (a : Int) (l : List Int) :
    a ≤ l.foldl max a ∧ ∀ x ∈ l, x ≤ l.foldl max a := by
  induction l generalizing a with
  | nil => exact ⟨le_refl _, fun x hx => absurd hx (List.not_mem_nil _)⟩
  | cons y ys ih =>
    obtain ⟨h1, h2⟩ := ih (max a y)
    refine ⟨le_trans (le_max_left a y) h1, fun x hx => ?_⟩
    rcases List.mem_cons.1 hx with e | e
    · rw [e]
      exact le_trans (le_max_right a y) h1
    · exact h2 x e

theorem columnMax_nonneg (rows : List (List Str)) (i : Nat) : 0 ≤ columnMax rows i :=
  (foldl_max_int_ge 0 (widthsAt rows i)).1

/-- A cell is not wider than the maximum of its column. -/
theorem le_columnMax (rows : List (List Str)) (row : List Str) (hrow : row ∈ rows) (i : Nat)
    (cell : Str) (hcell : row.get? i = some cell) :
    (visibleLength cell : Int) ≤ columnMax rows i := by
  apply (foldl_max_int_ge 0 (widthsAt rows i)).2
  simp only [widthsAt, List.mem_map, List.mem_filterMap]
  exact ⟨cell, ⟨row, hrow, hcell⟩, rfl⟩

theorem visSum_cons (c : Str) (cs : List Str) :
    visSum (c :: cs) = (visibleLength c : Int) + visSum cs := by
  simp [visSum]

theorem visSum_nil : visSum [] = 0 := rfl

/-- The length of glyph-separated stripped cells. -/
theorem length_join_stripped (g : Str) (hg : g.length = 1) (cells : List Str)
    (hne : cells ≠ []) :
    ((join g (cells.map stripAnsi)).length : Int) = visSum cells + ((cells.length : Int) - 1) := by
  induction cells with
  | nil => exact absurd rfl hne
  | cons x rest ih =>
    cases rest with
    | nil => simp [join, visSum, visibleLength]
    | cons y rest2 =>
      have h := ih (List.cons_ne_nil _ _)
      simp only [List.map_cons] at h ⊢
      rw [join_cons_cons, List.length_append, List.length_append, hg, visSum_cons]
      push_cast
      rw [h]
      simp only [visibleLength, List.length_cons]
      push_cast
      ring

/-- A line made of a left glyph, cells joined by a middle glyph and a right
glyph, all three coloured: its visible width and its newlines. -/
theorem glyph_line_width (c : ColorSpec) (hc : isStyleColor ANSI.fg c = true)
    (gl gm gr : Str) (hl : isGlyph gl = true) (hm : isGlyph gm = true) (hr : isGlyph gr = true)
    (cells : List Str) (hne : cells ≠ []) (hnl : ∀ x ∈ cells, NEWLINE ∉ x) :
    ∃ l m r, colorize c gl = some l ∧ colorize c gm = some m ∧ colorize c gr = some r ∧
      (visibleLength (l ++ join m cells ++ r) : Int) = visSum cells + (cells.length : Int) + 1 ∧
      NEWLINE ∉ l ++ join m cells ++ r := by
  obtain ⟨l1, n1, b1, nl1⟩ := isGlyph_spec hl
  obtain ⟨l2, n2, b2, nl2⟩ := isGlyph_spec hm
  obtain ⟨l3, n3, b3, nl3⟩ := isGlyph_spec hr
  obtain ⟨l, hcl, sl, nnl⟩ := colorize_separating c hc gl b1 n1
  obtain ⟨m, hcm, sm, nnm⟩ := colorize_separating c hc gm b2 n2
  obtain ⟨r, hcr, sr, nnr⟩ := colorize_separating c hc gr b3 n3
  refine ⟨l, m, r, hcl, hcm, hcr, ?_, ?_⟩
  · have h := length_join_stripped gm l2 cells hne
    rw [visibleLength, List.append_assoc, separating_left sl, separating_right sr,
      stripAnsi_join_separating sm]
    simp only [List.length_append, l1, l3]
    push_cast
    rw [h]
    ring
  · simp only [List.mem_append, not_or]
    refine ⟨⟨nnl nl1, fun hj => ?_⟩, nnr nl3⟩
    rcases mem_join hj with h | ⟨w, hw, hx⟩
    · exact nnm nl2 h
    · exact hnl w hw hx

/-- A horizontal line of `Table` over plain glyphs: it is as wide as the sum of
the segments plus the number of columns plus 1. -/
theorem Table_rule_width (b : TableBorder) (c : ColorSpec) (hc : isStyleColor ANSI.fg c = true)
    (p : Int) (widths : List Int) (hne : widths ≠ []) (hnn : ∀ w ∈ widths, 0 ≤ w + p * 2)
    (left mid right : TableBorder → Str) (hl : isGlyph (left b) = true)
    (hm : isGlyph (mid b) = true) (hr : isGlyph (right b) = true)
    (hh : isGlyph b.horizontal = true) :
    ∃ line, Table.rule (some b) c p widths left mid right = some line ∧
      (visibleLength line : Int)
        = (widths.map (fun w => w + 2 * p)).sum + (widths.length : Int) + 1 ∧
      NEWLINE ∉ line := by
  obtain ⟨lh, nh, bh, nlh⟩ := isGlyph_spec hh
  obtain ⟨segs, hsegs, hlen, hvis, hnl⟩ : ∃ segs,
      optMap (fun w => (jsRepeat b.horizontal (w + p * 2)).bind fun h =>
        colorize c h) widths = some segs ∧ segs.length = widths.length ∧
      visSum segs = (widths.map (fun w => w + 2 * p)).sum ∧ ∀ x ∈ segs, NEWLINE ∉ x := by
    clear hne
    induction widths with
    | nil => exact ⟨[], rfl, rfl, rfl, fun x hx => absurd hx (List.not_mem_nil _)⟩
    | cons w ws ih =>
      obtain ⟨segs, h1, h2, h3, h4⟩ := ih (fun x hx => hnn x (List.mem_cons_of_mem _ hx))
      have hw := hnn w (List.mem_cons_self _ _)
      obtain ⟨s, hs, hstrip, hsn⟩ := colorize_strip c hc (strRepeat b.horizontal (w + p * 2).toNat)
      refine ⟨s :: segs, ?_, by simp [h2], ?_, ?_⟩
      · simp only [optMap, Option.some_bind, jsRepeat_of_nonneg _ _ hw, hs, h1]
      · rw [visSum_cons, h3, List.map_cons, List.sum_cons]
        simp only [visibleLength, hstrip,
          stripAnsi_plain _ (esc_not_mem_of_barrier (barrier_strRepeat bh _)),
          length_strRepeat_glyph lh]
        rw [Int.toNat_of_nonneg hw]
        ring
      · intro x hx
        rcases List.mem_cons.1 hx with e | e
        · rw [e]
          exact hsn (not_mem_strRepeat nlh _)
        · exact h4 x e
  have hsne : segs ≠ [] := by
    intro e
    rw [e] at hlen
    exact hne (List.length_eq_zero.1 hlen.symm)
  obtain ⟨l, m, r, hcl, hcm, hcr, hw, hn⟩ :=
    glyph_line_width c hc (left b) (mid b) (right b) hl hm hr segs hsne hnl
  refine ⟨l ++ join m segs ++ r, ?_, ?_, hn⟩
  · simp only [Table.rule, colorizeGlyph, colorizeSeparator, Option.map_some', hcl, hcm, hcr,
      hsegs, Option.some_bind]
  · rw [hw, hvis, hlen]

/-- A row of cells of `Table` over plain glyphs. -/
theorem Table_row_width (b : TableBorder) (c : ColorSpec) (hc : isStyleColor ANSI.fg c = true)
    (hv : isGlyph b.vertical = true) (cells : List Str) (hne : cells ≠ [])
    (hnl : ∀ x ∈ cells, NEWLINE ∉ x) :
    ∃ line, Table.row (some b) c cells = some line ∧
      (visibleLength line : Int) = visSum cells + (cells.length : Int) + 1 ∧
      NEWLINE ∉ line := by
  obtain ⟨l, m, r, hcl, hcm, hcr, hw, hn⟩ :=
    glyph_line_width c hc b.vertical b.vertical b.vertical hv hv hv cells hne hnl
  rw [hcl] at hcm hcr
  cases hcm
  cases hcr
  refine ⟨l ++ join l cells ++ l, ?_, hw, hn⟩
  simp only [Table.row, colorizeGlyph, colorizeSeparator, Option.map_some', hcl, Option.some_bind]

/-- A padded cell of `Table`: its width is the larger of the column width and
the width of the text, plus twice the padding. -/
theorem Table_cell_width (o : TableOptions) (hp : 0 ≤ o.padding) (widths : List Int)
    (cell : Str) (hnl : NEWLINE ∉ cell) (i : Nat) :
    ∃ out, Table.cell o widths cell i = some out ∧
      (visibleLength out : Int) = max (widths.getD i 0) (visibleLength cell) + 2 * o.padding ∧
      NEWLINE ∉ out := by
  refine ⟨strRepeat [SPACE] o.padding.toNat
    ++ pad cell (widths.getD i 0) (cellAlign o.align i) (js " ")
    ++ strRepeat [SPACE] o.padding.toNat, by
    simp only [Table.cell, jsRepeat_of_nonneg _ _ hp, Option.some_bind], ?_, ?_⟩
  · have h := visibleLength_pad cell (widths.getD i 0) (cellAlign o.align i)
    simp only [visibleLength] at h ⊢
    simp only [stripAnsi_spaces_append, List.append_assoc, stripAnsi_append_spaces,
      List.length_append, length_strRepeat]
    push_cast
    rw [h, Int.toNat_of_nonneg hp]
    ring
  · simp only [List.mem_append, not_or]
    exact ⟨⟨newline_not_mem_spaces _, newline_not_mem_pad cell hnl _ _⟩,
      newline_not_mem_spaces _⟩

/-- A header cell of `Table`: the padded cell, styled. -/
theorem Table_headerCell_width (o : TableOptions) (hp : 0 ≤ o.padding)
    (hc : isStyleColor ANSI.fg o.headerColor = true) (widths : List Int)
    (cell : Str) (hnl : NEWLINE ∉ cell) (i : Nat) :
    ∃ out, ((Table.cell o widths cell i).bind fun paddedContent =>
        if o.headerColor.truthy then
          Text.build (TextOptions.mk paddedContent o.headerColor .absent true false false
            false false false false)
        else some paddedContent) = some out ∧
      (visibleLength out : Int) = max (widths.getD i 0) (visibleLength cell) + 2 * o.padding ∧
      NEWLINE ∉ out := by
  obtain ⟨pc, h1, h2, h3⟩ := Table_cell_width o hp widths cell hnl i
  rw [h1, Option.some_bind]
  split
  · obtain ⟨cd, hcd, _, hcn⟩ := colorCode_fg_style hc
    obtain ⟨out, ho, hs⟩ := stripAnsi_Text_build pc o.headerColor .absent true false false
      false false false false hc rfl
    refine ⟨out, ho, by rw [visibleLength, hs]; exact h2, ?_⟩
    rw [Text_build_eq, hcd] at ho
    simp only [colorCode, Option.some_bind, Option.some.injEq] at ho
    rw [← ho]
    simp only [List.mem_append, not_or]
    exact ⟨⟨⟨⟨by decide, hcn⟩, List.not_mem_nil _⟩, h3⟩, by decide⟩
  · exact ⟨pc, rfl, h2, h3⟩

/-- The cells of a row that fits the column widths: their widths add up to the
widths of the columns they are in. -/
theorem optMapIdx_cells (F : Str → Nat → Option Str) (widths : List Int) (p : Int)
    (hF : ∀ cell i, NEWLINE ∉ cell → ∃ out, F cell i = some out ∧
      (visibleLength out : Int) = max (widths.getD i 0) (visibleLength cell) + 2 * p ∧
      NEWLINE ∉ out)
    (row : List Str) (i : Nat) (hnl : ∀ cell ∈ row, NEWLINE ∉ cell)
    (hfit : ∀ j cell, row.get? j = some cell →
      (visibleLength cell : Int) ≤ widths.getD (i + j) 0)
    (hlen : i + row.length ≤ widths.length) :
    ∃ cells, optMapIdx F i row = some cells ∧ cells.length = row.length ∧
      visSum cells = (((widths.drop i).take row.length).map (fun w => w + 2 * p)).sum ∧
      ∀ x ∈ cells, NEWLINE ∉ x := by
  induction row generalizing i with
  | nil => exact ⟨[], rfl, rfl, by simp [visSum], fun x hx => absurd hx (List.not_mem_nil _)⟩
  | cons c cs ih =>
    simp only [List.length_cons] at hlen
    obtain ⟨out, ho, hw, hn⟩ := hF c i (hnl c (List.mem_cons_self _ _))
    obtain ⟨cells, h1, h2, h3, h4⟩ := ih (i + 1)
      (fun x hx => hnl x (List.mem_cons_of_mem _ hx))
      (fun j cell hj => by
        have := hfit (j + 1) cell (by simpa using hj)
        rw [show i + 1 + j = i + (j + 1) by omega]
        exact this)
      (by omega)
    have hc0 := hfit 0 c rfl
    rw [Nat.add_zero] at hc0
    have hi : i < widths.length := by omega
    refine ⟨out :: cells, by simp only [optMapIdx, ho, h1, Option.some_bind], by simp [h2], ?_, ?_⟩
    · rw [visSum_cons, h3, hw, max_eq_left hc0, List.length_cons, List.drop_eq_getElem_cons hi,
        List.take_succ_cons, List.map_cons, List.sum_cons, List.getD_eq_getElem _ _ hi]
    · intro x hx
      rcases List.mem_cons.1 hx with e | e
      · rw [e]
        exact hn
      · exact h4 x e

theorem foldl_max_nat_le (b : Nat) (l : List Nat) (a : Nat) (ha : a ≤ b) (hl : ∀ x ∈ l, x ≤ b) :
    l.foldl max a ≤ b := by
  induction l generalizing a with
  | nil => exact ha
  | cons y ys ih =>
    exact ih (max a y) (max_le ha (hl y (List.mem_cons_self _ _)))
      (fun x hx => hl x (List.mem_cons_of_mem _ hx))

/-- A full row of cells that fit the column widths, between vertical glyphs. -/
theorem Table_cells_row_width (F : Str → Nat → Option Str) (widths : List Int) (p : Int)
    (hF : ∀ cell i, NEWLINE ∉ cell → ∃ out, F cell i = some out ∧
      (visibleLength out : Int) = max (widths.getD i 0) (visibleLength cell) + 2 * p ∧
      NEWLINE ∉ out)
    (b : TableBorder) (c : ColorSpec) (hc : isStyleColor ANSI.fg c = true)
    (hv : isGlyph b.vertical = true) (hne : widths ≠ [])
    (row : List Str) (hnl : ∀ cell ∈ row, NEWLINE ∉ cell)
    (hfit : ∀ j cell, row.get? j = some cell → (visibleLength cell : Int) ≤ widths.getD j 0)
    (hlen : row.length = widths.length) :
    ∃ line, ((optMapIdx F 0 row).bind fun cells => Table.row (some b) c cells) = some line ∧
      (visibleLength line : Int)
        = (widths.map (fun w => w + 2 * p)).sum + (widths.length : Int) + 1 ∧
      NEWLINE ∉ line := by
  obtain ⟨cells, h1, h2, h3, h4⟩ := optMapIdx_cells F widths p hF row 0 hnl
    (fun j cell hj => by rw [Nat.zero_add]; exact hfit j cell hj) (by omega)
  have hcne : cells ≠ [] := by
    intro e
    rw [e, hlen] at h2
    exact hne (List.length_eq_zero.1 h2.symm)
  obtain ⟨line, hl1, hl2, hl3⟩ := Table_row_width b c hc hv cells hcne h4
  refine ⟨line, by rw [h1, Option.some_bind, hl1], ?_, hl3⟩
  rw [hl2, h3, h2, hlen, List.drop_zero, List.take_length]

/-- The lines of the data rows all have a property that every data row and the
separator have. -/
theorem Table_dataLines_forall (o : TableOptions) (border : Option TableBorder)
    (widths : List Int) (Q : Str → Prop)
    (hsep : ∃ s, Table.separator o border widths = some s ∧ Q s)
    (rows : List (List Str))
    (hrow : ∀ row ∈ rows, ∃ line, Table.dataRow o border widths row = some line ∧ Q line) :
    ∃ ls, Table.dataLines o border widths rows = some ls ∧ ∀ l ∈ ls, Q l := by
  induction rows with
  | nil => exact ⟨[], rfl, fun l hl => absurd hl (List.not_mem_nil _)⟩
  | cons row rest ih =>
    obtain ⟨line, h1, q1⟩ := hrow row (List.mem_cons_self _ _)
    obtain ⟨s, h2, q2⟩ := hsep
    obtain ⟨more, h3, q3⟩ := ih (fun r hr => hrow r (List.mem_cons_of_mem _ hr))
    simp only [Table.dataRow, Option.bind_eq_some] at h1
    obtain ⟨cells, hc1, hc2⟩ := h1
    simp only [Table.separator] at h2
    by_cases hrest : rest = []
    · subst hrest
      refine ⟨[line], ?_, ?_⟩
      · simp [Table.dataLines, hc1, hc2]
      · intro l hl
        rw [List.mem_singleton.1 hl]
        exact q1
    · refine ⟨[line] ++ [s] ++ more, ?_, ?_⟩
      · simp only [Table.dataLines, hc1, hc2, Option.some_bind, ne_eq, hrest, not_false_eq_true,
          if_true, h2, h3]
      · intro l hl
        simp only [List.mem_append, List.mem_singleton] at hl
        rcases hl with (e | e) | e
        · rw [e]
          exact q1
        · rw [e]
          exact q2
        · exact q3 l e

/-! ## Claims on the widths of the lines of `Table` -/

/-- C38: for a table with `n >= 1` headers that are shown, rows of exactly `n`
cells, no `columnWidths`, a padding `p >= 0`, headers and cells without a newline,
a header colour and a border colour that are absent, a palette name or `#` and six
digits, and a border style that is not a name inherited by the table of borders,
`toString()` returns, there are `n` computed widths, and every line of the result
has the visible width `sum of (widths[i] + 2p) + n + 1`. -/
theorem C38_table_line_widths (o : TableOptions) (hcw : o.columnWidths = none)
    (hsh : o.showHeaders = true) (hn : 1 ≤ o.headers.length)
    (hrows : ∀ row ∈ o.rows, row.length = o.headers.length) (hp : 0 ≤ o.padding)
    (hhead : ∀ header ∈ o.headers, NEWLINE ∉ header)
    (hcells : ∀ row ∈ o.rows, ∀ cell ∈ row, NEWLINE ∉ cell)
    (hstyle : o.borderStyle ∉ objectPrototypeKeys)
    (hbc : isStyleColor ANSI.fg o.borderColor = true)
    (hhc : isStyleColor ANSI.fg o.headerColor = true) :
    (calculateColumnWidths o).length = o.headers.length ∧
    ∃ out, Table.build o = some out ∧
      ∀ line ∈ split NEWLINE out, (visibleLength line : Int)
        = ((calculateColumnWidths o).map (fun w => w + 2 * o.padding)).sum
          + (o.headers.length : Int) + 1 := by
  obtain ⟨hwlen, hget⟩ := calculateColumnWidths_auto o hcw
  have hlong : longestRow o.rows ≤ o.headers.length := by
    apply foldl_max_nat_le _ _ _ (Nat.zero_le _)
    intro x hx
    obtain ⟨r, hr, e⟩ := List.mem_map.1 hx
    rw [← e, hrows r hr]
  rw [max_eq_left hlong] at hwlen
  simp only [hsh, if_true] at hget
  refine ⟨hwlen, ?_⟩
  generalize hwd : calculateColumnWidths o = widths at hwlen hget
  have hne : widths ≠ [] := by
    intro e
    rw [e] at hwlen
    simp at hwlen
    omega
  have hnn : ∀ w ∈ widths, 0 ≤ w + o.padding * 2 := by
    intro w hw
    obtain ⟨i, hi, e⟩ := List.getElem_of_mem hw
    have := hget i
    rw [List.getD_eq_getElem _ _ hi, e] at this
    have h0 := columnMax_nonneg ([o.headers] ++ o.rows) i
    rw [← this] at h0
    omega
  have hfit : ∀ row ∈ [o.headers] ++ o.rows, ∀ j cell, row.get? j = some cell →
      (visibleLength cell : Int) ≤ widths.getD j 0 := by
    intro row hrow j cell hj
    rw [hget j]
    exact le_columnMax _ row hrow j cell hj
  obtain ⟨b, hb⟩ := borderFor_some TABLE_BORDERS TABLE_BORDERS.single o.borderStyle hstyle
  have hplain := borderFor_table_plain hb
  have hb2 : Table.border o = some b := hb
  simp only [TableBorder.plain, Bool.and_eq_true] at hplain
  obtain ⟨⟨⟨⟨⟨⟨⟨⟨⟨⟨tl, tr⟩, tj⟩, bl⟩, br⟩, bj⟩, lj⟩, rj⟩, mj⟩, hz⟩, vt⟩ := hplain
  obtain ⟨top, htop, wtop, ntop⟩ := Table_rule_width b o.borderColor hbc o.padding widths hne hnn
    (fun b => b.topLeft) (fun b => b.topJoin) (fun b => b.topRight) tl tj tr hz
  obtain ⟨sep, hsep, wsep, nsep⟩ := Table_rule_width b o.borderColor hbc o.padding widths hne hnn
    (fun b => b.leftJoin) (fun b => b.middleJoin) (fun b => b.rightJoin) lj mj rj hz
  obtain ⟨bot, hbot, wbot, nbot⟩ := Table_rule_width b o.borderColor hbc o.padding widths hne hnn
    (fun b => b.bottomLeft) (fun b => b.bottomJoin) (fun b => b.bottomRight) bl bj br hz
  obtain ⟨hdr, hhdr, whdr, nhdr⟩ := Table_cells_row_width
    (fun header i =>
      (Table.cell o widths header i).bind fun paddedContent =>
      if o.headerColor.truthy then
        Text.build (TextOptions.mk paddedContent o.headerColor .absent true false false
          false false false false)
      else some paddedContent) widths o.padding
    (fun cell i h => Table_headerCell_width o hp hhc widths cell h i) b o.borderColor hbc vt hne
    o.headers hhead (hfit o.headers (by simp)) hwlen.symm
  obtain ⟨dls, hdls, qdls⟩ := Table_dataLines_forall o (some b) widths
    (fun l => (visibleLength l : Int)
      = (widths.map (fun w => w + 2 * o.padding)).sum + (widths.length : Int) + 1 ∧ NEWLINE ∉ l)
    ⟨sep, hsep, wsep, nsep⟩ o.rows
    (fun row hrow => Table_cells_row_width (Table.cell o widths) widths o.padding
      (fun cell i h => Table_cell_width o hp widths cell h i) b o.borderColor hbc vt hne row
      (hcells row hrow) (hfit row (by simp [hrow])) (by rw [hrows row hrow, hwlen]))
  have hshown : Table.headerShown o = true := by
    simp only [Table.headerShown, hsh, Bool.true_and, decide_eq_true_eq]
    omega
  have hall : ∀ x ∈ [top] ++ [hdr, sep] ++ dls ++ [bot], (visibleLength x : Int)
      = (widths.map (fun w => w + 2 * o.padding)).sum + (widths.length : Int) + 1
        ∧ NEWLINE ∉ x := by
    intro x hx
    simp only [List.mem_append, List.mem_singleton, List.mem_cons, List.not_mem_nil,
      or_false] at hx
    rcases hx with ((e | e | e) | e) | e
    · rw [e]; exact ⟨wtop, ntop⟩
    · rw [e]; exact ⟨whdr, nhdr⟩
    · rw [e]; exact ⟨wsep, nsep⟩
    · exact qdls x e
    · rw [e]; exact ⟨wbot, nbot⟩
  refine ⟨join [NEWLINE] ([top] ++ [hdr, sep] ++ dls ++ [bot]), ?_, ?_⟩
  · rw [Table_build_eq, hwd, hb2]
    simp only [Table.topLine, Table.headerRow, Table.separator, Table.bottomLine, htop, hshown,
      if_true, hhdr, hsep, hdls, hbot, Option.some_bind]
  · rw [split_join_clean NEWLINE _ (by simp) (fun x hx => (hall x hx).2)]
    intro line hline
    rw [(hall line hline).1, hwlen]

set_option maxRecDepth 100000 in
/-- C38 at `Table({headers: ['a', 'bc'], rows: [['x', 'yz'], ['', 'w']],
borderColor: 'red'})`: two widths, and every line is as wide as the sum says. -/
theorem C38_table_line_widths_witness :
    (calculateColumnWidths (TableOptions.mk [js "a", js "bc"] [[js "x", js "yz"], [[], js "w"]]
      none 1 (js "single") (.str (js "cyan")) (.str (js "red")) (.single (js "left"))
      true)).length = 2 ∧
    ∃ out, Table.build (TableOptions.mk [js "a", js "bc"] [[js "x", js "yz"], [[], js "w"]]
        none 1 (js "single") (.str (js "cyan")) (.str (js "red")) (.single (js "left"))
        true) = some out ∧
      ∀ line ∈ split NEWLINE out, (visibleLength line : Int)
        = ((calculateColumnWidths (TableOptions.mk [js "a", js "bc"]
            [[js "x", js "yz"], [[], js "w"]] none 1 (js "single") (.str (js "cyan"))
            (.str (js "red")) (.single (js "left")) true)).map (fun w => w + 2 * 1)).sum
          + (2 : Int) + 1 :=
  C38_table_line_widths (TableOptions.mk [js "a", js "bc"] [[js "x", js "yz"], [[], js "w"]]
      none 1 (js "single") (.str (js "cyan")) (.str (js "red")) (.single (js "left")) true)
    rfl rfl (by decide) (by decide) (by decide) (by decide) (by decide) (by decide) (by decide)
    (by decide)

end ConsoleJHelper
